import Mathlib

set_option maxHeartbeats 1000000
set_option maxRecDepth 100000

/-!
Verification of the CCP-NC/metrics traffic scripts.

The repository holds two Python scripts:
  * .github/scripts/collect_traffic.py : fetches four traffic endpoints
    (views, clones, referrers, paths), reduces each payload to scalar
    summary fields, and upserts one row per (date, repository) into
    traffic-stats/summary.csv, saving raw snapshots on the way;
  * combine_json_files.py : folds all raw snapshot files for a
    (repository, metric) pair into one combined, date-sorted series.

This file is a shallow embedding of those scripts.  JSON values are an
inductive type; Python dicts are association lists preserving insertion
order; exceptions are modelled by Option/Except-style results.
-/

/-- JSON values as decoded by json.load.  Objects keep key insertion order,
as Python dicts do. -/
inductive Json where
  | null
  | bool (b : Bool)
  | num (n : Int)
  | str (s : String)
  | arr (items : List Json)
  | obj (fields : List (String × Json))
deriving Repr

/-! ## Metric Reducer: process_referrers and process_paths

collect_traffic.py lines 85-150.  The referrers payload is a list of
{referrer, count, uniques}; the paths payload is a list of
{path, title, count, uniques}.  The reducers are modelled on typed rows
(the shapes documented for the endpoints); the pandas operations used by
the source are: nlargest(1, [count, uniques]) with keep=first, column
sums, len(df), and a case-insensitive match of path against /readme.md. -/

/-- One row of the referrers payload. -/
structure RefEntry where
  referrer : String
  count : Int
  uniques : Int
deriving Repr, DecidableEq

/-- The fixed-width record produced by process_referrers. -/
structure RefSummary where
  top_referrer : String
  top_referrer_count : Int
  top_referrer_uniques : Int
  total_referrer_count : Int
  total_referrer_uniques : Int
  distinct_referrers : Int
deriving Repr, DecidableEq

/-- One row of the paths payload. -/
structure PathEntry where
  path : String
  title : String
  count : Int
  uniques : Int
deriving Repr, DecidableEq

/-- The fixed-width record produced by process_paths. -/
structure PathSummary where
  top_path : String
  top_path_count : Int
  top_path_uniques : Int
  total_path_count : Int
  total_path_uniques : Int
  distinct_paths : Int
  readme_views : Int
  readme_uniques : Int
deriving Repr, DecidableEq

/-- Strict lexicographic greater-than on (count, uniques) pairs: count
first, uniques as tie-break. -/
def lexGt (c1 u1 c2 u2 : Int) : Bool :=
  c1 > c2 || (c1 == c2 && u1 > u2)

/-- df.nlargest(1, [count, uniques]).iloc[0] with the default keep=first:
the row maximal under the (count, uniques) lexicographic order, the
earliest occurrence winning full ties. -/
def pickTop {α : Type} (count uniques : α → Int) (x : α) (xs : List α) : α :=
  xs.foldl (fun best e =>
    if lexGt (count e) (uniques e) (count best) (uniques best) then e else best) x

/-- The all-zero record returned for empty or missing referrers data
(collect_traffic.py lines 87-95). -/
def zeroRefSummary : RefSummary :=
  { top_referrer := "none"
    top_referrer_count := 0
    top_referrer_uniques := 0
    total_referrer_count := 0
    total_referrer_uniques := 0
    distinct_referrers := 0 }

/-- _process_referrers (collect_traffic.py lines 85-112).  A Python-falsy
input (None or the empty list) takes the default branch; the df.empty
branch is unreachable for list inputs because the empty list is falsy. -/
def process_referrers (referrers_data : Option (List RefEntry)) : RefSummary :=
  match referrers_data with
  | none => zeroRefSummary
  | some [] => zeroRefSummary
  | some (x :: xs) =>
    let top := pickTop RefEntry.count RefEntry.uniques x xs
    { top_referrer := top.referrer
      top_referrer_count := top.count
      top_referrer_uniques := top.uniques
      total_referrer_count := ((x :: xs).map RefEntry.count).sum
      total_referrer_uniques := ((x :: xs).map RefEntry.uniques).sum
      distinct_referrers := ((x :: xs).length : Int) }

/-- The all-zero record returned for empty or missing paths data
(collect_traffic.py lines 116-126). -/
def zeroPathSummary : PathSummary :=
  { top_path := "none"
    top_path_count := 0
    top_path_uniques := 0
    total_path_count := 0
    total_path_uniques := 0
    distinct_paths := 0
    readme_views := 0
    readme_uniques := 0 }

/-- The is_readme mask: df[path].str.lower() == /readme.md. -/
def isReadme (p : PathEntry) : Bool :=
  p.path.toLower == "/readme.md"

/-- _process_paths (collect_traffic.py lines 114-150). -/
def process_paths (paths_data : Option (List PathEntry)) : PathSummary :=
  match paths_data with
  | none => zeroPathSummary
  | some [] => zeroPathSummary
  | some (x :: xs) =>
    let top := pickTop PathEntry.count PathEntry.uniques x xs
    let readme := (x :: xs).filter isReadme
    { top_path := top.path
      top_path_count := top.count
      top_path_uniques := top.uniques
      total_path_count := ((x :: xs).map PathEntry.count).sum
      total_path_uniques := ((x :: xs).map PathEntry.uniques).sum
      distinct_paths := ((x :: xs).length : Int)
      readme_views := (readme.map PathEntry.count).sum
      readme_uniques := (readme.map PathEntry.uniques).sum }

/-! ### Facts about the top-row selection -/

/-- Non-strict lexicographic order on (count, uniques): what it means for
row a to be no larger than row b under the nlargest ordering. -/
def lexLe (c1 u1 c2 u2 : Int) : Prop :=
  c1 < c2 ∨ (c1 = c2 ∧ u1 ≤ u2)

theorem lexGt_eq_false_iff {c1 u1 c2 u2 : Int} :
    lexGt c1 u1 c2 u2 = false ↔ lexLe c1 u1 c2 u2 := by
  simp only [lexGt, lexLe, Bool.or_eq_false_iff, Bool.and_eq_false_iff,
    decide_eq_false_iff_not, not_lt, beq_eq_false_iff_ne, ne_eq]
  omega

theorem lexGt_eq_true_imp {c1 u1 c2 u2 : Int}
    (h : lexGt c1 u1 c2 u2 = true) : lexLe c2 u2 c1 u1 := by
  simp only [lexGt, Bool.or_eq_true, Bool.and_eq_true, decide_eq_true_eq,
    beq_iff_eq] at h
  simp only [lexLe]
  omega

theorem lexLe_refl (c u : Int) : lexLe c u c u := Or.inr ⟨rfl, le_refl u⟩

theorem lexLe_trans {c1 u1 c2 u2 c3 u3 : Int}
    (h1 : lexLe c1 u1 c2 u2) (h2 : lexLe c2 u2 c3 u3) : lexLe c1 u1 c3 u3 := by
  rcases h1 with h1 | ⟨h1, h1u⟩ <;> rcases h2 with h2 | ⟨h2, h2u⟩ <;>
    [exact Or.inl (lt_trans h1 h2); exact Or.inl (h2 ▸ h1);
     exact Or.inl (h1 ▸ h2); exact Or.inr ⟨h1.trans h2, le_trans h1u h2u⟩]

theorem lexLe_antisymm {c1 u1 c2 u2 : Int}
    (h1 : lexLe c1 u1 c2 u2) (h2 : lexLe c2 u2 c1 u1) : c1 = c2 ∧ u1 = u2 := by
  rcases h1 with h1 | ⟨h1, h1u⟩ <;> rcases h2 with h2 | ⟨h2, h2u⟩ <;> omega

/-- The row selected by pickTop is one of the input rows, and every input
row is lexicographically no larger than it. -/
theorem pickTop_spec {α : Type} (count uniques : α → Int) (x : α) (xs : List α) :
    pickTop count uniques x xs ∈ x :: xs ∧
      ∀ e ∈ x :: xs, lexLe (count e) (uniques e)
        (count (pickTop count uniques x xs)) (uniques (pickTop count uniques x xs)) := by
  induction xs generalizing x with
  | nil =>
    refine ⟨List.mem_singleton.mpr rfl, ?_⟩
    intro e he
    rw [List.mem_singleton] at he
    subst he
    exact lexLe_refl _ _
  | cons a xs ih =>
    have hstep : pickTop count uniques x (a :: xs) =
        pickTop count uniques
          (if lexGt (count a) (uniques a) (count x) (uniques x) then a else x) xs := by
      simp [pickTop, List.foldl_cons]
    set y := if lexGt (count a) (uniques a) (count x) (uniques x) then a else x with hy
    have hyx : lexLe (count x) (uniques x) (count y) (uniques y) := by
      rw [hy]
      by_cases h : lexGt (count a) (uniques a) (count x) (uniques x) = true
      · rw [if_pos h]
        exact lexGt_eq_true_imp h
      · rw [if_neg h]
        exact lexLe_refl _ _
    have hya : lexLe (count a) (uniques a) (count y) (uniques y) := by
      rw [hy]
      by_cases h : lexGt (count a) (uniques a) (count x) (uniques x) = true
      · rw [if_pos h]
        exact lexLe_refl _ _
      · rw [if_neg h]
        exact lexGt_eq_false_iff.mp (Bool.eq_false_iff.mpr (fun hc => h hc))
    have hymem : y ∈ x :: a :: xs := by
      rw [hy]
      by_cases h : lexGt (count a) (uniques a) (count x) (uniques x) = true
      · rw [if_pos h]
        exact List.mem_cons_of_mem _ (List.mem_cons_self _ _)
      · rw [if_neg h]
        exact List.mem_cons_self _ _
    obtain ⟨hmem, hge⟩ := ih y
    rw [hstep]
    constructor
    · rcases List.mem_cons.mp hmem with hm | hm
      · rw [hm]
        exact hymem
      · exact List.mem_cons_of_mem _ (List.mem_cons_of_mem _ hm)
    · intro e he
      rcases List.mem_cons.mp he with he | he
      · subst he
        exact lexLe_trans hyx (hge y (List.mem_cons_self _ _))
      · rcases List.mem_cons.mp he with he | he
        · subst he
          exact lexLe_trans hya (hge y (List.mem_cons_self _ _))
        · exact hge e (List.mem_cons_of_mem _ he)

/-- The top fields of a referrers summary come from an actual input row
that is lexicographically maximal. -/
theorem process_referrers_top_spec (x : RefEntry) (xs : List RefEntry) :
    ∃ t ∈ x :: xs,
      (process_referrers (some (x :: xs))).top_referrer = t.referrer ∧
      (process_referrers (some (x :: xs))).top_referrer_count = t.count ∧
      (process_referrers (some (x :: xs))).top_referrer_uniques = t.uniques ∧
      ∀ e ∈ x :: xs, lexLe e.count e.uniques t.count t.uniques := by
  obtain ⟨hm, hge⟩ := pickTop_spec RefEntry.count RefEntry.uniques x xs
  exact ⟨pickTop RefEntry.count RefEntry.uniques x xs, hm, rfl, rfl, rfl, hge⟩

/-- The top fields of a paths summary come from an actual input row that
is lexicographically maximal. -/
theorem process_paths_top_spec (x : PathEntry) (xs : List PathEntry) :
    ∃ t ∈ x :: xs,
      (process_paths (some (x :: xs))).top_path = t.path ∧
      (process_paths (some (x :: xs))).top_path_count = t.count ∧
      (process_paths (some (x :: xs))).top_path_uniques = t.uniques ∧
      ∀ e ∈ x :: xs, lexLe e.count e.uniques t.count t.uniques := by
  obtain ⟨hm, hge⟩ := pickTop_spec PathEntry.count PathEntry.uniques x xs
  exact ⟨pickTop PathEntry.count PathEntry.uniques x xs, hm, rfl, rfl, rfl, hge⟩

theorem process_referrers_total_count (l : List RefEntry) :
    (process_referrers (some l)).total_referrer_count = (l.map RefEntry.count).sum := by
  cases l <;> simp [process_referrers, zeroRefSummary]

theorem process_referrers_total_uniques (l : List RefEntry) :
    (process_referrers (some l)).total_referrer_uniques = (l.map RefEntry.uniques).sum := by
  cases l <;> simp [process_referrers, zeroRefSummary]

theorem process_referrers_distinct (l : List RefEntry) :
    (process_referrers (some l)).distinct_referrers = (l.length : Int) := by
  cases l <;> simp [process_referrers, zeroRefSummary]

theorem process_paths_total_count (l : List PathEntry) :
    (process_paths (some l)).total_path_count = (l.map PathEntry.count).sum := by
  cases l <;> simp [process_paths, zeroPathSummary]

theorem process_paths_total_uniques (l : List PathEntry) :
    (process_paths (some l)).total_path_uniques = (l.map PathEntry.uniques).sum := by
  cases l <;> simp [process_paths, zeroPathSummary]

theorem process_paths_distinct (l : List PathEntry) :
    (process_paths (some l)).distinct_paths = (l.length : Int) := by
  cases l <;> simp [process_paths, zeroPathSummary]

theorem process_paths_readme_views (l : List PathEntry) :
    (process_paths (some l)).readme_views = ((l.filter isReadme).map PathEntry.count).sum := by
  cases l with
  | nil => simp [process_paths, zeroPathSummary]
  | cons x xs => rfl

theorem process_paths_readme_uniques (l : List PathEntry) :
    (process_paths (some l)).readme_uniques = ((l.filter isReadme).map PathEntry.uniques).sum := by
  cases l with
  | nil => simp [process_paths, zeroPathSummary]
  | cons x xs => rfl

/-- C6: for every non-empty referrers list, the reducer selects as
top_referrer an input entry whose (count, uniques) is lexicographically
maximal (count first, uniques as tie-break), reports total_referrer_count
and total_referrer_uniques as the sums over all entries and
distinct_referrers as the entry count; on the google/bing example it
returns top_referrer bing, total_referrer_count 20, distinct_referrers 2. -/
theorem claim_C6 (l : List RefEntry) (h : l ≠ []) :
    (∃ t ∈ l,
      (process_referrers (some l)).top_referrer = t.referrer ∧
      (process_referrers (some l)).top_referrer_count = t.count ∧
      (process_referrers (some l)).top_referrer_uniques = t.uniques ∧
      ∀ e ∈ l, lexLe e.count e.uniques t.count t.uniques) ∧
    (process_referrers (some l)).total_referrer_count = (l.map RefEntry.count).sum ∧
    (process_referrers (some l)).total_referrer_uniques = (l.map RefEntry.uniques).sum ∧
    (process_referrers (some l)).distinct_referrers = (l.length : Int) ∧
    process_referrers (some [⟨"google", 10, 5⟩, ⟨"bing", 10, 8⟩]) =
      { top_referrer := "bing"
        top_referrer_count := 10
        top_referrer_uniques := 8
        total_referrer_count := 20
        total_referrer_uniques := 13
        distinct_referrers := 2 } := by
  match l, h with
  | x :: xs, _ =>
    refine ⟨process_referrers_top_spec x xs, process_referrers_total_count _,
      process_referrers_total_uniques _, process_referrers_distinct _, by decide⟩

/-- Witness for C6 at a concrete two-row input. -/
theorem claim_C6_witness :
    (∃ t ∈ ([⟨"google", 10, 5⟩, ⟨"bing", 10, 8⟩] : List RefEntry),
      (process_referrers (some [⟨"google", 10, 5⟩, ⟨"bing", 10, 8⟩])).top_referrer = t.referrer ∧
      (process_referrers (some [⟨"google", 10, 5⟩, ⟨"bing", 10, 8⟩])).top_referrer_count = t.count ∧
      (process_referrers (some [⟨"google", 10, 5⟩, ⟨"bing", 10, 8⟩])).top_referrer_uniques = t.uniques ∧
      ∀ e ∈ ([⟨"google", 10, 5⟩, ⟨"bing", 10, 8⟩] : List RefEntry),
        lexLe e.count e.uniques t.count t.uniques) ∧
    (process_referrers (some [⟨"google", 10, 5⟩, ⟨"bing", 10, 8⟩])).total_referrer_count =
      (([⟨"google", 10, 5⟩, ⟨"bing", 10, 8⟩] : List RefEntry).map RefEntry.count).sum ∧
    (process_referrers (some [⟨"google", 10, 5⟩, ⟨"bing", 10, 8⟩])).total_referrer_uniques =
      (([⟨"google", 10, 5⟩, ⟨"bing", 10, 8⟩] : List RefEntry).map RefEntry.uniques).sum ∧
    (process_referrers (some [⟨"google", 10, 5⟩, ⟨"bing", 10, 8⟩])).distinct_referrers =
      (([⟨"google", 10, 5⟩, ⟨"bing", 10, 8⟩] : List RefEntry).length : Int) ∧
    process_referrers (some [⟨"google", 10, 5⟩, ⟨"bing", 10, 8⟩]) =
      { top_referrer := "bing"
        top_referrer_count := 10
        top_referrer_uniques := 8
        total_referrer_count := 20
        total_referrer_uniques := 13
        distinct_referrers := 2 } :=
  claim_C6 [⟨"google", 10, 5⟩, ⟨"bing", 10, 8⟩] (by decide)

theorem refSummary_eq_of_fields {s t : RefSummary}
    (h1 : s.top_referrer = t.top_referrer)
    (h2 : s.top_referrer_count = t.top_referrer_count)
    (h3 : s.top_referrer_uniques = t.top_referrer_uniques)
    (h4 : s.total_referrer_count = t.total_referrer_count)
    (h5 : s.total_referrer_uniques = t.total_referrer_uniques)
    (h6 : s.distinct_referrers = t.distinct_referrers) : s = t := by
  cases s
  cases t
  simp only [RefSummary.mk.injEq]
  exact ⟨h1, h2, h3, h4, h5, h6⟩

theorem pathSummary_eq_of_fields {s t : PathSummary}
    (h1 : s.top_path = t.top_path)
    (h2 : s.top_path_count = t.top_path_count)
    (h3 : s.top_path_uniques = t.top_path_uniques)
    (h4 : s.total_path_count = t.total_path_count)
    (h5 : s.total_path_uniques = t.total_path_uniques)
    (h6 : s.distinct_paths = t.distinct_paths)
    (h7 : s.readme_views = t.readme_views)
    (h8 : s.readme_uniques = t.readme_uniques) : s = t := by
  cases s
  cases t
  simp only [PathSummary.mk.injEq]
  exact ⟨h1, h2, h3, h4, h5, h6, h7, h8⟩

/-- The (count, uniques) pair of the selected top referrer is invariant
under permutation of the input list. -/
theorem process_referrers_top_pair_perm {r1 r2 : List RefEntry} (h : r1.Perm r2) :
    (process_referrers (some r1)).top_referrer_count =
      (process_referrers (some r2)).top_referrer_count ∧
    (process_referrers (some r1)).top_referrer_uniques =
      (process_referrers (some r2)).top_referrer_uniques := by
  cases r1 with
  | nil =>
    have h2 : r2 = [] := List.Perm.eq_nil h.symm
    subst h2
    exact ⟨rfl, rfl⟩
  | cons x xs =>
    cases r2 with
    | nil =>
      have := List.Perm.eq_nil h
      simp at this
    | cons y ys =>
      obtain ⟨t1, ht1m, _, hc1, hu1, hmax1⟩ := process_referrers_top_spec x xs
      obtain ⟨t2, ht2m, _, hc2, hu2, hmax2⟩ := process_referrers_top_spec y ys
      have h12 : lexLe t1.count t1.uniques t2.count t2.uniques :=
        hmax2 t1 (h.mem_iff.mp ht1m)
      have h21 : lexLe t2.count t2.uniques t1.count t1.uniques :=
        hmax1 t2 (h.mem_iff.mpr ht2m)
      obtain ⟨hc, hu⟩ := lexLe_antisymm h12 h21
      rw [hc1, hu1, hc2, hu2]
      exact ⟨hc, hu⟩

/-- The (count, uniques) pair of the selected top path is invariant under
permutation of the input list. -/
theorem process_paths_top_pair_perm {p1 p2 : List PathEntry} (h : p1.Perm p2) :
    (process_paths (some p1)).top_path_count =
      (process_paths (some p2)).top_path_count ∧
    (process_paths (some p1)).top_path_uniques =
      (process_paths (some p2)).top_path_uniques := by
  cases p1 with
  | nil =>
    have h2 : p2 = [] := List.Perm.eq_nil h.symm
    subst h2
    exact ⟨rfl, rfl⟩
  | cons x xs =>
    cases p2 with
    | nil =>
      have := List.Perm.eq_nil h
      simp at this
    | cons y ys =>
      obtain ⟨t1, ht1m, _, hc1, hu1, hmax1⟩ := process_paths_top_spec x xs
      obtain ⟨t2, ht2m, _, hc2, hu2, hmax2⟩ := process_paths_top_spec y ys
      have h12 : lexLe t1.count t1.uniques t2.count t2.uniques :=
        hmax2 t1 (h.mem_iff.mp ht1m)
      have h21 : lexLe t2.count t2.uniques t1.count t1.uniques :=
        hmax1 t2 (h.mem_iff.mpr ht2m)
      obtain ⟨hc, hu⟩ := lexLe_antisymm h12 h21
      rw [hc1, hu1, hc2, hu2]
      exact ⟨hc, hu⟩

/-- Under a no-tie hypothesis (no two distinct rows share both count and
uniques), permuting the referrers input leaves the whole summary equal. -/
theorem process_referrers_perm_eq {r1 r2 : List RefEntry} (h : r1.Perm r2)
    (hnt : ∀ a ∈ r1, ∀ b ∈ r1, a.count = b.count → a.uniques = b.uniques → a = b) :
    process_referrers (some r1) = process_referrers (some r2) := by
  cases r1 with
  | nil =>
    have h2 : r2 = [] := List.Perm.eq_nil h.symm
    subst h2
    rfl
  | cons x xs =>
    cases r2 with
    | nil =>
      have := List.Perm.eq_nil h
      simp at this
    | cons y ys =>
      obtain ⟨t1, ht1m, hr1, hc1, hu1, hmax1⟩ := process_referrers_top_spec x xs
      obtain ⟨t2, ht2m, hr2, hc2, hu2, hmax2⟩ := process_referrers_top_spec y ys
      have h12 : lexLe t1.count t1.uniques t2.count t2.uniques :=
        hmax2 t1 (h.mem_iff.mp ht1m)
      have h21 : lexLe t2.count t2.uniques t1.count t1.uniques :=
        hmax1 t2 (h.mem_iff.mpr ht2m)
      obtain ⟨hc, hu⟩ := lexLe_antisymm h12 h21
      have ht : t1 = t2 := hnt t1 ht1m t2 (h.mem_iff.mpr ht2m) hc hu
      refine refSummary_eq_of_fields ?_ ?_ ?_ ?_ ?_ ?_
      · rw [hr1, hr2, ht]
      · rw [hc1, hc2, ht]
      · rw [hu1, hu2, ht]
      · rw [process_referrers_total_count, process_referrers_total_count,
          (h.map RefEntry.count).sum_eq]
      · rw [process_referrers_total_uniques, process_referrers_total_uniques,
          (h.map RefEntry.uniques).sum_eq]
      · rw [process_referrers_distinct, process_referrers_distinct, h.length_eq]

/-- Under a no-tie hypothesis, permuting the paths input leaves the whole
summary equal. -/
theorem process_paths_perm_eq {p1 p2 : List PathEntry} (h : p1.Perm p2)
    (hnt : ∀ a ∈ p1, ∀ b ∈ p1, a.count = b.count → a.uniques = b.uniques → a = b) :
    process_paths (some p1) = process_paths (some p2) := by
  cases p1 with
  | nil =>
    have h2 : p2 = [] := List.Perm.eq_nil h.symm
    subst h2
    rfl
  | cons x xs =>
    cases p2 with
    | nil =>
      have := List.Perm.eq_nil h
      simp at this
    | cons y ys =>
      obtain ⟨t1, ht1m, hr1, hc1, hu1, hmax1⟩ := process_paths_top_spec x xs
      obtain ⟨t2, ht2m, hr2, hc2, hu2, hmax2⟩ := process_paths_top_spec y ys
      have h12 : lexLe t1.count t1.uniques t2.count t2.uniques :=
        hmax2 t1 (h.mem_iff.mp ht1m)
      have h21 : lexLe t2.count t2.uniques t1.count t1.uniques :=
        hmax1 t2 (h.mem_iff.mpr ht2m)
      obtain ⟨hc, hu⟩ := lexLe_antisymm h12 h21
      have ht : t1 = t2 := hnt t1 ht1m t2 (h.mem_iff.mpr ht2m) hc hu
      refine pathSummary_eq_of_fields ?_ ?_ ?_ ?_ ?_ ?_ ?_ ?_
      · rw [hr1, hr2, ht]
      · rw [hc1, hc2, ht]
      · rw [hu1, hu2, ht]
      · rw [process_paths_total_count, process_paths_total_count,
          (h.map PathEntry.count).sum_eq]
      · rw [process_paths_total_uniques, process_paths_total_uniques,
          (h.map PathEntry.uniques).sum_eq]
      · rw [process_paths_distinct, process_paths_distinct, h.length_eq]
      · rw [process_paths_readme_views, process_paths_readme_views,
          ((h.filter isReadme).map PathEntry.count).sum_eq]
      · rw [process_paths_readme_uniques, process_paths_readme_uniques,
          ((h.filter isReadme).map PathEntry.uniques).sum_eq]

/-- C7 counterexample: two referrers rows fully tied on (count, uniques)
swap places, and the selected top entry changes, because nlargest with
keep=first takes the earliest occurrence. -/
theorem claim_C7_counterexample :
    ([⟨"alpha", 1, 1⟩, ⟨"beta", 1, 1⟩] : List RefEntry).Perm
        [⟨"beta", 1, 1⟩, ⟨"alpha", 1, 1⟩] ∧
    process_referrers (some [⟨"alpha", 1, 1⟩, ⟨"beta", 1, 1⟩]) ≠
      process_referrers (some [⟨"beta", 1, 1⟩, ⟨"alpha", 1, 1⟩]) := by
  constructor
  · exact List.Perm.swap _ _ _
  · decide

/-- C7 (amended): permuting a referrers or paths input never changes the
aggregate sums, the entry counts, the readme sums, or the (count, uniques)
pair of the selected top entry; the identity of the selected top entry
itself is stable whenever no two distinct rows are fully tied on
(count, uniques), but may change between fully tied rows. -/
theorem claim_C7_amended (r1 r2 : List RefEntry) (p1 p2 : List PathEntry)
    (hr : r1.Perm r2) (hp : p1.Perm p2) :
    ((process_referrers (some r1)).total_referrer_count =
        (process_referrers (some r2)).total_referrer_count ∧
      (process_referrers (some r1)).total_referrer_uniques =
        (process_referrers (some r2)).total_referrer_uniques ∧
      (process_referrers (some r1)).distinct_referrers =
        (process_referrers (some r2)).distinct_referrers ∧
      (process_referrers (some r1)).top_referrer_count =
        (process_referrers (some r2)).top_referrer_count ∧
      (process_referrers (some r1)).top_referrer_uniques =
        (process_referrers (some r2)).top_referrer_uniques) ∧
    ((∀ a ∈ r1, ∀ b ∈ r1, a.count = b.count → a.uniques = b.uniques → a = b) →
      process_referrers (some r1) = process_referrers (some r2)) ∧
    ((process_paths (some p1)).total_path_count =
        (process_paths (some p2)).total_path_count ∧
      (process_paths (some p1)).total_path_uniques =
        (process_paths (some p2)).total_path_uniques ∧
      (process_paths (some p1)).distinct_paths =
        (process_paths (some p2)).distinct_paths ∧
      (process_paths (some p1)).readme_views =
        (process_paths (some p2)).readme_views ∧
      (process_paths (some p1)).readme_uniques =
        (process_paths (some p2)).readme_uniques ∧
      (process_paths (some p1)).top_path_count =
        (process_paths (some p2)).top_path_count ∧
      (process_paths (some p1)).top_path_uniques =
        (process_paths (some p2)).top_path_uniques) ∧
    ((∀ a ∈ p1, ∀ b ∈ p1, a.count = b.count → a.uniques = b.uniques → a = b) →
      process_paths (some p1) = process_paths (some p2)) := by
  obtain ⟨hrc, hru⟩ := process_referrers_top_pair_perm hr
  obtain ⟨hpc, hpu⟩ := process_paths_top_pair_perm hp
  refine ⟨⟨?_, ?_, ?_, hrc, hru⟩, fun hnt => process_referrers_perm_eq hr hnt,
    ⟨?_, ?_, ?_, ?_, ?_, hpc, hpu⟩, fun hnt => process_paths_perm_eq hp hnt⟩
  · rw [process_referrers_total_count, process_referrers_total_count,
      (hr.map RefEntry.count).sum_eq]
  · rw [process_referrers_total_uniques, process_referrers_total_uniques,
      (hr.map RefEntry.uniques).sum_eq]
  · rw [process_referrers_distinct, process_referrers_distinct, hr.length_eq]
  · rw [process_paths_total_count, process_paths_total_count,
      (hp.map PathEntry.count).sum_eq]
  · rw [process_paths_total_uniques, process_paths_total_uniques,
      (hp.map PathEntry.uniques).sum_eq]
  · rw [process_paths_distinct, process_paths_distinct, hp.length_eq]
  · rw [process_paths_readme_views, process_paths_readme_views,
      ((hp.filter isReadme).map PathEntry.count).sum_eq]
  · rw [process_paths_readme_uniques, process_paths_readme_uniques,
      ((hp.filter isReadme).map PathEntry.uniques).sum_eq]

/-- Concrete referrers input used for the C7 witness. -/
def refsA : List RefEntry := [⟨"google", 10, 5⟩, ⟨"bing", 10, 8⟩]

/-- refsA reversed. -/
def refsB : List RefEntry := [⟨"bing", 10, 8⟩, ⟨"google", 10, 5⟩]

/-- Concrete paths input used for the C7 witness. -/
def pathsA : List PathEntry := [⟨"/index.html", "Home", 7, 3⟩, ⟨"/readme.md", "Readme", 4, 2⟩]

/-- pathsA reversed. -/
def pathsB : List PathEntry := [⟨"/readme.md", "Readme", 4, 2⟩, ⟨"/index.html", "Home", 7, 3⟩]

/-- Witness for the amended C7 at a concrete pair of permuted inputs. -/
theorem claim_C7_amended_witness :
    ((process_referrers (some refsA)).total_referrer_count =
        (process_referrers (some refsB)).total_referrer_count ∧
      (process_referrers (some refsA)).total_referrer_uniques =
        (process_referrers (some refsB)).total_referrer_uniques ∧
      (process_referrers (some refsA)).distinct_referrers =
        (process_referrers (some refsB)).distinct_referrers ∧
      (process_referrers (some refsA)).top_referrer_count =
        (process_referrers (some refsB)).top_referrer_count ∧
      (process_referrers (some refsA)).top_referrer_uniques =
        (process_referrers (some refsB)).top_referrer_uniques) ∧
    ((∀ a ∈ refsA, ∀ b ∈ refsA, a.count = b.count → a.uniques = b.uniques → a = b) →
      process_referrers (some refsA) = process_referrers (some refsB)) ∧
    ((process_paths (some pathsA)).total_path_count =
        (process_paths (some pathsB)).total_path_count ∧
      (process_paths (some pathsA)).total_path_uniques =
        (process_paths (some pathsB)).total_path_uniques ∧
      (process_paths (some pathsA)).distinct_paths =
        (process_paths (some pathsB)).distinct_paths ∧
      (process_paths (some pathsA)).readme_views =
        (process_paths (some pathsB)).readme_views ∧
      (process_paths (some pathsA)).readme_uniques =
        (process_paths (some pathsB)).readme_uniques ∧
      (process_paths (some pathsA)).top_path_count =
        (process_paths (some pathsB)).top_path_count ∧
      (process_paths (some pathsA)).top_path_uniques =
        (process_paths (some pathsB)).top_path_uniques) ∧
    ((∀ a ∈ pathsA, ∀ b ∈ pathsA, a.count = b.count → a.uniques = b.uniques → a = b) →
      process_paths (some pathsA) = process_paths (some pathsB)) :=
  claim_C7_amended refsA refsB pathsA pathsB (List.Perm.swap _ _ _) (List.Perm.swap _ _ _)

/-! ## Summary Store: update_summary

collect_traffic.py lines 158-180.  The summary table is a CSV loaded into
a DataFrame.  A row, and equally an incoming daily record, is the
(timestamp, repository) key plus the remaining columns.  collect_metrics
always sets timestamp and repository first and always to strings, and
update_summary masks and sorts on exactly those two columns, so they are
modelled as typed fields; the other columns are an ordered association
list of column name to JSON value, as a pandas row built from a Python
dict (a cell the row does not have corresponds to a NaN cell in pandas).
-/

/-- One summary row or one incoming daily record. -/
structure Record where
  timestamp : String
  repository : String
  fields : List (String × Json)

/-- The (date, repository) natural key used by the mask
df[timestamp] == ... and df[repository] == ... . -/
def rkey (r : Record) : String × String := (r.timestamp, r.repository)

/-- df.loc[mask, key] = value restricted to one masked row: overwrite the
cell if the column exists (all cells of a duplicated column name are
overwritten, matching the dict-of-columns view), else append the new
column at the end. -/
def setField (fs : List (String × Json)) (k : String) (v : Json) :
    List (String × Json) :=
  if fs.any (fun p => p.1 = k) then
    fs.map (fun p => if p.1 = k then (k, v) else p)
  else fs ++ [(k, v)]

/-- The for key, value in daily_data.items() loop of update_summary,
restricted to one masked row: each incoming field overwrites its column
in turn. -/
def applyFields (fs upd : List (String × Json)) : List (String × Json) :=
  upd.foldl (fun acc p => setField acc p.1 p.2) fs

/-- Column-wise update of a matched row.  The loop also assigns the
timestamp and repository columns, but the mask guarantees those values
are unchanged. -/
def updateRow (row r : Record) : Record :=
  { row with fields := applyFields row.fields r.fields }

/-- The sort_values([timestamp, repository]) row order. -/
def rowLe (a b : Record) : Prop :=
  a.timestamp < b.timestamp ∨ (a.timestamp = b.timestamp ∧ a.repository ≤ b.repository)

instance : DecidableRel rowLe := fun a b => by
  unfold rowLe
  infer_instance

instance : IsTotal Record rowLe := by
  constructor
  intro a b
  rcases lt_trichotomy a.timestamp b.timestamp with h | h | h
  · exact Or.inl (Or.inl h)
  · rcases le_total a.repository b.repository with h2 | h2
    · exact Or.inl (Or.inr ⟨h, h2⟩)
    · exact Or.inr (Or.inr ⟨h.symm, h2⟩)
  · exact Or.inr (Or.inl h)

instance : IsTrans Record rowLe := by
  constructor
  intro a b c hab hbc
  rcases hab with h1 | ⟨h1, h1r⟩ <;> rcases hbc with h2 | ⟨h2, h2r⟩
  · exact Or.inl (lt_trans h1 h2)
  · exact Or.inl (h2 ▸ h1)
  · exact Or.inl (h1 ▸ h2)
  · exact Or.inr ⟨h1.trans h2, h1r.trans h2r⟩

/-- _update_summary (collect_traffic.py lines 158-177): locate rows
matching (timestamp, repository); if any, overwrite each incoming field
column-wise on the matched rows; else append the record as a new row;
then re-sort by (timestamp, repository) and persist. -/
def upsert (table : List Record) (r : Record) : List Record :=
  (if table.any (fun row => rkey row = rkey r) then
      table.map (fun row => if rkey row = rkey r then updateRow row r else row)
    else table ++ [r]).insertionSort rowLe

/-- The summary table obtained from a sequence of collection runs,
starting from an absent summary.csv (the empty table). -/
def buildTable (rs : List Record) : List Record := rs.foldl upsert []

/-- First-match column lookup in a row (the value a pandas cell holds). -/
def getField (fs : List (String × Json)) (k : String) : Option Json :=
  match fs with
  | [] => none
  | p :: rest => if p.1 = k then some p.2 else getField rest k

/-- The last value the daily record assigns to column k, if any. -/
def lastVal (upd : List (String × Json)) (k : String) : Option Json :=
  match upd with
  | [] => none
  | p :: rest =>
    match lastVal rest k with
    | some v => some v
    | none => if p.1 = k then some p.2 else none

/-- The column names of a row, in order. -/
def fieldKeys (fs : List (String × Json)) : List String := fs.map Prod.fst

theorem mem_fieldKeys_iff_any (fs : List (String × Json)) (k : String) :
    k ∈ fieldKeys fs ↔ fs.any (fun p => p.1 = k) = true := by
  simp only [fieldKeys, List.mem_map, List.any_eq_true]
  constructor
  · rintro ⟨p, hp, hk⟩
    exact ⟨p, hp, by simp [hk]⟩
  · rintro ⟨p, hp, hk⟩
    exact ⟨p, hp, by simpa using hk⟩

theorem getField_append (l1 l2 : List (String × Json)) (k : String) :
    getField (l1 ++ l2) k =
      match getField l1 k with
      | some v => some v
      | none => getField l2 k := by
  induction l1 with
  | nil => rfl
  | cons p rest ih =>
    by_cases h : p.1 = k
    · simp [getField, h]
    · simp only [List.cons_append, getField, if_neg h]
      exact ih

theorem getField_map_overwrite_self (fs : List (String × Json)) (k : String) (v : Json)
    (h : fs.any (fun p => p.1 = k) = true) :
    getField (fs.map (fun p => if p.1 = k then (k, v) else p)) k = some v := by
  induction fs with
  | nil => simp at h
  | cons p rest ih =>
    by_cases hp : p.1 = k
    · simp [getField, hp]
    · simp only [List.any_cons, Bool.or_eq_true, decide_eq_true_eq] at h
      rcases h with h | h
      · exact absurd h hp
      · simp only [List.map_cons, if_neg hp, getField, if_neg hp]
        exact ih h

theorem getField_map_overwrite_other (fs : List (String × Json)) (k k' : String) (v : Json)
    (hne : k' ≠ k) :
    getField (fs.map (fun p => if p.1 = k' then (k', v) else p)) k = getField fs k := by
  induction fs with
  | nil => rfl
  | cons p rest ih =>
    by_cases hp : p.1 = k'
    · simp only [List.map_cons, if_pos hp, getField, if_neg hne, if_neg (hp ▸ hne)]
      exact ih
    · simp only [List.map_cons, if_neg hp, getField]
      by_cases hk : p.1 = k
      · rw [if_pos hk, if_pos hk]
      · rw [if_neg hk, if_neg hk]
        exact ih

theorem getField_eq_none_of_any_false (fs : List (String × Json)) (k : String)
    (h : fs.any (fun p => p.1 = k) = false) : getField fs k = none := by
  induction fs with
  | nil => rfl
  | cons p rest ih =>
    simp only [List.any_cons, Bool.or_eq_false_iff, decide_eq_false_iff_not] at h
    simp only [getField, if_neg h.1]
    exact ih h.2

theorem getField_setField_self (fs : List (String × Json)) (k : String) (v : Json) :
    getField (setField fs k v) k = some v := by
  unfold setField
  by_cases h : fs.any (fun p => p.1 = k)
  · rw [if_pos h]
    exact getField_map_overwrite_self fs k v h
  · rw [if_neg h]
    rw [getField_append, getField_eq_none_of_any_false fs k (Bool.eq_false_iff.mpr h)]
    simp [getField]

theorem getField_setField_other (fs : List (String × Json)) (k k' : String) (v : Json)
    (hne : k' ≠ k) : getField (setField fs k' v) k = getField fs k := by
  unfold setField
  by_cases h : fs.any (fun p => p.1 = k')
  · rw [if_pos h]
    exact getField_map_overwrite_other fs k k' v hne
  · rw [if_neg h]
    rw [getField_append]
    cases hg : getField fs k with
    | some w => rfl
    | none => simp [getField, if_neg hne]

theorem applyFields_cons (fs : List (String × Json)) (q : String × Json)
    (rest : List (String × Json)) :
    applyFields fs (q :: rest) = applyFields (setField fs q.1 q.2) rest := rfl

/-- A cell of the updated row: the last value the record assigns to the
column if it assigns one, else the old cell. -/
theorem getField_applyFields (fs upd : List (String × Json)) (k : String) :
    getField (applyFields fs upd) k =
      match lastVal upd k with
      | some v => some v
      | none => getField fs k := by
  induction upd generalizing fs with
  | nil => rfl
  | cons q rest ih =>
    rw [applyFields_cons, ih]
    cases hlv : lastVal rest k with
    | some v => simp [lastVal, hlv]
    | none =>
      simp only [lastVal, hlv]
      by_cases hqk : q.1 = k
      · subst hqk
        simp [getField_setField_self]
      · rw [if_neg hqk, getField_setField_other fs k q.1 q.2 hqk]

theorem fieldKeys_map_overwrite (fs : List (String × Json)) (k : String) (v : Json) :
    fieldKeys (fs.map (fun p => if p.1 = k then (k, v) else p)) = fieldKeys fs := by
  simp only [fieldKeys, List.map_map]
  refine List.map_congr_left ?_
  intro p _
  by_cases hp : p.1 = k
  · simp [hp]
  · simp [hp]

theorem fieldKeys_setField_of_mem (fs : List (String × Json)) (k : String) (v : Json)
    (h : k ∈ fieldKeys fs) : fieldKeys (setField fs k v) = fieldKeys fs := by
  unfold setField
  rw [if_pos ((mem_fieldKeys_iff_any fs k).mp h)]
  exact fieldKeys_map_overwrite fs k v

theorem fieldKeys_subset_setField (fs : List (String × Json)) (k : String) (v : Json) :
    fieldKeys fs ⊆ fieldKeys (setField fs k v) := by
  unfold setField
  by_cases h : fs.any (fun p => p.1 = k)
  · rw [if_pos h, fieldKeys_map_overwrite]
    exact fun a ha => ha
  · rw [if_neg h]
    intro a ha
    simp only [fieldKeys, List.map_append, List.mem_append]
    exact Or.inl ha

theorem mem_fieldKeys_setField (fs : List (String × Json)) (k : String) (v : Json) :
    k ∈ fieldKeys (setField fs k v) := by
  unfold setField
  by_cases h : fs.any (fun p => p.1 = k)
  · rw [if_pos h, fieldKeys_map_overwrite]
    exact (mem_fieldKeys_iff_any fs k).mpr h
  · rw [if_neg h]
    simp [fieldKeys]

theorem fieldKeys_subset_applyFields (fs upd : List (String × Json)) :
    fieldKeys fs ⊆ fieldKeys (applyFields fs upd) := by
  induction upd generalizing fs with
  | nil => exact fun a ha => ha
  | cons q rest ih =>
    rw [applyFields_cons]
    exact fun a ha => ih (setField fs q.1 q.2) (fieldKeys_subset_setField fs q.1 q.2 ha)

theorem fieldKeys_upd_subset_applyFields (fs upd : List (String × Json)) :
    fieldKeys upd ⊆ fieldKeys (applyFields fs upd) := by
  induction upd generalizing fs with
  | nil => intro a ha; simp [fieldKeys] at ha
  | cons q rest ih =>
    intro a ha
    rw [applyFields_cons]
    simp only [fieldKeys, List.map_cons, List.mem_cons] at ha
    rcases ha with ha | ha
    · subst ha
      exact fieldKeys_subset_applyFields (setField fs q.1 q.2) rest
        (mem_fieldKeys_setField fs q.1 q.2)
    · exact ih (setField fs q.1 q.2) ha

/-- When every incoming column already exists, the field loop is a pure
in-place map: each cell takes the last value assigned to its column, no
column is added and the column order is unchanged. -/
theorem applyFields_eq_map (fs upd : List (String × Json))
    (h : fieldKeys upd ⊆ fieldKeys fs) :
    applyFields fs upd = fs.map (fun p => (p.1, (lastVal upd p.1).getD p.2)) := by
  induction upd generalizing fs with
  | nil =>
    simp only [applyFields, List.foldl_nil, lastVal, Option.getD_none]
    exact (List.map_id fs).symm ▸ (List.map_congr_left (fun p _ => rfl)).symm
  | cons q rest ih =>
    have hq : q.1 ∈ fieldKeys fs := h (by simp [fieldKeys])
    have hany : fs.any (fun p => p.1 = q.1) = true := (mem_fieldKeys_iff_any fs q.1).mp hq
    rw [applyFields_cons]
    have hsub : fieldKeys rest ⊆ fieldKeys (setField fs q.1 q.2) := by
      intro a ha
      apply fieldKeys_subset_setField
      apply h
      simp only [fieldKeys, List.map_cons, List.mem_cons]
      exact Or.inr ha
    rw [ih (setField fs q.1 q.2) hsub]
    unfold setField
    rw [if_pos hany, List.map_map]
    refine List.map_congr_left ?_
    intro p _
    by_cases hp : p.1 = q.1
    · simp only [Function.comp_apply, if_pos hp]
      cases hlv : lastVal rest q.1 with
      | some w => simp [lastVal, hp, hlv]
      | none => simp [lastVal, hp, hlv]
    · simp only [Function.comp_apply, if_neg hp]
      have hq2 : ¬ q.1 = p.1 := fun hc => hp hc.symm
      cases hlv : lastVal rest p.1 with
      | some w => simp [lastVal, hlv, hq2]
      | none => simp [lastVal, hlv, hq2]

theorem setField_value_at_key (fs : List (String × Json)) (k : String) (v : Json) :
    ∀ p ∈ setField fs k v, p.1 = k → p.2 = v := by
  intro p hp hk
  unfold setField at hp
  by_cases h : fs.any (fun q => q.1 = k)
  · rw [if_pos h] at hp
    obtain ⟨q, _, hq⟩ := List.mem_map.mp hp
    by_cases hqk : q.1 = k
    · rw [if_pos hqk] at hq
      rw [← hq]
    · rw [if_neg hqk] at hq
      exact absurd (hq ▸ hk) hqk
  · rw [if_neg h] at hp
    rcases List.mem_append.mp hp with hp | hp
    · exact absurd ((List.any_eq_true).mpr ⟨p, hp, by simp [hk]⟩) h
    · rw [List.mem_singleton.mp hp]

theorem setField_preserves_value_at_key (fs : List (String × Json)) (k k' : String)
    (v v' : Json) (hne : k' ≠ k) (h : ∀ q ∈ fs, q.1 = k → q.2 = v) :
    ∀ p ∈ setField fs k' v', p.1 = k → p.2 = v := by
  intro p hp hk
  unfold setField at hp
  by_cases ha : fs.any (fun q => q.1 = k')
  · rw [if_pos ha] at hp
    obtain ⟨q, hqm, hq⟩ := List.mem_map.mp hp
    by_cases hqk : q.1 = k'
    · rw [if_pos hqk] at hq
      rw [← hq] at hk
      exact absurd hk hne
    · rw [if_neg hqk] at hq
      rw [← hq] at hk ⊢
      exact h q hqm hk
  · rw [if_neg ha] at hp
    rcases List.mem_append.mp hp with hp | hp
    · exact h p hp hk
    · rw [List.mem_singleton.mp hp] at hk ⊢
      exact absurd hk hne

theorem applyFields_preserves_value_at_key (upd : List (String × Json)) (k : String)
    (v : Json) :
    ∀ fs, lastVal upd k = none → (∀ q ∈ fs, q.1 = k → q.2 = v) →
      ∀ p ∈ applyFields fs upd, p.1 = k → p.2 = v := by
  induction upd with
  | nil => exact fun fs _ h p hp hk => h p hp hk
  | cons q rest ih =>
    intro fs hlv h p hp hk
    have hrest : lastVal rest k = none := by
      unfold lastVal at hlv
      cases hr : lastVal rest k with
      | some w => rw [hr] at hlv; exact absurd hlv (by simp)
      | none => rfl
    have hq1 : q.1 ≠ k := by
      unfold lastVal at hlv
      rw [hrest] at hlv
      intro hc
      rw [if_pos hc] at hlv
      exact absurd hlv (by simp)
    rw [applyFields_cons] at hp
    exact ih (setField fs q.1 q.2) hrest
      (setField_preserves_value_at_key fs k q.1 v q.2 hq1 h) p hp hk

/-- Every cell of the updated row whose column the record assigns carries
the last value assigned to that column. -/
theorem applyFields_value_at_assigned_key (upd : List (String × Json)) :
    ∀ fs, ∀ p ∈ applyFields fs upd, ∀ w, lastVal upd p.1 = some w → p.2 = w := by
  induction upd with
  | nil =>
    intro fs p _ w hw
    simp [lastVal] at hw
  | cons q rest ih =>
    intro fs p hp w hw
    rw [applyFields_cons] at hp
    cases hlv : lastVal rest p.1 with
    | some v =>
      have : w = v := by
        unfold lastVal at hw
        rw [hlv] at hw
        exact (Option.some.injEq _ _ ▸ hw).symm
      rw [this]
      exact ih (setField fs q.1 q.2) p hp v hlv
    | none =>
      have hqp : q.1 = p.1 ∧ w = q.2 := by
        unfold lastVal at hw
        rw [hlv] at hw
        by_cases hc : q.1 = p.1
        · rw [if_pos hc] at hw
          exact ⟨hc, (Option.some.injEq _ _ ▸ hw).symm⟩
        · rw [if_neg hc] at hw
          exact absurd hw (by simp)
      rw [hqp.2]
      exact applyFields_preserves_value_at_key rest p.1 q.2 (setField fs q.1 q.2) hlv
        (fun r hr h1 => setField_value_at_key fs q.1 q.2 r hr (h1.trans hqp.1.symm)) p hp rfl

theorem lastVal_isSome_of_mem_keys (upd : List (String × Json)) (k : String)
    (h : k ∈ fieldKeys upd) : (lastVal upd k).isSome = true := by
  induction upd with
  | nil => simp [fieldKeys] at h
  | cons q rest ih =>
    simp only [fieldKeys, List.map_cons, List.mem_cons] at h
    unfold lastVal
    cases hlv : lastVal rest k with
    | some v => rfl
    | none =>
      rcases h with h | h
      · rw [if_pos h.symm]
        rfl
      · have := ih h
        rw [hlv] at this
        simp at this

/-- Re-applying the same record to an already-updated row changes nothing. -/

theorem lastVal_eq_none_of_not_mem (fs : List (String × Json)) (k : String)
    (h : k ∉ fieldKeys fs) : lastVal fs k = none := by
  induction fs with
  | nil => rfl
  | cons q rest ih =>
    simp only [fieldKeys, List.map_cons, List.mem_cons, not_or] at h
    unfold lastVal
    rw [ih h.2, if_neg (fun hc => h.1 hc.symm)]

/-- Re-applying the same record to an already-updated row changes nothing. -/
theorem applyFields_idem (fs upd : List (String × Json)) :
    applyFields (applyFields fs upd) upd = applyFields fs upd := by
  have hsub : fieldKeys upd ⊆ fieldKeys (applyFields fs upd) :=
    fieldKeys_upd_subset_applyFields fs upd
  rw [applyFields_eq_map (applyFields fs upd) upd hsub]
  have hpt : ∀ p ∈ applyFields fs upd, (p.1, (lastVal upd p.1).getD p.2) = p := by
    intro p hp
    cases hlv : lastVal upd p.1 with
    | none => simp
    | some w =>
      have hw := applyFields_value_at_assigned_key upd fs p hp w hlv
      rw [Option.getD_some, ← hw]
  calc (applyFields fs upd).map (fun p => (p.1, (lastVal upd p.1).getD p.2))
      = (applyFields fs upd).map id := List.map_congr_left hpt
    _ = applyFields fs upd := List.map_id _

theorem lastVal_self_of_nodup (fs : List (String × Json))
    (h : (fieldKeys fs).Nodup) : ∀ p ∈ fs, lastVal fs p.1 = some p.2 := by
  induction fs with
  | nil => intro p hp; simp at hp
  | cons q rest ih =>
    simp only [fieldKeys, List.map_cons, List.nodup_cons] at h
    intro p hp
    rcases List.mem_cons.mp hp with hp | hp
    · subst hp
      have hnone : lastVal rest p.1 = none :=
        lastVal_eq_none_of_not_mem rest p.1 h.1
      unfold lastVal
      rw [hnone, if_pos rfl]
    · have hr := ih h.2 p hp
      unfold lastVal
      rw [hr]

/-- Applying a record with no duplicated columns to its own fields
changes nothing. -/
theorem applyFields_self (fs : List (String × Json))
    (h : (fieldKeys fs).Nodup) : applyFields fs fs = fs := by
  rw [applyFields_eq_map fs fs (fun a ha => ha)]
  have hpt : ∀ p ∈ fs, (p.1, (lastVal fs p.1).getD p.2) = p := by
    intro p hp
    rw [lastVal_self_of_nodup fs h p hp, Option.getD_some]
  calc fs.map (fun p => (p.1, (lastVal fs p.1).getD p.2))
      = fs.map id := List.map_congr_left hpt
    _ = fs := List.map_id _

theorem rkey_updateRow (row r : Record) : rkey (updateRow row r) = rkey row := rfl

theorem upsert_nodup (t : List Record) (r : Record)
    (h : (t.map rkey).Nodup) : ((upsert t r).map rkey).Nodup := by
  unfold upsert
  by_cases hm : t.any (fun row => rkey row = rkey r) = true
  · rw [if_pos hm]
    have hperm := (List.perm_insertionSort rowLe
      (t.map (fun row => if rkey row = rkey r then updateRow row r else row))).map rkey
    rw [List.Perm.nodup_iff hperm, List.map_map]
    have heq : t.map (rkey ∘ fun row => if rkey row = rkey r then updateRow row r else row)
        = t.map rkey := by
      refine List.map_congr_left ?_
      intro row _
      by_cases hc : rkey row = rkey r
      · simp [hc, rkey_updateRow]
      · simp [hc]
    rw [heq]
    exact h
  · rw [if_neg hm]
    have hperm := (List.perm_insertionSort rowLe (t ++ [r])).map rkey
    rw [List.Perm.nodup_iff hperm, List.map_append]
    have hnot : rkey r ∉ t.map rkey := by
      intro hc
      obtain ⟨row, hrow, hk⟩ := List.mem_map.mp hc
      exact hm (List.any_eq_true.mpr ⟨row, hrow, by simp [hk]⟩)
    simp only [List.map_cons, List.map_nil]
    rw [List.nodup_append]
    exact ⟨h, List.nodup_singleton _, by
      intro a ha hb
      rw [List.mem_singleton.mp hb] at ha
      exact hnot ha⟩

theorem upsert_sorted (t : List Record) (r : Record) :
    (upsert t r).Sorted rowLe :=
  List.sorted_insertionSort rowLe _

theorem foldl_upsert_nodup (rs : List Record) :
    ∀ t : List Record, (t.map rkey).Nodup → ((rs.foldl upsert t).map rkey).Nodup := by
  induction rs with
  | nil => exact fun t h => h
  | cons r rest ih => exact fun t h => ih (upsert t r) (upsert_nodup t r h)

theorem foldl_upsert_sorted (rs : List Record) :
    ∀ t : List Record, t.Sorted rowLe → (rs.foldl upsert t).Sorted rowLe := by
  induction rs with
  | nil => exact fun t h => h
  | cons r rest ih => exact fun t _ => ih (upsert t r) (upsert_sorted t r)

theorem rkey_mem_upsert (t : List Record) (r : Record) :
    ∃ row ∈ upsert t r, rkey row = rkey r := by
  unfold upsert
  by_cases hm : t.any (fun row => rkey row = rkey r) = true
  · rw [if_pos hm]
    obtain ⟨ρ, hρ, hk⟩ := List.any_eq_true.mp hm
    simp only [decide_eq_true_eq] at hk
    refine ⟨updateRow ρ r, ?_, by rw [rkey_updateRow, hk]⟩
    rw [List.mem_insertionSort]
    exact List.mem_map.mpr ⟨ρ, hρ, by rw [if_pos hk]⟩
  · rw [if_neg hm]
    refine ⟨r, ?_, rfl⟩
    rw [List.mem_insertionSort]
    exact List.mem_append.mpr (Or.inr (List.mem_singleton.mpr rfl))

theorem updateRow_idem (row r : Record) :
    updateRow (updateRow row r) r = updateRow row r := by
  simp only [updateRow, applyFields_idem]

theorem updateRow_self (r : Record) (h : (fieldKeys r.fields).Nodup) :
    updateRow r r = r := by
  simp only [updateRow, applyFields_self r.fields h]

/-- Re-upserting the same record changes nothing: the second pass finds
the matching row, overwrites every cell with the value it already holds,
and re-sorts an already sorted table. -/
theorem upsert_idem (t : List Record) (r : Record)
    (hr : (fieldKeys r.fields).Nodup) : upsert (upsert t r) r = upsert t r := by
  have hsorted : (upsert t r).Sorted rowLe := upsert_sorted t r
  have hany : (upsert t r).any (fun row => rkey row = rkey r) = true := by
    obtain ⟨row, hm, hk⟩ := rkey_mem_upsert t r
    exact List.any_eq_true.mpr ⟨row, hm, by simp [hk]⟩
  conv_lhs => rw [upsert]
  rw [if_pos hany]
  have hfix : ∀ row ∈ upsert t r,
      (if rkey row = rkey r then updateRow row r else row) = row := by
    intro row hrow
    by_cases hk : rkey row = rkey r
    · rw [if_pos hk]
      rw [upsert, List.mem_insertionSort] at hrow
      by_cases hm : t.any (fun σ => rkey σ = rkey r) = true
      · rw [if_pos hm] at hrow
        obtain ⟨σ, hσ, hσe⟩ := List.mem_map.mp hrow
        by_cases hσk : rkey σ = rkey r
        · rw [if_pos hσk] at hσe
          rw [← hσe]
          exact updateRow_idem σ r
        · rw [if_neg hσk] at hσe
          rw [← hσe] at hk
          exact absurd hk hσk
      · rw [if_neg hm] at hrow
        rcases List.mem_append.mp hrow with hrow | hrow
        · exact absurd (List.any_eq_true.mpr ⟨row, hrow, by simp [hk]⟩) hm
        · rw [List.mem_singleton.mp hrow]
          exact updateRow_self r hr
    · rw [if_neg hk]
  rw [List.map_congr_left hfix, List.map_id']
  exact hsorted.insertionSort_eq

/-- C5: over any sequence of upserts starting from the empty summary, the
table keeps at most one row per (date, repository) and is sorted by
(date, repository); a matching upsert is a column-wise in-place update (a
permutation identity exhibits that no row is appended or replaced
wholesale, and each cell of the matched row takes the last value the
record assigns to its column, keeping its old value for columns the
record does not assign); and re-upserting a record is idempotent. -/
theorem claim_C5 :
    (∀ rs : List Record, ((buildTable rs).map rkey).Nodup) ∧
    (∀ rs : List Record, (buildTable rs).Sorted rowLe) ∧
    (∀ (t : List Record) (r ρ : Record), ρ ∈ t → rkey ρ = rkey r →
      (upsert t r).Perm
        (t.map (fun row => if rkey row = rkey r then updateRow row r else row)) ∧
      ∀ k, getField (updateRow ρ r).fields k =
        match lastVal r.fields k with
        | some v => some v
        | none => getField ρ.fields k) ∧
    (∀ (t : List Record) (r : Record), (fieldKeys r.fields).Nodup →
      upsert (upsert t r) r = upsert t r) := by
  refine ⟨fun rs => foldl_upsert_nodup rs [] (by simp),
    fun rs => foldl_upsert_sorted rs [] List.sorted_nil,
    fun t r ρ hρ hk => ⟨?_, fun k => getField_applyFields ρ.fields r.fields k⟩,
    upsert_idem⟩
  have hm : t.any (fun row => rkey row = rkey r) = true :=
    List.any_eq_true.mpr ⟨ρ, hρ, by simp [hk]⟩
  unfold upsert
  rw [if_pos hm]
  exact List.perm_insertionSort rowLe _

/-- A first daily record for the C5 witness. -/
def recA : Record := ⟨"2024-01-01", "metrics", [("views_count", Json.num 5)]⟩

/-- A record for the same (date, repository) as recA with a new value. -/
def recA2 : Record := ⟨"2024-01-01", "metrics", [("views_count", Json.num 7)]⟩

/-- A record for a later date. -/
def recB : Record := ⟨"2024-01-02", "metrics", [("views_count", Json.num 3)]⟩

/-- Witness for C5 at concrete records. -/
theorem claim_C5_witness :
    ((buildTable [recA, recB, recA2]).map rkey).Nodup ∧
    (buildTable [recA, recB, recA2]).Sorted rowLe ∧
    ((upsert [recA] recA2).Perm
        ([recA].map (fun row => if rkey row = rkey recA2 then updateRow row recA2 else row)) ∧
      ∀ k, getField (updateRow recA recA2).fields k =
        match lastVal recA2.fields k with
        | some v => some v
        | none => getField recA.fields k) ∧
    upsert (upsert [recA] recA2) recA2 = upsert [recA] recA2 :=
  ⟨claim_C5.1 [recA, recB, recA2],
   claim_C5.2.1 [recA, recB, recA2],
   claim_C5.2.2.1 [recA] recA2 recA (List.mem_singleton.mpr rfl) rfl,
   claim_C5.2.2.2 [recA] recA2 (by simp [fieldKeys, recA2])⟩

/-! ## Metric Fetcher: make_request

collect_traffic.py lines 46-83.  session.get either returns a response or
raises a transport error (requests.exceptions.RequestException); the
responses a run would see are scripted as a function of how many requests
were issued so far.  time.sleep only delays execution, so it is a no-op
in the model and the clock is frozen at a given now; raise_for_status
raises exactly for status codes 400-599, and HTTPError is a
RequestException, so it is re-raised by the last-attempt handler. -/

/-- One scripted response: either a transport failure, or a status code
with the rate-limit headers (remaining present or absent) and a body. -/
structure Resp where
  transportError : Bool
  status : Nat
  rateRemaining : Option Int
  rateReset : Int
  body : Json
deriving Repr

/-- The network and cache state threaded through requests. -/
structure NetState where
  responses : Nat → Resp
  requestsMade : Nat
  cache : List (String × Json)

/-- Possible outcomes of make_request: HTTP 200 data, None for a 404,
None for a retry loop that fell through the bottom, or an exception
propagating to the caller. -/
inductive ReqResult where
  | ok (data : Json)
  | notFound
  | exhausted
  | raised
deriving Repr

/-- The for attempt in range(retries) loop of _make_request, with fuel
counting the attempts left; the attempt index is retries - fuel, so
attempt == retries - 1 exactly when fuel = 1 at entry. -/
def makeRequestLoop (now : Int) (retries : Nat) (key : String) :
    Nat → NetState → ReqResult × NetState
  | 0, st => (ReqResult.exhausted, st)
  | fuel + 1, st =>
    let r := st.responses st.requestsMade
    let st1 : NetState := { st with requestsMade := st.requestsMade + 1 }
    if r.transportError then
      if fuel = 0 then (ReqResult.raised, st1)
      else makeRequestLoop now retries key fuel st1
    else if r.status = 403 ∧ r.rateRemaining = some 0 ∧ r.rateReset - now + 1 > 0 then
      makeRequestLoop now retries key fuel st1
    else if r.status = 200 then
      (ReqResult.ok r.body, { st1 with cache := setField st1.cache key r.body })
    else if r.status = 404 then
      (ReqResult.notFound, st1)
    else if fuel ≠ 0 then
      makeRequestLoop now retries key fuel st1
    else if 400 ≤ r.status ∧ r.status < 600 then
      (ReqResult.raised, st1)
    else (ReqResult.exhausted, st1)

/-- _make_request: answer from the same-run cache when possible, else run
the bounded retry loop. -/
def make_request (now : Int) (retries : Nat) (key : String) (st : NetState) :
    ReqResult × NetState :=
  match getField st.cache key with
  | some v => (ReqResult.ok v, st)
  | none => makeRequestLoop now retries key retries st

theorem makeRequestLoop_requests_le (now : Int) (retries : Nat) (key : String) :
    ∀ (fuel : Nat) (st : NetState),
      (makeRequestLoop now retries key fuel st).2.requestsMade ≤ st.requestsMade + fuel := by
  intro fuel
  induction fuel with
  | zero => intro st; simp [makeRequestLoop]
  | succ fuel ih =>
    intro st
    unfold makeRequestLoop
    set r := st.responses st.requestsMade with hr
    set st1 : NetState := { st with requestsMade := st.requestsMade + 1 } with hst1
    have hst1r : st1.requestsMade = st.requestsMade + 1 := rfl
    by_cases h1 : r.transportError
    · rw [if_pos h1]
      by_cases h2 : fuel = 0
      · rw [if_pos h2]
        simp [hst1r, h2]
      · rw [if_neg h2]
        calc (makeRequestLoop now retries key fuel st1).2.requestsMade
            ≤ st1.requestsMade + fuel := ih st1
          _ = st.requestsMade + (fuel + 1) := by omega
    · rw [if_neg h1]
      by_cases h3 : r.status = 403 ∧ r.rateRemaining = some 0 ∧ r.rateReset - now + 1 > 0
      · rw [if_pos h3]
        calc (makeRequestLoop now retries key fuel st1).2.requestsMade
            ≤ st1.requestsMade + fuel := ih st1
          _ = st.requestsMade + (fuel + 1) := by omega
      · rw [if_neg h3]
        by_cases h4 : r.status = 200
        · rw [if_pos h4]
          simp [hst1r]
        · rw [if_neg h4]
          by_cases h5 : r.status = 404
          · rw [if_pos h5]
            simp [hst1r]
          · rw [if_neg h5]
            by_cases h6 : fuel ≠ 0
            · rw [if_pos h6]
              calc (makeRequestLoop now retries key fuel st1).2.requestsMade
                  ≤ st1.requestsMade + fuel := ih st1
                _ = st.requestsMade + (fuel + 1) := by omega
            · rw [if_neg h6]
              by_cases h7 : 400 ≤ r.status ∧ r.status < 600
              · rw [if_pos h7]
                simp [hst1r]
              · rw [if_neg h7]
                simp [hst1r]

theorem makeRequestLoop_requests_ge_one (now : Int) (retries : Nat) (key : String)
    (fuel : Nat) (st : NetState) :
    st.requestsMade + 1 ≤ (makeRequestLoop now retries key (fuel + 1) st).2.requestsMade := by
  unfold makeRequestLoop
  set r := st.responses st.requestsMade with hr
  set st1 : NetState := { st with requestsMade := st.requestsMade + 1 } with hst1
  have hst1r : st.requestsMade + 1 = st1.requestsMade := rfl
  have hmono : ∀ (f : Nat) (s : NetState),
      s.requestsMade ≤ (makeRequestLoop now retries key f s).2.requestsMade := by
    intro f
    induction f with
    | zero => intro s; simp [makeRequestLoop]
    | succ f ihf =>
      intro s
      unfold makeRequestLoop
      set rs := s.responses s.requestsMade
      set s1 : NetState := { s with requestsMade := s.requestsMade + 1 }
      have hs1 : s.requestsMade ≤ s1.requestsMade := Nat.le_succ _
      by_cases h1 : rs.transportError
      · rw [if_pos h1]
        by_cases h2 : f = 0
        · rw [if_pos h2]; exact hs1
        · rw [if_neg h2]; exact le_trans hs1 (ihf s1)
      · rw [if_neg h1]
        by_cases h3 : rs.status = 403 ∧ rs.rateRemaining = some 0 ∧ rs.rateReset - now + 1 > 0
        · rw [if_pos h3]; exact le_trans hs1 (ihf s1)
        · rw [if_neg h3]
          by_cases h4 : rs.status = 200
          · rw [if_pos h4]; exact hs1
          · rw [if_neg h4]
            by_cases h5 : rs.status = 404
            · rw [if_pos h5]; exact hs1
            · rw [if_neg h5]
              by_cases h6 : f ≠ 0
              · rw [if_pos h6]; exact le_trans hs1 (ihf s1)
              · rw [if_neg h6]
                by_cases h7 : 400 ≤ rs.status ∧ rs.status < 600
                · rw [if_pos h7]; exact hs1
                · rw [if_neg h7]; exact hs1
  by_cases h1 : r.transportError
  · rw [if_pos h1]
    by_cases h2 : fuel = 0
    · rw [if_pos h2]
    · rw [if_neg h2]
      exact hst1r ▸ hmono fuel st1
  · rw [if_neg h1]
    by_cases h3 : r.status = 403 ∧ r.rateRemaining = some 0 ∧ r.rateReset - now + 1 > 0
    · rw [if_pos h3]
      exact hst1r ▸ hmono fuel st1
    · rw [if_neg h3]
      by_cases h4 : r.status = 200
      · rw [if_pos h4]
      · rw [if_neg h4]
        by_cases h5 : r.status = 404
        · rw [if_pos h5]
        · rw [if_neg h5]
          by_cases h6 : fuel ≠ 0
          · rw [if_pos h6]
            exact hst1r ▸ hmono fuel st1
          · rw [if_neg h6]
            by_cases h7 : 400 ≤ r.status ∧ r.status < 600
            · rw [if_pos h7]
            · rw [if_neg h7]

/-- C3 counterexample script: a rate-limited 403 first, then two 500s,
then a 200.  With retries = 3 the code raises after three requests, so
the rate-limited attempt consumed a retry; an unchanged budget of three
ordinary attempts after the 403 would have reached the 200. -/
def rlScript : Nat → Resp := fun i =>
  if i = 0 then ⟨false, 403, some 0, 10, Json.null⟩
  else if i = 3 then ⟨false, 200, none, 0, Json.num 42⟩
  else ⟨false, 500, none, 0, Json.null⟩

/-- Initial network state for the C3 counterexample. -/
def rlState : NetState := ⟨rlScript, 0, []⟩

/-- C3 counterexample: on the rlScript responses the code raises after 3
requests in total, while rerunning the loop after the 403 with the
ordinary retry budget unchanged (3 attempts, as the claim asserts)
returns the 200 payload on the 4th request.  The 403 retry therefore
consumes a retry count. -/
theorem claim_C3_counterexample :
    (make_request 0 3 "CCP-NC/metrics:traffic/views" rlState).1 = ReqResult.raised ∧
    (make_request 0 3 "CCP-NC/metrics:traffic/views" rlState).2.requestsMade = 3 ∧
    (makeRequestLoop 0 3 "CCP-NC/metrics:traffic/views" 3
        { rlState with requestsMade := 1 }).1 = ReqResult.ok (Json.num 42) ∧
    (makeRequestLoop 0 3 "CCP-NC/metrics:traffic/views" 3
        { rlState with requestsMade := 1 }).2.requestsMade = 4 :=
  ⟨rfl, rfl, rfl, rfl⟩

/-- C3 (amended): on HTTP 403 with the rate-limit-remaining header equal
to zero and a reset still in the future, _make_request sleeps and then
retries, but the retry consumes a retry attempt: continuing the for loop
advances the attempt counter, so the run continues with one fewer
attempt remaining, and at most retries requests are issued in total,
rate-limited ones included. -/
theorem claim_C3_amended (now : Int) (retries fuel : Nat) (key : String) (st : NetState)
    (hte : (st.responses st.requestsMade).transportError = false)
    (h403 : (st.responses st.requestsMade).status = 403)
    (hrem : (st.responses st.requestsMade).rateRemaining = some 0)
    (hreset : (st.responses st.requestsMade).rateReset - now + 1 > 0) :
    makeRequestLoop now retries key (fuel + 1) st =
      makeRequestLoop now retries key fuel
        { st with requestsMade := st.requestsMade + 1 } ∧
    ∀ (f : Nat) (s : NetState),
      (makeRequestLoop now retries key f s).2.requestsMade ≤ s.requestsMade + f := by
  refine ⟨?_, makeRequestLoop_requests_le now retries key⟩
  unfold makeRequestLoop
  rw [if_neg (by rw [hte]; exact Bool.false_ne_true),
    if_pos ⟨h403, hrem, hreset⟩]
  cases fuel with
  | zero => rfl
  | succ f => rfl

/-- Witness for the amended C3 at the concrete rate-limited script. -/
theorem claim_C3_amended_witness :
    makeRequestLoop 0 3 "CCP-NC/metrics:traffic/views" 3 rlState =
      makeRequestLoop 0 3 "CCP-NC/metrics:traffic/views" 2
        { rlState with requestsMade := rlState.requestsMade + 1 } ∧
    ∀ (f : Nat) (s : NetState),
      (makeRequestLoop 0 3 "CCP-NC/metrics:traffic/views" f s).2.requestsMade ≤
        s.requestsMade + f :=
  claim_C3_amended 0 3 2 "CCP-NC/metrics:traffic/views" rlState rfl rfl rfl (by decide)

/-- C10: within one run, only an HTTP 200 body is stored in the request
cache.  A 404 returns None without caching, so a second fetch of the
same (repository, endpoint) key issues at least one further network
request; after a 200, a second fetch of the same key returns the cached
body with the state unchanged, issuing no network request. -/
theorem claim_C10 :
    (∀ (now : Int) (retries : Nat) (key : String) (st : NetState),
      1 ≤ retries →
      getField st.cache key = none →
      (st.responses st.requestsMade).transportError = false →
      (st.responses st.requestsMade).status = 404 →
      make_request now retries key st =
          (ReqResult.notFound, { st with requestsMade := st.requestsMade + 1 }) ∧
        getField ({ st with requestsMade := st.requestsMade + 1 } : NetState).cache key
          = none ∧
        st.requestsMade + 2 ≤
          (make_request now retries key
            { st with requestsMade := st.requestsMade + 1 }).2.requestsMade) ∧
    (∀ (now : Int) (retries : Nat) (key : String) (st : NetState),
      1 ≤ retries →
      getField st.cache key = none →
      (st.responses st.requestsMade).transportError = false →
      (st.responses st.requestsMade).status = 200 →
      (make_request now retries key st).1 =
          ReqResult.ok (st.responses st.requestsMade).body ∧
        getField (make_request now retries key st).2.cache key =
          some (st.responses st.requestsMade).body ∧
        make_request now retries key (make_request now retries key st).2 =
          (ReqResult.ok (st.responses st.requestsMade).body,
            (make_request now retries key st).2)) := by
  constructor
  · intro now retries key st hre hcache hte h404
    cases retries with
    | zero => exact absurd hre (by omega)
    | succ m =>
      have hloop : makeRequestLoop now (m + 1) key (m + 1) st =
          (ReqResult.notFound, { st with requestsMade := st.requestsMade + 1 }) := by
        unfold makeRequestLoop
        rw [if_neg (by rw [hte]; exact Bool.false_ne_true),
          if_neg (by rw [h404]; rintro ⟨hc, -⟩; exact absurd hc (by omega)),
          if_neg (by rw [h404]; omega),
          if_pos h404]
      have hmr : make_request now (m + 1) key st =
          (ReqResult.notFound, { st with requestsMade := st.requestsMade + 1 }) := by
        unfold make_request
        rw [hcache]
        exact hloop
      refine ⟨hmr, hcache, ?_⟩
      have hcache2 : getField ({ st with requestsMade := st.requestsMade + 1 } :
          NetState).cache key = none := hcache
      unfold make_request
      rw [hcache2]
      exact makeRequestLoop_requests_ge_one now (m + 1) key m
        { st with requestsMade := st.requestsMade + 1 }
  · intro now retries key st hre hcache hte h200
    cases retries with
    | zero => exact absurd hre (by omega)
    | succ m =>
      have hloop : makeRequestLoop now (m + 1) key (m + 1) st =
          (ReqResult.ok (st.responses st.requestsMade).body,
            { st with requestsMade := st.requestsMade + 1,
                      cache := setField st.cache key (st.responses st.requestsMade).body }) := by
        unfold makeRequestLoop
        rw [if_neg (by rw [hte]; exact Bool.false_ne_true),
          if_neg (by rw [h200]; rintro ⟨hc, -⟩; exact absurd hc (by omega)),
          if_pos h200]
      have hmr : make_request now (m + 1) key st =
          (ReqResult.ok (st.responses st.requestsMade).body,
            { st with requestsMade := st.requestsMade + 1,
                      cache := setField st.cache key (st.responses st.requestsMade).body }) := by
        unfold make_request
        rw [hcache]
        exact hloop
      rw [hmr]
      refine ⟨rfl, getField_setField_self st.cache key (st.responses st.requestsMade).body, ?_⟩
      unfold make_request
      rw [getField_setField_self st.cache key (st.responses st.requestsMade).body]

/-- Script for the C10 witness: a 404 first, then 200s. -/
def cacheScript : Nat → Resp := fun i =>
  if i = 0 then ⟨false, 404, none, 0, Json.null⟩
  else ⟨false, 200, none, 0, Json.num 7⟩

/-- Initial network state for the C10 witness. -/
def cacheState : NetState := ⟨cacheScript, 0, []⟩

/-- Second network state for the C10 witness, facing a 200 response. -/
def cacheState2 : NetState := { cacheState with requestsMade := 1 }

/-- Witness for C10 at a concrete script: the 404 branch on the first
request and the 200-then-cached branch afterwards. -/
theorem claim_C10_witness :
    (make_request 0 3 "CCP-NC/metrics:traffic/views" cacheState =
        (ReqResult.notFound, { cacheState with requestsMade := cacheState.requestsMade + 1 }) ∧
      getField ({ cacheState with requestsMade := cacheState.requestsMade + 1 } :
          NetState).cache "CCP-NC/metrics:traffic/views" = none ∧
      cacheState.requestsMade + 2 ≤
        (make_request 0 3 "CCP-NC/metrics:traffic/views"
          { cacheState with requestsMade := cacheState.requestsMade + 1 }).2.requestsMade) ∧
    ((make_request 0 3 "CCP-NC/metrics:traffic/views" cacheState2).1 =
        ReqResult.ok (cacheState2.responses cacheState2.requestsMade).body ∧
      getField (make_request 0 3 "CCP-NC/metrics:traffic/views" cacheState2).2.cache
          "CCP-NC/metrics:traffic/views" =
        some (cacheState2.responses cacheState2.requestsMade).body ∧
      make_request 0 3 "CCP-NC/metrics:traffic/views"
          (make_request 0 3 "CCP-NC/metrics:traffic/views" cacheState2).2 =
        (ReqResult.ok (cacheState2.responses cacheState2.requestsMade).body,
          (make_request 0 3 "CCP-NC/metrics:traffic/views" cacheState2).2)) :=
  ⟨claim_C10.1 0 3 "CCP-NC/metrics:traffic/views" cacheState (by omega) rfl rfl rfl,
   claim_C10.2 0 3 "CCP-NC/metrics:traffic/views" cacheState2 (by omega) rfl rfl rfl⟩

/-! ## collect_metrics and the per-run exit behaviour

collect_traffic.py lines 182-235.  Each of the four futures delivers
either the payload _make_request returned (some body for HTTP 200, None
for a 404 or an exhausted loop) or re-raises the exception it raised;
every exception inside the per-future try block, including a re-raised
transport error, an AttributeError from None.get, or a pandas error on a
malformed payload, is caught by the except at line 214 and zero-fills
that metric.  The four metrics write disjoint field names, so the
as_completed arrival order does not change the resulting row; the model
fixes the views, clones, referrers, paths order. -/

/-- What future.result() delivers to the processing loop. -/
inductive FetchOutcome where
  | value (data : Option Json)
  | raised

/-- Python truthiness of a decoded JSON value: the check
if not referrers_data. -/
def jsonFalsy : Json → Bool
  | Json.null => true
  | Json.bool b => !b
  | Json.num n => n == 0
  | Json.str s => s == ""
  | Json.arr items => items.isEmpty
  | Json.obj fs => fs.isEmpty

/-- Reading one referrers row into a typed entry: the endpoint documents
{referrer, count, uniques}.  A row outside that shape makes the pandas
pipeline raise (missing or non-numeric count/uniques columns), which the
caller catches and zero-fills, so it is mapped to none. -/
def toRefEntry (j : Json) : Option RefEntry :=
  match j with
  | Json.obj fs =>
    match getField fs "referrer", getField fs "count", getField fs "uniques" with
    | some (Json.str r), some (Json.num c), some (Json.num u) => some ⟨r, c, u⟩
    | _, _, _ => none
  | _ => none

/-- Reading the whole referrers payload. -/
def toRefEntries (j : Json) : Option (List RefEntry) :=
  match j with
  | Json.arr items => items.mapM toRefEntry
  | _ => none

/-- Reading one paths row into a typed entry: {path, title, count,
uniques}, as the endpoint documents. -/
def toPathEntry (j : Json) : Option PathEntry :=
  match j with
  | Json.obj fs =>
    match getField fs "path", getField fs "title",
        getField fs "count", getField fs "uniques" with
    | some (Json.str p), some (Json.str t), some (Json.num c), some (Json.num u) =>
      some ⟨p, t, c, u⟩
    | _, _, _, _ => none
  | _ => none

/-- Reading the whole paths payload. -/
def toPathEntries (j : Json) : Option (List PathEntry) :=
  match j with
  | Json.arr items => items.mapM toPathEntry
  | _ => none

/-- The summary columns a referrers reduction writes. -/
def refSummaryFields (s : RefSummary) : List (String × Json) :=
  [("top_referrer", Json.str s.top_referrer),
   ("top_referrer_count", Json.num s.top_referrer_count),
   ("top_referrer_uniques", Json.num s.top_referrer_uniques),
   ("total_referrer_count", Json.num s.total_referrer_count),
   ("total_referrer_uniques", Json.num s.total_referrer_uniques),
   ("distinct_referrers", Json.num s.distinct_referrers)]

/-- The summary columns a paths reduction writes. -/
def pathSummaryFields (s : PathSummary) : List (String × Json) :=
  [("top_path", Json.str s.top_path),
   ("top_path_count", Json.num s.top_path_count),
   ("top_path_uniques", Json.num s.top_path_uniques),
   ("total_path_count", Json.num s.total_path_count),
   ("total_path_uniques", Json.num s.total_path_uniques),
   ("distinct_paths", Json.num s.distinct_paths),
   ("readme_views", Json.num s.readme_views),
   ("readme_uniques", Json.num s.readme_uniques)]

/-- The views/clones branch (lines 207-209 and 216-218): data.get raises
AttributeError unless the payload is a dict (in particular for None and
for a JSON null payload), and the except zero-fills the metric. -/
def viewsClonesFields (metric : String) (outcome : FetchOutcome) : List (String × Json) :=
  match outcome with
  | FetchOutcome.value (some (Json.obj fs)) =>
    [(metric ++ "_count", (getField fs "count").getD (Json.num 0)),
     (metric ++ "_uniques", (getField fs "uniques").getD (Json.num 0))]
  | _ =>
    [(metric ++ "_count", Json.num 0), (metric ++ "_uniques", Json.num 0)]

/-- The referrers branch (lines 210-211 and 219-220). -/
def referrersFields (outcome : FetchOutcome) : List (String × Json) :=
  match outcome with
  | FetchOutcome.raised => refSummaryFields (process_referrers none)
  | FetchOutcome.value none => refSummaryFields (process_referrers none)
  | FetchOutcome.value (some j) =>
    if jsonFalsy j then refSummaryFields (process_referrers none)
    else
      match toRefEntries j with
      | some entries => refSummaryFields (process_referrers (some entries))
      | none => refSummaryFields (process_referrers none)

/-- The paths branch (lines 212-213 and 221-222). -/
def pathsFields (outcome : FetchOutcome) : List (String × Json) :=
  match outcome with
  | FetchOutcome.raised => pathSummaryFields (process_paths none)
  | FetchOutcome.value none => pathSummaryFields (process_paths none)
  | FetchOutcome.value (some j) =>
    if jsonFalsy j then pathSummaryFields (process_paths none)
    else
      match toPathEntries j with
      | some entries => pathSummaryFields (process_paths (some entries))
      | none => pathSummaryFields (process_paths none)

/-- collect_metrics: the daily record for one run.  It is a total
function because every exception in the fetch-and-reduce loop is caught
and zero-filled. -/
def collect_metrics (ts repo : String)
    (views clones referrers paths : FetchOutcome) : Record :=
  ⟨ts, repo,
    viewsClonesFields "views" views ++ viewsClonesFields "clones" clones ++
      referrersFields referrers ++ pathsFields paths⟩

/-- One whole run of main for one repository: collect the metrics,
upsert the summary row, exit.  The exit code is 0 because collect_metrics
lets no fetch exception escape; only a failure of the summary write
itself (outside this model) can end the process non-zero. -/
def collect_run (ts repo : String) (views clones referrers paths : FetchOutcome)
    (table : List Record) : Nat × List Record :=
  (0, upsert table (collect_metrics ts repo views clones referrers paths))

/-- C4 counterexample: the views fetch raises a transport error after
retry exhaustion, yet the run exits 0 and a summary row for that day is
still written, with views zero-filled and the other metrics intact -
contradicting exits non-zero and nothing is written. -/
theorem claim_C4_counterexample :
    (collect_run "2024-01-01" "metrics" FetchOutcome.raised
        (FetchOutcome.value (some (Json.obj [("count", Json.num 12), ("uniques", Json.num 4)])))
        (FetchOutcome.value none) (FetchOutcome.value none) []).1 = 0 ∧
    (collect_run "2024-01-01" "metrics" FetchOutcome.raised
        (FetchOutcome.value (some (Json.obj [("count", Json.num 12), ("uniques", Json.num 4)])))
        (FetchOutcome.value none) (FetchOutcome.value none) []).2 =
      [⟨"2024-01-01", "metrics",
        [("views_count", Json.num 0), ("views_uniques", Json.num 0),
         ("clones_count", Json.num 12), ("clones_uniques", Json.num 4),
         ("top_referrer", Json.str "none"), ("top_referrer_count", Json.num 0),
         ("top_referrer_uniques", Json.num 0), ("total_referrer_count", Json.num 0),
         ("total_referrer_uniques", Json.num 0), ("distinct_referrers", Json.num 0),
         ("top_path", Json.str "none"), ("top_path_count", Json.num 0),
         ("top_path_uniques", Json.num 0), ("total_path_count", Json.num 0),
         ("total_path_uniques", Json.num 0), ("distinct_paths", Json.num 0),
         ("readme_views", Json.num 0), ("readme_uniques", Json.num 0)]⟩] :=
  ⟨rfl, rfl⟩

/-- C4 (amended): every fetch failure - a transport error re-raised after
retry exhaustion just like an unexpected-status retry exhaustion - is
caught inside collect_metrics and zero-fills the affected metric; the
summary row is always written for that repository and day, and the
process exits 0.  A non-zero exit can only come from outside the fetch
loop (for example the summary write itself). -/
theorem claim_C4_amended (ts repo : String) (v c r p : FetchOutcome)
    (table : List Record) :
    (collect_run ts repo v c r p table).1 = 0 ∧
    (∃ row ∈ (collect_run ts repo v c r p table).2, rkey row = (ts, repo)) ∧
    (v = FetchOutcome.raised →
      getField (collect_metrics ts repo v c r p).fields "views_count" =
          some (Json.num 0) ∧
      getField (collect_metrics ts repo v c r p).fields "views_uniques" =
          some (Json.num 0)) := by
  refine ⟨rfl, ?_, ?_⟩
  · obtain ⟨row, hm, hk⟩ := rkey_mem_upsert table (collect_metrics ts repo v c r p)
    exact ⟨row, hm, hk⟩
  · intro hv
    subst hv
    exact ⟨rfl, rfl⟩

/-- Witness for the amended C4 at concrete inputs. -/
theorem claim_C4_amended_witness :
    (collect_run "2024-01-01" "metrics" FetchOutcome.raised (FetchOutcome.value none)
        (FetchOutcome.value none) (FetchOutcome.value none) []).1 = 0 ∧
    (∃ row ∈ (collect_run "2024-01-01" "metrics" FetchOutcome.raised
        (FetchOutcome.value none) (FetchOutcome.value none) (FetchOutcome.value none)
        []).2, rkey row = ("2024-01-01", "metrics")) ∧
    (FetchOutcome.raised = FetchOutcome.raised →
      getField (collect_metrics "2024-01-01" "metrics" FetchOutcome.raised
          (FetchOutcome.value none) (FetchOutcome.value none)
          (FetchOutcome.value none)).fields "views_count" = some (Json.num 0) ∧
      getField (collect_metrics "2024-01-01" "metrics" FetchOutcome.raised
          (FetchOutcome.value none) (FetchOutcome.value none)
          (FetchOutcome.value none)).fields "views_uniques" = some (Json.num 0)) :=
  claim_C4_amended "2024-01-01" "metrics" FetchOutcome.raised (FetchOutcome.value none)
    (FetchOutcome.value none) (FetchOutcome.value none) []

/-- C9: for every metric, a null payload, an empty payload and an
explicit API 404 (which the fetcher hands to the reducer as None) all
produce the identical default-zero columns in the daily summary row, so
a consumer of the summary cannot tell a failed fetch from a successful
fetch that reported zero activity. -/
theorem claim_C9 :
    viewsClonesFields "views" (FetchOutcome.value none) =
        [("views_count", Json.num 0), ("views_uniques", Json.num 0)] ∧
    viewsClonesFields "views" (FetchOutcome.value (some Json.null)) =
        [("views_count", Json.num 0), ("views_uniques", Json.num 0)] ∧
    viewsClonesFields "views" (FetchOutcome.value (some (Json.obj []))) =
        [("views_count", Json.num 0), ("views_uniques", Json.num 0)] ∧
    viewsClonesFields "clones" (FetchOutcome.value none) =
        [("clones_count", Json.num 0), ("clones_uniques", Json.num 0)] ∧
    viewsClonesFields "clones" (FetchOutcome.value (some Json.null)) =
        [("clones_count", Json.num 0), ("clones_uniques", Json.num 0)] ∧
    viewsClonesFields "clones" (FetchOutcome.value (some (Json.obj []))) =
        [("clones_count", Json.num 0), ("clones_uniques", Json.num 0)] ∧
    referrersFields (FetchOutcome.value none) = refSummaryFields zeroRefSummary ∧
    referrersFields (FetchOutcome.value (some Json.null)) =
        refSummaryFields zeroRefSummary ∧
    referrersFields (FetchOutcome.value (some (Json.arr []))) =
        refSummaryFields zeroRefSummary ∧
    pathsFields (FetchOutcome.value none) = pathSummaryFields zeroPathSummary ∧
    pathsFields (FetchOutcome.value (some Json.null)) =
        pathSummaryFields zeroPathSummary ∧
    pathsFields (FetchOutcome.value (some (Json.arr []))) =
        pathSummaryFields zeroPathSummary :=
  ⟨rfl, rfl, rfl, rfl, rfl, rfl, rfl, rfl, rfl, rfl, rfl, rfl⟩

/-! ## Combiner: combine_json_files

combine_json_files.py.  A file has a name and a parsed content (none
when json.load raises on it).  Python dicts are association lists in
insertion order; a raised exception is a none result.  The timestamp
values of views/clones items double as dict keys and sort keys; the
model requires them to be JSON strings, the shape the endpoint returns
and _save_raw_data stores, and treats any other type as an error. -/

/-- One file of the traffic-stats directory. -/
structure JFile where
  name : String
  content : Option Json

/-- Does re.search find \d{4}-\d{2}-\d{2} starting at this position? -/
def dateMatchAt : List Char → Option String
  | d1 :: d2 :: d3 :: d4 :: h1 :: m1 :: m2 :: h2 :: e1 :: e2 :: _ =>
    if d1.isDigit && d2.isDigit && d3.isDigit && d4.isDigit && h1 == '-' &&
        m1.isDigit && m2.isDigit && h2 == '-' && e1.isDigit && e2.isDigit then
      some (String.mk [d1, d2, d3, d4, h1, m1, m2, h2, e1, e2])
    else none
  | _ => none

/-- Scan left to right for the first match. -/
def dateSearch : List Char → Option String
  | [] => none
  | c :: rest =>
    match dateMatchAt (c :: rest) with
    | some s => some s
    | none => dateSearch rest

/-- extract_timestamp_from_filename (combine_json_files.py lines 6-8). -/
def extract_timestamp_from_filename (filename : String) : Option String :=
  dateSearch filename.data

/-- Does the first list start with the second? -/
def charsStartWith : List Char → List Char → Bool
  | _, [] => true
  | [], _ :: _ => false
  | a :: as, b :: bs => a == b && charsStartWith as bs

/-- Does the first list end with the second? -/
def charsEndWith (s pat : List Char) : Bool :=
  charsStartWith s.reverse pat.reverse

/-- The glob pattern repo-dataType-*.json: a fixed prefix, then anything,
then the .json suffix. -/
def globMatch (repo dataType : String) (name : String) : Bool :=
  charsStartWith name.data (repo ++ "-" ++ dataType ++ "-").data &&
    charsEndWith (name.data.drop (repo ++ "-" ++ dataType ++ "-").data.length)
      ".json".data

/-- x.get(k, default): AttributeError unless x is a dict. -/
def pyGet (j : Json) (k : String) (default : Json) : Option Json :=
  match j with
  | Json.obj fs => some ((getField fs k).getD default)
  | _ => none

/-- x[k]: KeyError when the key is missing, TypeError unless x is a
dict. -/
def pyIndex (j : Json) (k : String) : Option Json :=
  match j with
  | Json.obj fs => getField fs k
  | _ => none

/-- for v in x: lists yield elements, dicts their keys, strings their
characters; anything else raises TypeError. -/
def pyIter (j : Json) : Option (List Json) :=
  match j with
  | Json.arr items => some items
  | Json.obj fs => some (fs.map (fun p => Json.str p.1))
  | Json.str s => some (s.data.map (fun c => Json.str (String.mk [c])))
  | _ => none

/-- max(a, b) on two JSON numbers; other operand types raise TypeError. -/
def pyMaxNum (a b : Json) : Option Json :=
  match a, b with
  | Json.num x, Json.num y => some (Json.num (max x y))
  | _, _ => none

/-- The object fields of a JSON value, when it is an object. -/
def jObjFields (j : Json) : Option (List (String × Json)) :=
  match j with
  | Json.obj fs => some fs
  | _ => none

/-- A JSON string, when it is one (used where a JSON value becomes a
Python dict key). -/
def jStr (j : Json) : Option String :=
  match j with
  | Json.str s => some s
  | _ => none

/-- combined_data: a Python dict keyed by timestamp (a string, or None
when the filename has no date), in insertion order. -/
def cdFind (cd : List (Option String × Json)) (k : Option String) : Option Json :=
  match cd with
  | [] => none
  | p :: rest => if p.1 = k then some p.2 else cdFind rest k

/-- combined_data[k] = v: overwrite in place, or append a new key. -/
def cdSet (cd : List (Option String × Json)) (k : Option String) (v : Json) :
    List (Option String × Json) :=
  if cd.any (fun p => p.1 = k) then
    cd.map (fun p => if p.1 = k then (k, v) else p)
  else cd ++ [(k, v)]

/-- The views/clones item body (combine_json_files.py lines 21-27). -/
def processViewsItem (cd : List (Option String × Json)) (item : Json) :
    Option (List (Option String × Json)) := do
  let tsj ← pyIndex item "timestamp"
  let ts ← jStr tsj
  let cd :=
    if (cdFind cd (some ts)).isSome then cd
    else cdSet cd (some ts) (Json.obj [("count", Json.num 0), ("uniques", Json.num 0)])
  let cur ← cdFind cd (some ts)
  let curFs ← jObjFields cur
  let icount ← pyIndex item "count"
  let curCount ← getField curFs "count"
  let newCount ← pyMaxNum icount curCount
  let curFs := setField curFs "count" newCount
  let cd := cdSet cd (some ts) (Json.obj curFs)
  let cur ← cdFind cd (some ts)
  let curFs ← jObjFields cur
  let iuniq ← pyIndex item "uniques"
  let curUniq ← getField curFs "uniques"
  let newUniq ← pyMaxNum iuniq curUniq
  let curFs := setField curFs "uniques" newUniq
  some (cdSet cd (some ts) (Json.obj curFs))

/-- The referrers item body (lines 30-40): insert the date key, then the
referrer key, then max-merge count and uniques. -/
def processReferrersItem (ts : Option String) (cd : List (Option String × Json))
    (item : Json) : Option (List (Option String × Json)) := do
  let cd := if (cdFind cd ts).isSome then cd else cdSet cd ts (Json.obj [])
  let refj ← pyIndex item "referrer"
  let referrer ← jStr refj
  let cur ← cdFind cd ts
  let curFs ← jObjFields cur
  let curFs :=
    if (getField curFs referrer).isSome then curFs
    else setField curFs referrer
      (Json.obj [("count", Json.num 0), ("uniques", Json.num 0)])
  let refVal ← getField curFs referrer
  let refFs ← jObjFields refVal
  let icount ← pyIndex item "count"
  let curCount ← getField refFs "count"
  let newCount ← pyMaxNum icount curCount
  let refFs := setField refFs "count" newCount
  let iuniq ← pyIndex item "uniques"
  let curUniq ← getField refFs "uniques"
  let newUniq ← pyMaxNum iuniq curUniq
  let refFs := setField refFs "uniques" newUniq
  let curFs := setField curFs referrer (Json.obj refFs)
  some (cdSet cd ts (Json.obj curFs))

/-- The paths item body (lines 43-48): like referrers, keyed by path,
with the title taken from the first occurrence. -/
def processPathsItem (ts : Option String) (cd : List (Option String × Json))
    (item : Json) : Option (List (Option String × Json)) := do
  let cd := if (cdFind cd ts).isSome then cd else cdSet cd ts (Json.obj [])
  let pathj ← pyIndex item "path"
  let path ← jStr pathj
  let cur ← cdFind cd ts
  let curFs ← jObjFields cur
  let curFs ←
    if (getField curFs path).isSome then some curFs
    else do
      let titlej ← pyIndex item "title"
      some (setField curFs path
        (Json.obj [("title", titlej), ("count", Json.num 0), ("uniques", Json.num 0)]))
  let pathVal ← getField curFs path
  let pathFs ← jObjFields pathVal
  let icount ← pyIndex item "count"
  let curCount ← getField pathFs "count"
  let newCount ← pyMaxNum icount curCount
  let pathFs := setField pathFs "count" newCount
  let iuniq ← pyIndex item "uniques"
  let curUniq ← getField pathFs "uniques"
  let newUniq ← pyMaxNum iuniq curUniq
  let pathFs := setField pathFs "uniques" newUniq
  let curFs := setField curFs path (Json.obj pathFs)
  some (cdSet cd ts (Json.obj curFs))

/-- An item of a data type that is none of views, clones, referrers or
paths only inserts the date key (lines 29-33 with no matching branch). -/
def processOtherItem (ts : Option String) (cd : List (Option String × Json))
    (_item : Json) : Option (List (Option String × Json)) :=
  some (if (cdFind cd ts).isSome then cd else cdSet cd ts (Json.obj []))

/-- One entry of one file (lines 19-48): the views/clones branch walks
entry.get(data, {}).get(data_type, []), the other branch walks
entry.get(data, []). -/
def processEntry (dataType : String) (ts : Option String)
    (cd : List (Option String × Json)) (entry : Json) :
    Option (List (Option String × Json)) :=
  if dataType = "views" ∨ dataType = "clones" then do
    let dataVal ← pyGet entry "data" (Json.obj [])
    let itemsVal ← pyGet dataVal dataType (Json.arr [])
    let items ← pyIter itemsVal
    items.foldlM processViewsItem cd
  else do
    let dataVal ← pyGet entry "data" (Json.arr [])
    let items ← pyIter dataVal
    if dataType = "referrers" then
      items.foldlM (processReferrersItem ts) cd
    else if dataType = "paths" then
      items.foldlM (processPathsItem ts) cd
    else
      items.foldlM (processOtherItem ts) cd

/-- One file (lines 15-18): json.load may raise, the timestamp comes
from the filename, then every entry of the top-level iterable is folded
in. -/
def processFile (dataType : String) (cd : List (Option String × Json))
    (f : JFile) : Option (List (Option String × Json)) := do
  let data ← f.content
  let entries ← pyIter data
  entries.foldlM (processEntry dataType (extract_timestamp_from_filename f.name)) cd

/-- A dict key, as json.dump writes it back: None becomes null. -/
def optStr (k : Option String) : Json :=
  match k with
  | some s => Json.str s
  | none => Json.null

/-- One referrer row of the serialized output (line 54). -/
def refRowOut (q : String × Json) : Option Json := do
  let qfs ← jObjFields q.2
  let c ← getField qfs "count"
  let u ← getField qfs "uniques"
  some (Json.obj [("referrer", Json.str q.1), ("count", c), ("uniques", u)])

/-- One date entry of the serialized referrers output (line 54), paired
with its sort key. -/
def refPairOut (p : Option String × Json) : Option (Option String × Json) := do
  let fs ← jObjFields p.2
  let rows ← fs.mapM refRowOut
  some (p.1, Json.obj [("timestamp", optStr p.1), ("data", Json.arr rows)])

/-- The serialization step (lines 50-56), keeping each output entry
paired with its sort key; a data type outside the three branches leaves
combined_list unbound (a NameError), and a malformed inner value is a
KeyError. -/
def serializeCombined (dataType : String) (cd : List (Option String × Json)) :
    Option (List (Option String × Json)) :=
  if dataType = "views" ∨ dataType = "clones" then
    cd.mapM (fun p => do
      let fs ← jObjFields p.2
      let c ← getField fs "count"
      let u ← getField fs "uniques"
      some (p.1, Json.obj [("timestamp", optStr p.1), ("count", c), ("uniques", u)]))
  else if dataType = "referrers" then
    cd.mapM refPairOut
  else if dataType = "paths" then
    cd.mapM (fun p => do
      let fs ← jObjFields p.2
      let rows ← fs.mapM (fun q => do
        let qfs ← jObjFields q.2
        let t ← getField qfs "title"
        let c ← getField qfs "count"
        let u ← getField qfs "uniques"
        some (Json.obj [("path", Json.str q.1), ("title", t),
          ("count", c), ("uniques", u)]))
      some (p.1, Json.obj [("timestamp", optStr p.1), ("data", Json.arr rows)]))
  else none

/-- The sort key order: string timestamps compare lexicographically.  A
None key is unorderable in Python 3, so sorted raises TypeError whenever
a comparison involving one happens, which with at least two elements and
a None key always does; pySortPairs returns none in exactly that case,
so the order below is only ever exercised on all-string key lists (or on
singletons, where it is irrelevant), and making None a bottom element
keeps it total and transitive without changing any observable run. -/
def tsLe (a b : (Option String × Json)) : Prop :=
  match a.1, b.1 with
  | none, _ => True
  | some _, none => False
  | some s, some t => s ≤ t

instance : DecidableRel tsLe := fun a b => by
  unfold tsLe
  cases a.1 <;> cases b.1 <;> infer_instance

instance : IsTotal (Option String × Json) tsLe := by
  constructor
  intro a b
  unfold tsLe
  cases ha : a.1 <;> cases hb : b.1
  · exact Or.inl trivial
  · exact Or.inl trivial
  · exact Or.inr trivial
  · exact le_total _ _

instance : IsTrans (Option String × Json) tsLe := by
  constructor
  intro a b c hab hbc
  unfold tsLe at hab hbc ⊢
  cases ha : a.1 <;> cases hb : b.1 <;> cases hc : c.1 <;>
    rw [ha, hb] at hab <;> rw [hb, hc] at hbc <;> first
    | exact trivial
    | exact hbc.elim
    | exact hab.elim
    | exact le_trans hab hbc

/-- sorted(combined_list, key=...) (line 59). -/
def pySortPairs (l : List (Option String × Json)) :
    Option (List (Option String × Json)) :=
  if 2 ≤ l.length ∧ l.any (fun p => p.1 = none) then none
  else some (l.insertionSort tsLe)

/-- The combined list before sorting, as (sort key, entry) pairs. -/
def combine_pairs (repo dataType : String) (files : List JFile) :
    Option (List (Option String × Json)) := do
  let matched := files.filter (fun f => globMatch repo dataType f.name)
  let cd ← matched.foldlM (processFile dataType) []
  serializeCombined dataType cd

/-- combine_json_files (lines 10-63): glob, fold, serialize, sort.  The
result is the JSON array finally written to the output file; json.dump
is a deterministic function of it, so byte-identical output is equality
of these values. -/
def combine_json_files (repo dataType : String) (files : List JFile) :
    Option (List Json) := do
  let pairs ← combine_pairs repo dataType files
  let sorted ← pySortPairs pairs
  some (sorted.map Prod.snd)

/-- Writing the output file with open(..., w): replace the file if it
exists, else create it. -/
def writeOutput (files : List JFile) (name : String) (content : Json) :
    List JFile :=
  if files.any (fun f => f.name = name) then
    files.map (fun f => if f.name = name then ⟨name, some content⟩ else f)
  else files ++ [⟨name, some content⟩]

/-- One run of the combiner for a (repository, data type) pair: on
success the directory gains (or replaces) the combined output file; an
uncaught exception leaves main with no result. -/
def combine_run (repo dataType : String) (files : List JFile) :
    Option (List JFile) :=
  match combine_json_files repo dataType files with
  | some out =>
    some (writeOutput files (repo ++ "-" ++ dataType ++ "-combined.json") (Json.arr out))
  | none => none

/-- A well-formed raw referrers snapshot for 2024-01-01. -/
def refSnap : JFile :=
  ⟨"metrics-referrers-2024-01-01.json",
   some (Json.arr [Json.obj [("data", Json.arr
     [Json.obj [("referrer", Json.str "google"), ("count", Json.num 5),
       ("uniques", Json.num 3)]])]])⟩

/-- The combined output file the first combiner run writes for refSnap. -/
def refCombinedFile : JFile :=
  ⟨"metrics-referrers-combined.json",
   some (Json.arr [Json.obj [("timestamp", Json.str "2024-01-01"),
     ("data", Json.arr [Json.obj [("referrer", Json.str "google"),
       ("count", Json.num 5), ("uniques", Json.num 3)]])]])⟩

/-- C1: the combiner is not idempotent.  The glob repo-metric-*.json also
matches the combined output file the first run wrote; on the second run
that file has no date in its name, so its referrer entries are folded in
under a None timestamp key, and sorted() then raises TypeError comparing
None with a string.  The first run succeeds and writes the combined
file; the second run over the directory it left crashes instead of
reproducing byte-identical output. -/
theorem claim_C1 :
    combine_run "metrics" "referrers" [refSnap] = some [refSnap, refCombinedFile] ∧
    combine_run "metrics" "referrers" [refSnap, refCombinedFile] = none :=
  ⟨rfl, rfl⟩

/-- A snapshot file json.load cannot parse. -/
def refSnapBad : JFile := ⟨"metrics-referrers-2024-01-02.json", none⟩

/-- C2 counterexample: one malformed snapshot among well-formed ones
makes the whole combine pass raise — nothing is merged and no output is
written — although without the malformed file the pass completes. -/
theorem claim_C2_counterexample :
    combine_json_files "metrics" "referrers" [refSnap, refSnapBad] = none ∧
    combine_json_files "metrics" "referrers" [refSnap] =
      some [Json.obj [("timestamp", Json.str "2024-01-01"),
        ("data", Json.arr [Json.obj [("referrer", Json.str "google"),
          ("count", Json.num 5), ("uniques", Json.num 3)]])]] :=
  ⟨rfl, rfl⟩

theorem processFile_content_none (dataType : String)
    (cd : List (Option String × Json)) (f : JFile) (h : f.content = none) :
    processFile dataType cd f = none := by
  simp [processFile, h]

theorem foldlM_processFile_none (dataType : String) (l : List JFile) :
    ∀ cd, (∃ f ∈ l, f.content = none) →
      l.foldlM (processFile dataType) cd = none := by
  induction l with
  | nil =>
    rintro cd ⟨f, hf, -⟩
    simp at hf
  | cons g rest ih =>
    rintro cd ⟨f, hf, hfc⟩
    rw [List.foldlM_cons]
    rcases List.mem_cons.mp hf with hf | hf
    · subst hf
      rw [processFile_content_none dataType cd f hfc]
      rfl
    · cases hg : processFile dataType cd g with
      | none => rfl
      | some cd2 =>
        show rest.foldlM (processFile dataType) cd2 = none
        exact ih cd2 ⟨f, hf, hfc⟩

/-- C2 (amended): a snapshot file that is simply missing is not seen by
the glob and the pass completes over the remaining files, but a
malformed (unparseable) snapshot file among the globbed ones makes
json.load raise inside the loop with no try/except around it: the whole
pass for that (repository, metric) aborts, nothing is merged, no output
file is written and no skip is logged. -/
theorem claim_C2_amended (repo dataType : String) (files : List JFile)
    (hbad : ∃ f ∈ files, globMatch repo dataType f.name = true ∧ f.content = none) :
    combine_json_files repo dataType files = none ∧
    combine_run repo dataType files = none := by
  obtain ⟨f, hf, hg, hc⟩ := hbad
  have hmem : f ∈ files.filter (fun f => globMatch repo dataType f.name) :=
    List.mem_filter.mpr ⟨hf, hg⟩
  have hfold := foldlM_processFile_none dataType
    (files.filter (fun f => globMatch repo dataType f.name)) [] ⟨f, hmem, hc⟩
  have hcomb : combine_json_files repo dataType files = none := by
    unfold combine_json_files combine_pairs
    simp [hfold]
  refine ⟨hcomb, ?_⟩
  unfold combine_run
  rw [hcomb]

/-- Witness for the amended C2 at a concrete directory holding one
well-formed and one malformed snapshot. -/
theorem claim_C2_amended_witness :
    combine_json_files "metrics" "referrers" [refSnap, refSnapBad] = none ∧
    combine_run "metrics" "referrers" [refSnap, refSnapBad] = none :=
  claim_C2_amended "metrics" "referrers" [refSnap, refSnapBad]
    ⟨refSnapBad, List.mem_cons_of_mem _ (List.mem_singleton.mpr rfl), rfl, rfl⟩

/-! ### Structure of combined_data -/

theorem cdFind_cdSet_self (cd : List (Option String × Json)) (k : Option String)
    (v : Json) : cdFind (cdSet cd k v) k = some v := by
  unfold cdSet
  by_cases hm : cd.any (fun p => p.1 = k)
  · rw [if_pos hm]
    induction cd with
    | nil => simp at hm
    | cons p rest ih =>
      by_cases hp : p.1 = k
      · simp [cdFind, hp]
      · simp only [List.any_cons, Bool.or_eq_true, decide_eq_true_eq] at hm
        rcases hm with hm | hm
        · exact absurd hm hp
        · simp only [List.map_cons, if_neg hp, cdFind, if_neg hp]
          exact ih hm
  · rw [if_neg hm]
    induction cd with
    | nil => simp [cdFind]
    | cons p rest ih =>
      simp only [List.any_cons, Bool.or_eq_true, decide_eq_true_eq, not_or] at hm
      simp only [List.cons_append, cdFind, if_neg hm.1]
      exact ih (by simpa using hm.2)

theorem cdFind_map_other (cd : List (Option String × Json)) (k k' : Option String)
    (v : Json) (hne : k' ≠ k) :
    cdFind (cd.map (fun p => if p.1 = k' then (k', v) else p)) k = cdFind cd k := by
  induction cd with
  | nil => rfl
  | cons p rest ih =>
    by_cases hp : p.1 = k'
    · simp only [List.map_cons, if_pos hp, cdFind, if_neg hne, if_neg (hp ▸ hne)]
      exact ih
    · simp only [List.map_cons, if_neg hp, cdFind]
      by_cases hk : p.1 = k
      · rw [if_pos hk, if_pos hk]
      · rw [if_neg hk, if_neg hk]
        exact ih

theorem cdFind_append_other (cd : List (Option String × Json)) (k k' : Option String)
    (v : Json) (hne : k' ≠ k) :
    cdFind (cd ++ [(k', v)]) k = cdFind cd k := by
  induction cd with
  | nil => simp [cdFind, if_neg hne]
  | cons p rest ih =>
    simp only [List.cons_append, cdFind]
    by_cases hk : p.1 = k
    · rw [if_pos hk, if_pos hk]
    · rw [if_neg hk, if_neg hk]
      exact ih

theorem cdFind_cdSet_other (cd : List (Option String × Json)) (k k' : Option String)
    (v : Json) (hne : k' ≠ k) : cdFind (cdSet cd k' v) k = cdFind cd k := by
  unfold cdSet
  by_cases hm : cd.any (fun p => p.1 = k')
  · rw [if_pos hm]
    exact cdFind_map_other cd k k' v hne
  · rw [if_neg hm]
    exact cdFind_append_other cd k k' v hne

theorem cdSet_keys_nodup (cd : List (Option String × Json)) (k : Option String)
    (v : Json) (h : (cd.map Prod.fst).Nodup) :
    ((cdSet cd k v).map Prod.fst).Nodup := by
  unfold cdSet
  by_cases hm : cd.any (fun p => p.1 = k)
  · rw [if_pos hm, List.map_map]
    have : cd.map (Prod.fst ∘ fun p => if p.1 = k then (k, v) else p) = cd.map Prod.fst := by
      refine List.map_congr_left ?_
      intro p _
      by_cases hp : p.1 = k
      · simp [hp]
      · simp [hp]
    rw [this]
    exact h
  · rw [if_neg hm, List.map_append]
    simp only [List.map_cons, List.map_nil]
    rw [List.nodup_append]
    refine ⟨h, List.nodup_singleton _, ?_⟩
    intro a ha hb
    rw [List.mem_singleton.mp hb] at ha
    obtain ⟨p, hp, hpk⟩ := List.mem_map.mp ha
    exact hm (List.any_eq_true.mpr ⟨p, hp, by simp [hpk]⟩)

/-- The conditional date-key initialization that opens every non-views
item body. -/
def cdInit (cd : List (Option String × Json)) (ts : Option String) (v : Json) :
    List (Option String × Json) :=
  if (cdFind cd ts).isSome then cd else cdSet cd ts v

theorem cdInit_keys_nodup (cd : List (Option String × Json)) (ts : Option String)
    (v : Json) (h : (cd.map Prod.fst).Nodup) :
    ((cdInit cd ts v).map Prod.fst).Nodup := by
  unfold cdInit
  by_cases hm : (cdFind cd ts).isSome
  · rw [if_pos hm]; exact h
  · rw [if_neg hm]; exact cdSet_keys_nodup cd ts v h

/-- Options folds preserve invariants that every step preserves. -/
theorem foldlM_preserves {σ α : Type} (P : σ → Prop) (f : σ → α → Option σ)
    (hf : ∀ s item s', f s item = some s' → P s → P s') :
    ∀ (items : List α) (s s' : σ), items.foldlM f s = some s' → P s → P s' := by
  intro items
  induction items with
  | nil =>
    intro s s' h hp
    simp only [List.foldlM_nil] at h
    cases h
    exact hp
  | cons i rest ih =>
    intro s s' h hp
    rw [List.foldlM_cons] at h
    cases hfi : f s i with
    | none =>
      rw [hfi] at h
      exact Option.noConfusion h
    | some s1 =>
      rw [hfi] at h
      exact ih s1 s' h (hf s i s1 hfi hp)


/-! ### Max-merge for referrers snapshots -/

/-- Shape invariant of combined_data during a referrers run: every date
key holds an object mapping referrer names to two-field
{count, uniques} objects with numeric values. -/
def RefInv (cd : List (Option String × Json)) : Prop :=
  ∀ p ∈ cd, ∃ rmap : List (String × Json), p.2 = Json.obj rmap ∧
    ∀ q ∈ rmap, ∃ c u : Int,
      q.2 = Json.obj [("count", Json.num c), ("uniques", Json.num u)]

/-- The (count, uniques) pair combined_data holds for a date and a
referrer. -/
def cdRefLookup (cd : List (Option String × Json)) (d : Option String)
    (ρ : String) : Option (Int × Int) :=
  match cdFind cd d with
  | some (Json.obj rmap) =>
    match getField rmap ρ with
    | some (Json.obj rfs) =>
      match getField rfs "count", getField rfs "uniques" with
      | some (Json.num c), some (Json.num u) => some (c, u)
      | _, _ => none
    | _ => none
  | _ => none

/-- Folding one observation into the running maximum: the code starts a
fresh key at {0, 0} and then maxes, so the first observation lands at
(max c 0, max u 0). -/
def mergePoint (acc : Option (Int × Int)) (c u : Int) : Option (Int × Int) :=
  match acc with
  | none => some (max c 0, max u 0)
  | some mcu => some (max c mcu.1, max u mcu.2)

/-- The maximum over all contributions for one (date, referrer) point,
resumed from a base accumulator. -/
def specMaxAt (contribs : List (Option String × RefEntry)) (d : Option String)
    (ρ : String) (base : Option (Int × Int)) : Option (Int × Int) :=
  contribs.foldl (fun acc c =>
    if c.1 = d ∧ c.2.referrer = ρ then mergePoint acc c.2.count c.2.uniques
    else acc) base

theorem specMaxAt_append (l1 l2 : List (Option String × RefEntry))
    (d : Option String) (ρ : String) (base : Option (Int × Int)) :
    specMaxAt (l1 ++ l2) d ρ base = specMaxAt l2 d ρ (specMaxAt l1 d ρ base) := by
  unfold specMaxAt
  rw [List.foldl_append]

/-- Executable well-formedness of one referrers item. -/
def wfRefItemB (j : Json) : Bool := (toRefEntry j).isSome

/-- Executable well-formedness of one top-level snapshot entry for
referrers: an object whose data field (defaulting to the empty list) is
a list of well-formed items. -/
def wfRefEntryB (e : Json) : Bool :=
  match e with
  | Json.obj fs =>
    match (getField fs "data").getD (Json.arr []) with
    | Json.arr items => items.all wfRefItemB
    | _ => false
  | _ => false

/-- Executable well-formedness of one raw referrers snapshot file:
parseable, a top-level list of well-formed entries, and a date in the
filename. -/
def wfRefFileB (f : JFile) : Bool :=
  match f.content with
  | some (Json.arr entries) =>
    entries.all wfRefEntryB && (extract_timestamp_from_filename f.name).isSome
  | _ => false

/-- The typed contributions of one snapshot entry. -/
def entryRefContribs (e : Json) : List RefEntry :=
  match e with
  | Json.obj fs =>
    match (getField fs "data").getD (Json.arr []) with
    | Json.arr items => items.filterMap toRefEntry
    | _ => []
  | _ => []

/-- The typed contributions of one snapshot file, dated by its name. -/
def fileRefContribs (f : JFile) : List (Option String × RefEntry) :=
  match f.content with
  | some (Json.arr entries) =>
    (entries.map entryRefContribs).flatten.map
      (fun e => (extract_timestamp_from_filename f.name, e))
  | _ => []

/-- All contributions of the globbed snapshot set, in processing order. -/
def refContribs (repo : String) (files : List JFile) :
    List (Option String × RefEntry) :=
  ((files.filter (fun f => globMatch repo "referrers" f.name)).map fileRefContribs).flatten

theorem toRefEntry_inv (item : Json) (e : RefEntry) (h : toRefEntry item = some e) :
    ∃ fs, item = Json.obj fs ∧
      getField fs "referrer" = some (Json.str e.referrer) ∧
      getField fs "count" = some (Json.num e.count) ∧
      getField fs "uniques" = some (Json.num e.uniques) := by
  cases item with
  | obj fs =>
    refine ⟨fs, rfl, ?_⟩
    simp only [toRefEntry] at h
    split at h
    · next r c u hr hc hu =>
      cases h
      exact ⟨hr, hc, hu⟩
    · exact Option.noConfusion h
  | null => exact Option.noConfusion h
  | bool b => exact Option.noConfusion h
  | num n => exact Option.noConfusion h
  | str s => exact Option.noConfusion h
  | arr l => exact Option.noConfusion h

theorem cdFind_mem (cd : List (Option String × Json)) (k : Option String) (v : Json)
    (h : cdFind cd k = some v) : (k, v) ∈ cd := by
  induction cd with
  | nil => exact Option.noConfusion h
  | cons p rest ih =>
    unfold cdFind at h
    by_cases hp : p.1 = k
    · rw [if_pos hp] at h
      cases h
      have hkp : (k, p.2) = p := by rw [← hp]
      rw [hkp]
      exact List.mem_cons_self _ _
    · rw [if_neg hp] at h
      exact List.mem_cons_of_mem _ (ih h)

theorem cdSet_keys_subset (cd : List (Option String × Json)) (k : Option String)
    (v : Json) : ∀ a ∈ (cdSet cd k v).map Prod.fst, a = k ∨ a ∈ cd.map Prod.fst := by
  intro a ha
  unfold cdSet at ha
  by_cases hm : cd.any (fun p => p.1 = k)
  · rw [if_pos hm, List.map_map] at ha
    obtain ⟨p, hp, hpa⟩ := List.mem_map.mp ha
    by_cases hpk : p.1 = k
    · simp only [Function.comp_apply, if_pos hpk] at hpa
      exact Or.inl hpa.symm
    · simp only [Function.comp_apply, if_neg hpk] at hpa
      exact Or.inr (hpa ▸ List.mem_map.mpr ⟨p, hp, rfl⟩)
  · rw [if_neg hm, List.map_append] at ha
    rcases List.mem_append.mp ha with ha | ha
    · exact Or.inr ha
    · simp only [List.map_cons, List.map_nil, List.mem_singleton] at ha
      exact Or.inl ha

theorem mem_cdSet (cd : List (Option String × Json)) (k : Option String) (v : Json)
    (p : Option String × Json) (hp : p ∈ cdSet cd k v) : p = (k, v) ∨ p ∈ cd := by
  unfold cdSet at hp
  by_cases hm : cd.any (fun q => q.1 = k)
  · rw [if_pos hm] at hp
    obtain ⟨q, hq, hqe⟩ := List.mem_map.mp hp
    by_cases hqk : q.1 = k
    · rw [if_pos hqk] at hqe
      exact Or.inl hqe.symm
    · rw [if_neg hqk] at hqe
      exact Or.inr (hqe ▸ hq)
  · rw [if_neg hm] at hp
    rcases List.mem_append.mp hp with hp | hp
    · exact Or.inr hp
    · exact Or.inl (List.mem_singleton.mp hp)

theorem mem_setField (fs : List (String × Json)) (k : String) (v : Json)
    (p : String × Json) (hp : p ∈ setField fs k v) : p = (k, v) ∨ p ∈ fs := by
  unfold setField at hp
  by_cases hm : fs.any (fun q => q.1 = k)
  · rw [if_pos hm] at hp
    obtain ⟨q, hq, hqe⟩ := List.mem_map.mp hp
    by_cases hqk : q.1 = k
    · rw [if_pos hqk] at hqe
      exact Or.inl hqe.symm
    · rw [if_neg hqk] at hqe
      exact Or.inr (hqe ▸ hq)
  · rw [if_neg hm] at hp
    rcases List.mem_append.mp hp with hp | hp
    · exact Or.inr hp
    · exact Or.inl (List.mem_singleton.mp hp)

theorem getField_mem (fs : List (String × Json)) (k : String) (v : Json)
    (h : getField fs k = some v) : (k, v) ∈ fs := by
  induction fs with
  | nil => exact Option.noConfusion h
  | cons p rest ih =>
    unfold getField at h
    by_cases hp : p.1 = k
    · rw [if_pos hp] at h
      cases h
      have hkp : (k, p.2) = p := by rw [← hp]
      rw [hkp]
      exact List.mem_cons_self _ _
    · rw [if_neg hp] at h
      exact List.mem_cons_of_mem _ (ih h)

/-- Overwriting count then uniques on a two-field counters object. -/
theorem cuSet_compute (c0 u0 c u : Int) :
    setField (setField [("count", Json.num c0), ("uniques", Json.num u0)]
        "count" (Json.num c)) "uniques" (Json.num u) =
      [("count", Json.num c), ("uniques", Json.num u)] := rfl

theorem RefInv_cdSet (cd : List (Option String × Json)) (k : Option String)
    (rmap : List (String × Json)) (hinv : RefInv cd)
    (hr : ∀ q ∈ rmap, ∃ c u : Int,
      q.2 = Json.obj [("count", Json.num c), ("uniques", Json.num u)]) :
    RefInv (cdSet cd k (Json.obj rmap)) := by
  intro p hp
  rcases mem_cdSet cd k (Json.obj rmap) p hp with hp | hp
  · exact ⟨rmap, by rw [hp], hr⟩
  · exact hinv p hp

/-- Processing one well-formed referrers item max-merges its (count,
uniques) into the (date, referrer) cell and leaves every other cell
unchanged, preserving the shape invariant, the key set (up to the new
date) and key distinctness. -/
theorem processReferrersItem_spec (ts : Option String)
    (cd : List (Option String × Json)) (item : Json) (e : RefEntry)
    (hinv : RefInv cd) (hitem : toRefEntry item = some e) :
    ∃ cd', processReferrersItem ts cd item = some cd' ∧ RefInv cd' ∧
      (∀ a ∈ cd'.map Prod.fst, a = ts ∨ a ∈ cd.map Prod.fst) ∧
      ((cd.map Prod.fst).Nodup → (cd'.map Prod.fst).Nodup) ∧
      ∀ d ρ, cdRefLookup cd' d ρ =
        if ts = d ∧ e.referrer = ρ then
          mergePoint (cdRefLookup cd d ρ) e.count e.uniques
        else cdRefLookup cd d ρ := by
  obtain ⟨fs, rfl, hr, hc, hu⟩ := toRefEntry_inv item e hitem
  cases hK : cdFind cd ts with
  | none =>
    refine ⟨cdSet (cdSet cd ts (Json.obj [])) ts
      (Json.obj [(e.referrer,
        Json.obj [("count", Json.num (max e.count 0)),
                  ("uniques", Json.num (max e.uniques 0))])]), ?_, ?_, ?_, ?_, ?_⟩
    · simp [processReferrersItem, pyIndex, jStr, jObjFields, pyMaxNum, hr, hc, hu, hK,
        cdFind_cdSet_self, getField, setField]
    · apply RefInv_cdSet
      · apply RefInv_cdSet cd ts [] hinv
        intro q hq
        simp at hq
      · intro q hq
        rw [List.mem_singleton.mp hq]
        exact ⟨max e.count 0, max e.uniques 0, rfl⟩
    · intro a ha
      rcases cdSet_keys_subset _ ts _ a ha with h | h
      · exact Or.inl h
      · rcases cdSet_keys_subset _ ts _ a h with h | h
        · exact Or.inl h
        · exact Or.inr h
    · intro hn
      exact cdSet_keys_nodup _ _ _ (cdSet_keys_nodup _ _ _ hn)
    · intro d ρ
      by_cases hd : ts = d
      · subst hd
        by_cases hρ : e.referrer = ρ
        · subst hρ
          rw [if_pos ⟨rfl, rfl⟩]
          simp [cdRefLookup, cdFind_cdSet_self, hK, getField, mergePoint]
        · rw [if_neg (fun hand => hρ hand.2)]
          simp [cdRefLookup, cdFind_cdSet_self, hK, getField, hρ]
      · rw [if_neg (fun hand => hd hand.1)]
        simp [cdRefLookup, cdFind_cdSet_other _ _ _ _ hd]
  | some v =>
    obtain ⟨rmap, hv, hshape⟩ := hinv (ts, v) (cdFind_mem cd ts v hK)
    simp only at hv
    subst hv
    cases hG : getField rmap e.referrer with
    | none =>
      refine ⟨cdSet cd ts (Json.obj
        (setField (setField rmap e.referrer
            (Json.obj [("count", Json.num 0), ("uniques", Json.num 0)]))
          e.referrer
          (Json.obj [("count", Json.num (max e.count 0)),
                     ("uniques", Json.num (max e.uniques 0))]))), ?_, ?_, ?_, ?_, ?_⟩
      · simp [processReferrersItem, pyIndex, jStr, jObjFields, pyMaxNum, hr, hc, hu,
          hK, hG, getField_setField_self, getField_setField_other, cuSet_compute,
          getField]
      · apply RefInv_cdSet cd ts _ hinv
        intro q hq
        rcases mem_setField _ _ _ q hq with hq | hq
        · exact ⟨max e.count 0, max e.uniques 0, by rw [hq]⟩
        · rcases mem_setField _ _ _ q hq with hq | hq
          · exact ⟨0, 0, by rw [hq]⟩
          · exact hshape q hq
      · intro a ha
        rcases cdSet_keys_subset _ ts _ a ha with h | h
        · exact Or.inl h
        · exact Or.inr h
      · intro hn
        exact cdSet_keys_nodup _ _ _ hn
      · intro d ρ
        by_cases hd : ts = d
        · subst hd
          by_cases hρ : e.referrer = ρ
          · subst hρ
            rw [if_pos ⟨rfl, rfl⟩]
            simp [cdRefLookup, cdFind_cdSet_self, hK, hG, getField_setField_self,
              getField, mergePoint]
          · rw [if_neg (fun hand => hρ hand.2)]
            simp [cdRefLookup, cdFind_cdSet_self, hK,
              getField_setField_other _ _ _ _ hρ]
        · rw [if_neg (fun hand => hd hand.1)]
          simp [cdRefLookup, cdFind_cdSet_other _ _ _ _ hd]
    | some w =>
      obtain ⟨c0, u0, hw⟩ := hshape (e.referrer, w) (getField_mem rmap e.referrer w hG)
      simp only at hw
      subst hw
      refine ⟨cdSet cd ts (Json.obj
        (setField rmap e.referrer
          (Json.obj [("count", Json.num (max e.count c0)),
                     ("uniques", Json.num (max e.uniques u0))]))), ?_, ?_, ?_, ?_, ?_⟩
      · simp [processReferrersItem, pyIndex, jStr, jObjFields, pyMaxNum, hr, hc, hu,
          hK, hG, getField_setField_self, getField_setField_other, cuSet_compute,
          getField]
      · apply RefInv_cdSet cd ts _ hinv
        intro q hq
        rcases mem_setField _ _ _ q hq with hq | hq
        · exact ⟨max e.count c0, max e.uniques u0, by rw [hq]⟩
        · exact hshape q hq
      · intro a ha
        rcases cdSet_keys_subset _ ts _ a ha with h | h
        · exact Or.inl h
        · exact Or.inr h
      · intro hn
        exact cdSet_keys_nodup _ _ _ hn
      · intro d ρ
        by_cases hd : ts = d
        · subst hd
          by_cases hρ : e.referrer = ρ
          · subst hρ
            rw [if_pos ⟨rfl, rfl⟩]
            simp [cdRefLookup, cdFind_cdSet_self, hK, hG, getField_setField_self,
              getField, mergePoint]
          · rw [if_neg (fun hand => hρ hand.2)]
            simp [cdRefLookup, cdFind_cdSet_self, hK,
              getField_setField_other _ _ _ _ hρ]
        · rw [if_neg (fun hand => hd hand.1)]
          simp [cdRefLookup, cdFind_cdSet_other _ _ _ _ hd]

theorem specMaxAt_cons (c : Option String × RefEntry) (l : List (Option String × RefEntry))
    (d : Option String) (ρ : String) (base : Option (Int × Int)) :
    specMaxAt (c :: l) d ρ base =
      specMaxAt l d ρ
        (if c.1 = d ∧ c.2.referrer = ρ then mergePoint base c.2.count c.2.uniques
         else base) := rfl

/-- Folding all well-formed items of one entry. -/
theorem processReferrersItems_spec (ts : Option String) :
    ∀ (items : List Json) (cd : List (Option String × Json)),
      RefInv cd → (∀ i ∈ items, wfRefItemB i = true) →
      ∃ cd', items.foldlM (processReferrersItem ts) cd = some cd' ∧ RefInv cd' ∧
        (∀ a ∈ cd'.map Prod.fst, a = ts ∨ a ∈ cd.map Prod.fst) ∧
        ((cd.map Prod.fst).Nodup → (cd'.map Prod.fst).Nodup) ∧
        ∀ d ρ, cdRefLookup cd' d ρ =
          specMaxAt ((items.filterMap toRefEntry).map (fun e => (ts, e))) d ρ
            (cdRefLookup cd d ρ) := by
  intro items
  induction items with
  | nil =>
    intro cd hinv _
    exact ⟨cd, rfl, hinv, fun a ha => Or.inr ha, id, fun d ρ => rfl⟩
  | cons i rest ih =>
    intro cd hinv hwf
    have hi : (toRefEntry i).isSome = true := hwf i (List.mem_cons_self _ _)
    obtain ⟨e, he⟩ := Option.isSome_iff_exists.mp hi
    obtain ⟨cd1, heq, hinv1, hkeys1, hnodup1, hchar1⟩ :=
      processReferrersItem_spec ts cd i e hinv he
    obtain ⟨cd', heq', hinv', hkeys', hnodup', hchar'⟩ :=
      ih cd1 hinv1 (fun j hj => hwf j (List.mem_cons_of_mem _ hj))
    refine ⟨cd', ?_, hinv', ?_, fun hn => hnodup' (hnodup1 hn), ?_⟩
    · rw [List.foldlM_cons, heq]
      exact heq'
    · intro a ha
      rcases hkeys' a ha with h | h
      · exact Or.inl h
      · exact hkeys1 a h
    · intro d ρ
      rw [hchar' d ρ]
      simp only [List.filterMap_cons, he, List.map_cons]
      rw [specMaxAt_cons]
      rw [hchar1 d ρ]

theorem wfRefEntryB_inv (entry : Json) (h : wfRefEntryB entry = true) :
    ∃ fs items, entry = Json.obj fs ∧
      (getField fs "data").getD (Json.arr []) = Json.arr items ∧
      ∀ i ∈ items, wfRefItemB i = true := by
  cases entry with
  | obj fs =>
    simp only [wfRefEntryB] at h
    cases hdv : (getField fs "data").getD (Json.arr []) with
    | arr items =>
      rw [hdv] at h
      exact ⟨fs, items, rfl, hdv, fun i hi => List.all_eq_true.mp h i hi⟩
    | null => rw [hdv] at h; exact Bool.noConfusion h
    | bool b => rw [hdv] at h; exact Bool.noConfusion h
    | num n => rw [hdv] at h; exact Bool.noConfusion h
    | str s => rw [hdv] at h; exact Bool.noConfusion h
    | obj fs2 => rw [hdv] at h; exact Bool.noConfusion h
  | null => exact Bool.noConfusion h
  | bool b => exact Bool.noConfusion h
  | num n => exact Bool.noConfusion h
  | str s => exact Bool.noConfusion h
  | arr l => exact Bool.noConfusion h

/-- Folding one well-formed entry of a referrers snapshot. -/
theorem processReferrersEntry_spec (ts : Option String) (entry : Json)
    (hwf : wfRefEntryB entry = true) (cd : List (Option String × Json))
    (hinv : RefInv cd) :
    ∃ cd', processEntry "referrers" ts cd entry = some cd' ∧ RefInv cd' ∧
      (∀ a ∈ cd'.map Prod.fst, a = ts ∨ a ∈ cd.map Prod.fst) ∧
      ((cd.map Prod.fst).Nodup → (cd'.map Prod.fst).Nodup) ∧
      ∀ d ρ, cdRefLookup cd' d ρ =
        specMaxAt ((entryRefContribs entry).map (fun e => (ts, e))) d ρ
          (cdRefLookup cd d ρ) := by
  obtain ⟨fs, items, rfl, hdv, hitems⟩ := wfRefEntryB_inv entry hwf
  obtain ⟨cd', heq, hinv', hkeys', hnodup', hchar'⟩ :=
    processReferrersItems_spec ts items cd hinv hitems
  refine ⟨cd', ?_, hinv', hkeys', hnodup', ?_⟩
  · unfold processEntry
    rw [if_neg (by simp)]
    show ((pyGet (Json.obj fs) "data" (Json.arr [])).bind fun dataVal =>
      (pyIter dataVal).bind fun items2 =>
        if "referrers" = "referrers" then
          items2.foldlM (processReferrersItem ts) cd
        else if "referrers" = "paths" then items2.foldlM (processPathsItem ts) cd
        else items2.foldlM (processOtherItem ts) cd) = some cd'
    rw [show pyGet (Json.obj fs) "data" (Json.arr []) =
      some (Json.arr items) from by simp [pyGet, hdv]]
    rw [Option.some_bind]
    show (pyIter (Json.arr items)).bind _ = some cd'
    rw [show pyIter (Json.arr items) = some items from rfl, Option.some_bind,
      if_pos rfl]
    exact heq
  · intro d ρ
    rw [hchar' d ρ]
    have : entryRefContribs (Json.obj fs) = items.filterMap toRefEntry := by
      simp only [entryRefContribs]
      rw [hdv]
    rw [this]

/-- Folding all well-formed entries of one snapshot. -/
theorem processReferrersEntries_spec (ts : Option String) :
    ∀ (entries : List Json) (cd : List (Option String × Json)),
      RefInv cd → (∀ e ∈ entries, wfRefEntryB e = true) →
      ∃ cd', entries.foldlM (processEntry "referrers" ts) cd = some cd' ∧
        RefInv cd' ∧
        (∀ a ∈ cd'.map Prod.fst, a = ts ∨ a ∈ cd.map Prod.fst) ∧
        ((cd.map Prod.fst).Nodup → (cd'.map Prod.fst).Nodup) ∧
        ∀ d ρ, cdRefLookup cd' d ρ =
          specMaxAt (((entries.map entryRefContribs).flatten).map (fun e => (ts, e)))
            d ρ (cdRefLookup cd d ρ) := by
  intro entries
  induction entries with
  | nil =>
    intro cd hinv _
    exact ⟨cd, rfl, hinv, fun a ha => Or.inr ha, id, fun d ρ => rfl⟩
  | cons en rest ih =>
    intro cd hinv hwf
    obtain ⟨cd1, heq, hinv1, hkeys1, hnodup1, hchar1⟩ :=
      processReferrersEntry_spec ts en (hwf en (List.mem_cons_self _ _)) cd hinv
    obtain ⟨cd', heq', hinv', hkeys', hnodup', hchar'⟩ :=
      ih cd1 hinv1 (fun j hj => hwf j (List.mem_cons_of_mem _ hj))
    refine ⟨cd', ?_, hinv', ?_, fun hn => hnodup' (hnodup1 hn), ?_⟩
    · rw [List.foldlM_cons, heq]
      exact heq'
    · intro a ha
      rcases hkeys' a ha with h | h
      · exact Or.inl h
      · exact hkeys1 a h
    · intro d ρ
      rw [hchar' d ρ]
      simp only [List.map_cons, List.flatten_cons, List.map_append]
      rw [specMaxAt_append]
      rw [hchar1 d ρ]

theorem wfRefFileB_inv (f : JFile) (h : wfRefFileB f = true) :
    ∃ entries, f.content = some (Json.arr entries) ∧
      (∀ e ∈ entries, wfRefEntryB e = true) ∧
      (extract_timestamp_from_filename f.name).isSome = true := by
  obtain ⟨name, content⟩ := f
  cases content with
  | some j =>
    cases j with
    | arr entries =>
      simp only [wfRefFileB, Bool.and_eq_true] at h
      exact ⟨entries, rfl, fun e he => List.all_eq_true.mp h.1 e he, h.2⟩
    | null => exact Bool.noConfusion h
    | bool b => exact Bool.noConfusion h
    | num n => exact Bool.noConfusion h
    | str s => exact Bool.noConfusion h
    | obj fs => exact Bool.noConfusion h
  | none => exact Bool.noConfusion h

/-- Folding one well-formed snapshot file. -/
theorem processReferrersFile_spec (f : JFile) (hwf : wfRefFileB f = true)
    (cd : List (Option String × Json)) (hinv : RefInv cd) :
    ∃ cd', processFile "referrers" cd f = some cd' ∧ RefInv cd' ∧
      (∀ a ∈ cd'.map Prod.fst,
        a = extract_timestamp_from_filename f.name ∨ a ∈ cd.map Prod.fst) ∧
      ((cd.map Prod.fst).Nodup → (cd'.map Prod.fst).Nodup) ∧
      ∀ d ρ, cdRefLookup cd' d ρ =
        specMaxAt (fileRefContribs f) d ρ (cdRefLookup cd d ρ) := by
  obtain ⟨entries, hcontent, hentries, -⟩ := wfRefFileB_inv f hwf
  obtain ⟨cd', heq, hinv', hkeys', hnodup', hchar'⟩ :=
    processReferrersEntries_spec (extract_timestamp_from_filename f.name)
      entries cd hinv hentries
  refine ⟨cd', ?_, hinv', hkeys', hnodup', ?_⟩
  · unfold processFile
    rw [hcontent]
    exact heq
  · intro d ρ
    rw [hchar' d ρ]
    have : fileRefContribs f =
        ((entries.map entryRefContribs).flatten).map
          (fun e => (extract_timestamp_from_filename f.name, e)) := by
      simp only [fileRefContribs]
      rw [hcontent]
    rw [this]

/-- Folding a list of well-formed snapshot files. -/
theorem processReferrersFiles_spec :
    ∀ (files : List JFile) (cd : List (Option String × Json)),
      RefInv cd → (∀ f ∈ files, wfRefFileB f = true) →
      ∃ cd', files.foldlM (processFile "referrers") cd = some cd' ∧ RefInv cd' ∧
        (∀ a ∈ cd'.map Prod.fst,
          (∃ f ∈ files, a = extract_timestamp_from_filename f.name) ∨
            a ∈ cd.map Prod.fst) ∧
        ((cd.map Prod.fst).Nodup → (cd'.map Prod.fst).Nodup) ∧
        ∀ d ρ, cdRefLookup cd' d ρ =
          specMaxAt ((files.map fileRefContribs).flatten) d ρ (cdRefLookup cd d ρ) := by
  intro files
  induction files with
  | nil =>
    intro cd hinv _
    exact ⟨cd, rfl, hinv, fun a ha => Or.inr ha, id, fun d ρ => rfl⟩
  | cons f rest ih =>
    intro cd hinv hwf
    obtain ⟨cd1, heq, hinv1, hkeys1, hnodup1, hchar1⟩ :=
      processReferrersFile_spec f (hwf f (List.mem_cons_self _ _)) cd hinv
    obtain ⟨cd', heq', hinv', hkeys', hnodup', hchar'⟩ :=
      ih cd1 hinv1 (fun j hj => hwf j (List.mem_cons_of_mem _ hj))
    refine ⟨cd', ?_, hinv', ?_, fun hn => hnodup' (hnodup1 hn), ?_⟩
    · rw [List.foldlM_cons, heq]
      exact heq'
    · intro a ha
      rcases hkeys' a ha with h | h
      · obtain ⟨g, hg, hga⟩ := h
        exact Or.inl ⟨g, List.mem_cons_of_mem _ hg, hga⟩
      · rcases hkeys1 a h with h2 | h2
        · exact Or.inl ⟨f, List.mem_cons_self _ _, h2⟩
        · exact Or.inr h2
    · intro d ρ
      rw [hchar' d ρ]
      simp only [List.map_cons, List.flatten_cons]
      rw [specMaxAt_append]
      rw [hchar1 d ρ]

theorem mapM_refRowOut (rmap : List (String × Json))
    (hshape : ∀ q ∈ rmap, ∃ c u : Int,
      q.2 = Json.obj [("count", Json.num c), ("uniques", Json.num u)]) :
    ∃ rows, rmap.mapM refRowOut = some rows := by
  induction rmap with
  | nil => exact ⟨[], rfl⟩
  | cons q rest ih =>
    obtain ⟨c, u, hq⟩ := hshape q (List.mem_cons_self _ _)
    obtain ⟨rows, hrows⟩ := ih (fun r hr => hshape r (List.mem_cons_of_mem _ hr))
    have hq1 : refRowOut q =
        some (Json.obj [("referrer", Json.str q.1), ("count", Json.num c),
          ("uniques", Json.num u)]) := by
      simp [refRowOut, hq, getField, jObjFields]
    refine ⟨Json.obj [("referrer", Json.str q.1), ("count", Json.num c),
      ("uniques", Json.num u)] :: rows, ?_⟩
    rw [List.mapM_cons, hq1, hrows]
    rfl

theorem serialize_referrers_spec :
    ∀ (cd : List (Option String × Json)), RefInv cd →
      ∃ pairs, cd.mapM refPairOut = some pairs ∧
        pairs.map Prod.fst = cd.map Prod.fst := by
  intro cd
  induction cd with
  | nil => exact fun _ => ⟨[], rfl, rfl⟩
  | cons p rest ih =>
    intro hinv
    obtain ⟨rmap, hrm, hshape⟩ := hinv p (List.mem_cons_self _ _)
    obtain ⟨rows, hrows⟩ := mapM_refRowOut rmap hshape
    obtain ⟨pairs, hpairs, hkeys⟩ := ih (fun q hq => hinv q (List.mem_cons_of_mem _ hq))
    have hp1 : refPairOut p =
        some (p.1, Json.obj [("timestamp", optStr p.1), ("data", Json.arr rows)]) := by
      unfold refPairOut
      rw [hrm]
      show (List.mapM refRowOut rmap).bind
          (fun rs => some (p.1, Json.obj [("timestamp", optStr p.1), ("data", Json.arr rs)])) =
        some (p.1, Json.obj [("timestamp", optStr p.1), ("data", Json.arr rows)])
      rw [hrows]
      rfl
    refine ⟨(p.1, Json.obj [("timestamp", optStr p.1), ("data", Json.arr rows)]) :: pairs,
      ?_, ?_⟩
    · rw [List.mapM_cons, hp1, hpairs]
      rfl
    · simp only [List.map_cons, hkeys]

theorem serializeCombined_referrers (cd : List (Option String × Json))
    (hinv : RefInv cd) :
    ∃ pairs, serializeCombined "referrers" cd = some pairs ∧
      pairs.map Prod.fst = cd.map Prod.fst := by
  obtain ⟨pairs, hpairs, hkeys⟩ := serialize_referrers_spec cd hinv
  refine ⟨pairs, ?_, hkeys⟩
  unfold serializeCombined
  rw [if_neg (by simp), if_pos rfl]
  exact hpairs

theorem pySortPairs_allSome (pairs : List (Option String × Json))
    (hsome : ∀ p ∈ pairs, p.1.isSome = true) :
    pySortPairs pairs = some (pairs.insertionSort tsLe) ∧
    (pairs.insertionSort tsLe).Sorted tsLe ∧
    (pairs.insertionSort tsLe).Perm pairs := by
  refine ⟨?_, List.sorted_insertionSort tsLe pairs, List.perm_insertionSort tsLe pairs⟩
  unfold pySortPairs
  rw [if_neg ?_]
  rintro ⟨-, hany⟩
  obtain ⟨p, hp, hnone⟩ := List.any_eq_true.mp hany
  simp only [decide_eq_true_eq] at hnone
  have := hsome p hp
  rw [hnone] at this
  exact Bool.noConfusion this

/-- End-to-end combiner correctness for any directory of well-formed raw
referrers snapshots: the run succeeds, the output has pairwise distinct
timestamp keys and is sorted ascending, and combined_data holds, per
date and per referrer, exactly the running maximum of count and of
uniques over all contributions of the globbed snapshots.  Unmatched or
extra files in the directory may be arbitrary as long as every file the
glob picks up is a well-formed dated snapshot. -/
theorem combine_referrers_spec (repo : String) (files : List JFile)
    (hwf : ∀ f ∈ files, globMatch repo "referrers" f.name = true → wfRefFileB f = true) :
    ∃ cd pairs,
      (files.filter (fun f => globMatch repo "referrers" f.name)).foldlM
        (processFile "referrers") [] = some cd ∧
      serializeCombined "referrers" cd = some pairs ∧
      pySortPairs pairs = some (pairs.insertionSort tsLe) ∧
      combine_json_files repo "referrers" files =
        some ((pairs.insertionSort tsLe).map Prod.snd) ∧
      ((pairs.insertionSort tsLe).map Prod.fst).Nodup ∧
      (pairs.insertionSort tsLe).Sorted tsLe ∧
      (∀ d ρ, cdRefLookup cd d ρ = specMaxAt (refContribs repo files) d ρ none) := by
  have hwfm : ∀ f ∈ files.filter (fun f => globMatch repo "referrers" f.name),
      wfRefFileB f = true := by
    intro f hf
    obtain ⟨hmem, hglob⟩ := List.mem_filter.mp hf
    exact hwf f hmem hglob
  obtain ⟨cd, hfold, hinv, hkeys, hnodup, hchar⟩ :=
    processReferrersFiles_spec (files.filter (fun f => globMatch repo "referrers" f.name))
      [] (fun p hp => absurd hp (List.not_mem_nil p)) hwfm
  obtain ⟨pairs, hser, hpkeys⟩ := serializeCombined_referrers cd hinv
  have hsome : ∀ p ∈ pairs, p.1.isSome = true := by
    intro p hp
    have hpk : p.1 ∈ pairs.map Prod.fst := List.mem_map.mpr ⟨p, hp, rfl⟩
    rw [hpkeys] at hpk
    rcases hkeys p.1 hpk with h | h
    · obtain ⟨f, hf, hfa⟩ := h
      obtain ⟨-, -, -, hs⟩ := wfRefFileB_inv f (hwfm f hf)
      rw [hfa]
      exact hs
    · simp at h
  obtain ⟨hsort, hsorted, hperm⟩ := pySortPairs_allSome pairs hsome
  have hcp : combine_pairs repo "referrers" files = some pairs := by
    simp only [combine_pairs]
    rw [hfold]
    exact hser
  have hcj : combine_json_files repo "referrers" files =
      some ((pairs.insertionSort tsLe).map Prod.snd) := by
    simp only [combine_json_files]
    rw [hcp]
    show (pySortPairs pairs).bind (fun sorted => some (sorted.map Prod.snd)) = _
    rw [hsort]
    rfl
  refine ⟨cd, pairs, hfold, hser, hsort, hcj, ?_, hsorted, ?_⟩
  · rw [List.Perm.nodup_iff (hperm.map Prod.fst), hpkeys]
    exact hnodup (by simp)
  · intro d ρ
    rw [hchar d ρ]
    have : cdRefLookup [] d ρ = none := rfl
    rw [this]
    rfl

/-- First referrers snapshot for 2024-03-05: google with count 5, uniques 3. -/
def refSnap5 : JFile :=
  ⟨"metrics-referrers-2024-03-05.json",
   some (Json.arr [Json.obj [("data", Json.arr
     [Json.obj [("referrer", Json.str "google"), ("count", Json.num 5),
       ("uniques", Json.num 3)]])]])⟩

/-- Second referrers snapshot for the same date: google with count 8, uniques 1. -/
def refSnap8 : JFile :=
  ⟨"metrics-referrers-2024-03-05-b.json",
   some (Json.arr [Json.obj [("data", Json.arr
     [Json.obj [("referrer", Json.str "google"), ("count", Json.num 8),
       ("uniques", Json.num 1)]])]])⟩

/-- First views snapshot: one daily item with count 5, uniques 2. -/
def viewSnapA : JFile :=
  ⟨"metrics-views-2024-03-04.json",
   some (Json.arr [Json.obj [("data", Json.obj [("count", Json.num 5),
     ("uniques", Json.num 2), ("views", Json.arr
       [Json.obj [("timestamp", Json.str "2024-03-04T00:00:00Z"),
         ("count", Json.num 5), ("uniques", Json.num 2)]])])]])⟩

/-- Second views snapshot covering the same daily timestamp with count 8, uniques 1. -/
def viewSnapB : JFile :=
  ⟨"metrics-views-2024-03-04-b.json",
   some (Json.arr [Json.obj [("data", Json.obj [("count", Json.num 8),
     ("uniques", Json.num 1), ("views", Json.arr
       [Json.obj [("timestamp", Json.str "2024-03-04T00:00:00Z"),
         ("count", Json.num 8), ("uniques", Json.num 1)]])])]])⟩

/-- First paths snapshot for 2024-03-06: /index.html with count 5, uniques 2. -/
def pathSnapA : JFile :=
  ⟨"metrics-paths-2024-03-06.json",
   some (Json.arr [Json.obj [("data", Json.arr
     [Json.obj [("path", Json.str "/index.html"), ("title", Json.str "Home"),
       ("count", Json.num 5), ("uniques", Json.num 2)]])]])⟩

/-- Second paths snapshot for the same date and path with count 8, uniques 1. -/
def pathSnapB : JFile :=
  ⟨"metrics-paths-2024-03-06-b.json",
   some (Json.arr [Json.obj [("data", Json.arr
     [Json.obj [("path", Json.str "/index.html"), ("title", Json.str "HomeB"),
       ("count", Json.num 8), ("uniques", Json.num 1)]])]])⟩

/-! ### Max-merge for paths snapshots -/

/-- Shape invariant of combined_data during a paths run: every date key
holds an object mapping paths to three-field {title, count, uniques}
objects with a string title and numeric counters. -/
def PathInv (cd : List (Option String × Json)) : Prop :=
  ∀ p ∈ cd, ∃ pmap : List (String × Json), p.2 = Json.obj pmap ∧
    ∀ q ∈ pmap, ∃ (t : String) (c u : Int),
      q.2 = Json.obj [("title", Json.str t), ("count", Json.num c),
        ("uniques", Json.num u)]

/-- The (title, count, uniques) triple combined_data holds for a date
and a path. -/
def cdPathLookup (cd : List (Option String × Json)) (d : Option String)
    (π : String) : Option (String × Int × Int) :=
  match cdFind cd d with
  | some (Json.obj pmap) =>
    match getField pmap π with
    | some (Json.obj pfs) =>
      match getField pfs "title", getField pfs "count", getField pfs "uniques" with
      | some (Json.str t), some (Json.num c), some (Json.num u) => some (t, c, u)
      | _, _, _ => none
    | _ => none
  | _ => none

/-- Folding one paths observation: a fresh cell starts at the item's
title with zero counters and then maxes; the title of an existing cell
is never touched, so the first observation's title wins. -/
def mergePathPoint (acc : Option (String × Int × Int)) (t : String) (c u : Int) :
    Option (String × Int × Int) :=
  match acc with
  | none => some (t, max c 0, max u 0)
  | some a => some (a.1, max c a.2.1, max u a.2.2)

/-- The running maximum (with first-wins title) over all contributions
for one (date, path) point, resumed from a base accumulator. -/
def specPathMaxAt (contribs : List (Option String × PathEntry)) (d : Option String)
    (π : String) (base : Option (String × Int × Int)) : Option (String × Int × Int) :=
  contribs.foldl (fun acc c =>
    if c.1 = d ∧ c.2.path = π then mergePathPoint acc c.2.title c.2.count c.2.uniques
    else acc) base

theorem specPathMaxAt_append (l1 l2 : List (Option String × PathEntry))
    (d : Option String) (π : String) (base : Option (String × Int × Int)) :
    specPathMaxAt (l1 ++ l2) d π base = specPathMaxAt l2 d π (specPathMaxAt l1 d π base) := by
  unfold specPathMaxAt
  rw [List.foldl_append]

theorem specPathMaxAt_cons (c : Option String × PathEntry)
    (l : List (Option String × PathEntry)) (d : Option String) (π : String)
    (base : Option (String × Int × Int)) :
    specPathMaxAt (c :: l) d π base =
      specPathMaxAt l d π
        (if c.1 = d ∧ c.2.path = π then mergePathPoint base c.2.title c.2.count c.2.uniques
         else base) := rfl

/-- Executable well-formedness of one paths item. -/
def wfPathItemB (j : Json) : Bool := (toPathEntry j).isSome

/-- Executable well-formedness of one top-level snapshot entry for
paths: an object whose data field (defaulting to the empty list) is a
list of well-formed items. -/
def wfPathEntryB (e : Json) : Bool :=
  match e with
  | Json.obj fs =>
    match (getField fs "data").getD (Json.arr []) with
    | Json.arr items => items.all wfPathItemB
    | _ => false
  | _ => false

/-- Executable well-formedness of one raw paths snapshot file:
parseable, a top-level list of well-formed entries, and a date in the
filename. -/
def wfPathFileB (f : JFile) : Bool :=
  match f.content with
  | some (Json.arr entries) =>
    entries.all wfPathEntryB && (extract_timestamp_from_filename f.name).isSome
  | _ => false

/-- The typed contributions of one paths snapshot entry. -/
def entryPathContribs (e : Json) : List PathEntry :=
  match e with
  | Json.obj fs =>
    match (getField fs "data").getD (Json.arr []) with
    | Json.arr items => items.filterMap toPathEntry
    | _ => []
  | _ => []

/-- The typed contributions of one paths snapshot file, dated by its
name. -/
def filePathContribs (f : JFile) : List (Option String × PathEntry) :=
  match f.content with
  | some (Json.arr entries) =>
    (entries.map entryPathContribs).flatten.map
      (fun e => (extract_timestamp_from_filename f.name, e))
  | _ => []

/-- All paths contributions of the globbed snapshot set, in processing
order. -/
def pathContribs (repo : String) (files : List JFile) :
    List (Option String × PathEntry) :=
  ((files.filter (fun f => globMatch repo "paths" f.name)).map filePathContribs).flatten

theorem toPathEntry_inv (item : Json) (e : PathEntry) (h : toPathEntry item = some e) :
    ∃ fs, item = Json.obj fs ∧
      getField fs "path" = some (Json.str e.path) ∧
      getField fs "title" = some (Json.str e.title) ∧
      getField fs "count" = some (Json.num e.count) ∧
      getField fs "uniques" = some (Json.num e.uniques) := by
  cases item with
  | obj fs =>
    refine ⟨fs, rfl, ?_⟩
    simp only [toPathEntry] at h
    split at h
    · next p t c u hp ht hc hu =>
      cases h
      exact ⟨hp, ht, hc, hu⟩
    · exact Option.noConfusion h
  | null => exact Option.noConfusion h
  | bool b => exact Option.noConfusion h
  | num n => exact Option.noConfusion h
  | str s => exact Option.noConfusion h
  | arr l => exact Option.noConfusion h

/-- Overwriting count then uniques on a three-field path cell. -/
theorem tcuSet_compute (t : Json) (c0 u0 c u : Int) :
    setField (setField [("title", t), ("count", Json.num c0), ("uniques", Json.num u0)]
        "count" (Json.num c)) "uniques" (Json.num u) =
      [("title", t), ("count", Json.num c), ("uniques", Json.num u)] := rfl

theorem PathInv_cdSet (cd : List (Option String × Json)) (k : Option String)
    (pmap : List (String × Json)) (hinv : PathInv cd)
    (hr : ∀ q ∈ pmap, ∃ (t : String) (c u : Int),
      q.2 = Json.obj [("title", Json.str t), ("count", Json.num c),
        ("uniques", Json.num u)]) :
    PathInv (cdSet cd k (Json.obj pmap)) := by
  intro p hp
  rcases mem_cdSet cd k (Json.obj pmap) p hp with hp | hp
  · exact ⟨pmap, by rw [hp], hr⟩
  · exact hinv p hp

theorem getField_nil (k : String) : getField [] k = none := rfl

theorem setField_nil (k : String) (v : Json) : setField [] k v = [(k, v)] := rfl

theorem getField_singleton_self (k : String) (v : Json) :
    getField [(k, v)] k = some v := by simp [getField]

theorem setField_singleton_self (k : String) (v w : Json) :
    setField [(k, v)] k w = [(k, w)] := by simp [setField]

theorem getField_tcu_count (t : Json) (c u : Int) :
    getField [("title", t), ("count", Json.num c), ("uniques", Json.num u)] "count" =
      some (Json.num c) := rfl

theorem getField_tcu_uniques (t : Json) (c u : Int) :
    getField [("title", t), ("count", Json.num c), ("uniques", Json.num u)] "uniques" =
      some (Json.num u) := rfl

theorem setField_tcu_count (t : Json) (c0 u0 c : Int) :
    setField [("title", t), ("count", Json.num c0), ("uniques", Json.num u0)]
        "count" (Json.num c) =
      [("title", t), ("count", Json.num c), ("uniques", Json.num u0)] := rfl

theorem setField_tcu_uniques (t : Json) (c0 u0 u : Int) :
    setField [("title", t), ("count", Json.num c0), ("uniques", Json.num u0)]
        "uniques" (Json.num u) =
      [("title", t), ("count", Json.num c0), ("uniques", Json.num u)] := rfl

set_option maxHeartbeats 4000000 in
/-- Processing one well-formed paths item max-merges its (count,
uniques) into the (date, path) cell, keeps the first-seen title, and
leaves every other cell unchanged, preserving the shape invariant, the
key set (up to the new date) and key distinctness. -/
theorem processPathsItem_spec (ts : Option String)
    (cd : List (Option String × Json)) (item : Json) (e : PathEntry)
    (hinv : PathInv cd) (hitem : toPathEntry item = some e) :
    ∃ cd', processPathsItem ts cd item = some cd' ∧ PathInv cd' ∧
      (∀ a ∈ cd'.map Prod.fst, a = ts ∨ a ∈ cd.map Prod.fst) ∧
      ((cd.map Prod.fst).Nodup → (cd'.map Prod.fst).Nodup) ∧
      ∀ d π, cdPathLookup cd' d π =
        if ts = d ∧ e.path = π then
          mergePathPoint (cdPathLookup cd d π) e.title e.count e.uniques
        else cdPathLookup cd d π := by
  obtain ⟨fs, rfl, hπ, ht, hc, hu⟩ := toPathEntry_inv item e hitem
  cases hK : cdFind cd ts with
  | none =>
    refine ⟨cdSet (cdSet cd ts (Json.obj [])) ts
      (Json.obj [(e.path,
        Json.obj [("title", Json.str e.title),
                  ("count", Json.num (max e.count 0)),
                  ("uniques", Json.num (max e.uniques 0))])]), ?_, ?_, ?_, ?_, ?_⟩
    · simp [processPathsItem, pyIndex, jStr, jObjFields, pyMaxNum, hπ, ht, hc, hu, hK,
        cdFind_cdSet_self, getField_nil, setField_nil, getField_singleton_self,
        setField_singleton_self, getField_tcu_count, getField_tcu_uniques,
        setField_tcu_count, setField_tcu_uniques]
    · apply PathInv_cdSet
      · apply PathInv_cdSet cd ts [] hinv
        intro q hq
        simp at hq
      · intro q hq
        rw [List.mem_singleton.mp hq]
        exact ⟨e.title, max e.count 0, max e.uniques 0, rfl⟩
    · intro a ha
      rcases cdSet_keys_subset _ ts _ a ha with h | h
      · exact Or.inl h
      · rcases cdSet_keys_subset _ ts _ a h with h | h
        · exact Or.inl h
        · exact Or.inr h
    · intro hn
      exact cdSet_keys_nodup _ _ _ (cdSet_keys_nodup _ _ _ hn)
    · intro d π
      by_cases hd : ts = d
      · subst hd
        by_cases hρ : e.path = π
        · subst hρ
          rw [if_pos ⟨rfl, rfl⟩]
          simp [cdPathLookup, cdFind_cdSet_self, hK, getField, mergePathPoint]
        · rw [if_neg (fun hand => hρ hand.2)]
          simp [cdPathLookup, cdFind_cdSet_self, hK, getField, hρ]
      · rw [if_neg (fun hand => hd hand.1)]
        simp [cdPathLookup, cdFind_cdSet_other _ _ _ _ hd]
  | some v =>
    obtain ⟨pmap, hv, hshape⟩ := hinv (ts, v) (cdFind_mem cd ts v hK)
    simp only at hv
    subst hv
    cases hG : getField pmap e.path with
    | none =>
      refine ⟨cdSet cd ts (Json.obj
        (setField (setField pmap e.path
            (Json.obj [("title", Json.str e.title), ("count", Json.num 0),
                       ("uniques", Json.num 0)]))
          e.path
          (Json.obj [("title", Json.str e.title),
                     ("count", Json.num (max e.count 0)),
                     ("uniques", Json.num (max e.uniques 0))]))), ?_, ?_, ?_, ?_, ?_⟩
      · simp [processPathsItem, pyIndex, jStr, jObjFields, pyMaxNum, hπ, ht, hc, hu,
          hK, hG, getField_setField_self, getField_tcu_count, getField_tcu_uniques,
          setField_tcu_count, setField_tcu_uniques]
      · apply PathInv_cdSet cd ts _ hinv
        intro q hq
        rcases mem_setField _ _ _ q hq with hq | hq
        · exact ⟨e.title, max e.count 0, max e.uniques 0, by rw [hq]⟩
        · rcases mem_setField _ _ _ q hq with hq | hq
          · exact ⟨e.title, 0, 0, by rw [hq]⟩
          · exact hshape q hq
      · intro a ha
        rcases cdSet_keys_subset _ ts _ a ha with h | h
        · exact Or.inl h
        · exact Or.inr h
      · intro hn
        exact cdSet_keys_nodup _ _ _ hn
      · intro d π
        by_cases hd : ts = d
        · subst hd
          by_cases hρ : e.path = π
          · subst hρ
            rw [if_pos ⟨rfl, rfl⟩]
            simp [cdPathLookup, cdFind_cdSet_self, hK, hG, getField_setField_self,
              getField, mergePathPoint]
          · rw [if_neg (fun hand => hρ hand.2)]
            simp [cdPathLookup, cdFind_cdSet_self, hK,
              getField_setField_other _ _ _ _ hρ]
        · rw [if_neg (fun hand => hd hand.1)]
          simp [cdPathLookup, cdFind_cdSet_other _ _ _ _ hd]
    | some w =>
      obtain ⟨t0, c0, u0, hw⟩ := hshape (e.path, w) (getField_mem pmap e.path w hG)
      simp only at hw
      subst hw
      refine ⟨cdSet cd ts (Json.obj
        (setField pmap e.path
          (Json.obj [("title", Json.str t0),
                     ("count", Json.num (max e.count c0)),
                     ("uniques", Json.num (max e.uniques u0))]))), ?_, ?_, ?_, ?_, ?_⟩
      · simp [processPathsItem, pyIndex, jStr, jObjFields, pyMaxNum, hπ, ht, hc, hu,
          hK, hG, getField_tcu_count, getField_tcu_uniques, setField_tcu_count,
          setField_tcu_uniques]
      · apply PathInv_cdSet cd ts _ hinv
        intro q hq
        rcases mem_setField _ _ _ q hq with hq | hq
        · exact ⟨t0, max e.count c0, max e.uniques u0, by rw [hq]⟩
        · exact hshape q hq
      · intro a ha
        rcases cdSet_keys_subset _ ts _ a ha with h | h
        · exact Or.inl h
        · exact Or.inr h
      · intro hn
        exact cdSet_keys_nodup _ _ _ hn
      · intro d π
        by_cases hd : ts = d
        · subst hd
          by_cases hρ : e.path = π
          · subst hρ
            rw [if_pos ⟨rfl, rfl⟩]
            simp [cdPathLookup, cdFind_cdSet_self, hK, hG, getField_setField_self,
              getField, mergePathPoint]
          · rw [if_neg (fun hand => hρ hand.2)]
            simp [cdPathLookup, cdFind_cdSet_self, hK,
              getField_setField_other _ _ _ _ hρ]
        · rw [if_neg (fun hand => hd hand.1)]
          simp [cdPathLookup, cdFind_cdSet_other _ _ _ _ hd]

/-- Folding all well-formed paths items of one entry. -/
theorem processPathsItems_spec (ts : Option String) :
    ∀ (items : List Json) (cd : List (Option String × Json)),
      PathInv cd → (∀ i ∈ items, wfPathItemB i = true) →
      ∃ cd', items.foldlM (processPathsItem ts) cd = some cd' ∧ PathInv cd' ∧
        (∀ a ∈ cd'.map Prod.fst, a = ts ∨ a ∈ cd.map Prod.fst) ∧
        ((cd.map Prod.fst).Nodup → (cd'.map Prod.fst).Nodup) ∧
        ∀ d π, cdPathLookup cd' d π =
          specPathMaxAt ((items.filterMap toPathEntry).map (fun e => (ts, e))) d π
            (cdPathLookup cd d π) := by
  intro items
  induction items with
  | nil =>
    intro cd hinv _
    exact ⟨cd, rfl, hinv, fun a ha => Or.inr ha, id, fun d π => rfl⟩
  | cons i rest ih =>
    intro cd hinv hwf
    have hi : (toPathEntry i).isSome = true := hwf i (List.mem_cons_self _ _)
    obtain ⟨e, he⟩ := Option.isSome_iff_exists.mp hi
    obtain ⟨cd1, heq, hinv1, hkeys1, hnodup1, hchar1⟩ :=
      processPathsItem_spec ts cd i e hinv he
    obtain ⟨cd', heq', hinv', hkeys', hnodup', hchar'⟩ :=
      ih cd1 hinv1 (fun j hj => hwf j (List.mem_cons_of_mem _ hj))
    refine ⟨cd', ?_, hinv', ?_, fun hn => hnodup' (hnodup1 hn), ?_⟩
    · rw [List.foldlM_cons, heq]
      exact heq'
    · intro a ha
      rcases hkeys' a ha with h | h
      · exact Or.inl h
      · exact hkeys1 a h
    · intro d π
      rw [hchar' d π]
      simp only [List.filterMap_cons, he, List.map_cons]
      rw [specPathMaxAt_cons]
      rw [hchar1 d π]

theorem wfPathEntryB_inv (entry : Json) (h : wfPathEntryB entry = true) :
    ∃ fs items, entry = Json.obj fs ∧
      (getField fs "data").getD (Json.arr []) = Json.arr items ∧
      ∀ i ∈ items, wfPathItemB i = true := by
  cases entry with
  | obj fs =>
    simp only [wfPathEntryB] at h
    cases hdv : (getField fs "data").getD (Json.arr []) with
    | arr items =>
      rw [hdv] at h
      exact ⟨fs, items, rfl, hdv, fun i hi => List.all_eq_true.mp h i hi⟩
    | null => rw [hdv] at h; exact Bool.noConfusion h
    | bool b => rw [hdv] at h; exact Bool.noConfusion h
    | num n => rw [hdv] at h; exact Bool.noConfusion h
    | str s => rw [hdv] at h; exact Bool.noConfusion h
    | obj fs2 => rw [hdv] at h; exact Bool.noConfusion h
  | null => exact Bool.noConfusion h
  | bool b => exact Bool.noConfusion h
  | num n => exact Bool.noConfusion h
  | str s => exact Bool.noConfusion h
  | arr l => exact Bool.noConfusion h

/-- Folding one well-formed entry of a paths snapshot. -/
theorem processPathsEntry_spec (ts : Option String) (entry : Json)
    (hwf : wfPathEntryB entry = true) (cd : List (Option String × Json))
    (hinv : PathInv cd) :
    ∃ cd', processEntry "paths" ts cd entry = some cd' ∧ PathInv cd' ∧
      (∀ a ∈ cd'.map Prod.fst, a = ts ∨ a ∈ cd.map Prod.fst) ∧
      ((cd.map Prod.fst).Nodup → (cd'.map Prod.fst).Nodup) ∧
      ∀ d π, cdPathLookup cd' d π =
        specPathMaxAt ((entryPathContribs entry).map (fun e => (ts, e))) d π
          (cdPathLookup cd d π) := by
  obtain ⟨fs, items, rfl, hdv, hitems⟩ := wfPathEntryB_inv entry hwf
  obtain ⟨cd', heq, hinv', hkeys', hnodup', hchar'⟩ :=
    processPathsItems_spec ts items cd hinv hitems
  refine ⟨cd', ?_, hinv', hkeys', hnodup', ?_⟩
  · unfold processEntry
    rw [if_neg (by simp)]
    show ((pyGet (Json.obj fs) "data" (Json.arr [])).bind fun dataVal =>
      (pyIter dataVal).bind fun items2 =>
        if "paths" = "referrers" then
          items2.foldlM (processReferrersItem ts) cd
        else if "paths" = "paths" then items2.foldlM (processPathsItem ts) cd
        else items2.foldlM (processOtherItem ts) cd) = some cd'
    rw [show pyGet (Json.obj fs) "data" (Json.arr []) =
      some (Json.arr items) from by simp [pyGet, hdv]]
    rw [Option.some_bind]
    show (pyIter (Json.arr items)).bind _ = some cd'
    rw [show pyIter (Json.arr items) = some items from rfl, Option.some_bind,
      if_neg (by simp), if_pos rfl]
    exact heq
  · intro d π
    rw [hchar' d π]
    have : entryPathContribs (Json.obj fs) = items.filterMap toPathEntry := by
      simp only [entryPathContribs]
      rw [hdv]
    rw [this]

/-- Folding all well-formed entries of one paths snapshot. -/
theorem processPathsEntries_spec (ts : Option String) :
    ∀ (entries : List Json) (cd : List (Option String × Json)),
      PathInv cd → (∀ e ∈ entries, wfPathEntryB e = true) →
      ∃ cd', entries.foldlM (processEntry "paths" ts) cd = some cd' ∧
        PathInv cd' ∧
        (∀ a ∈ cd'.map Prod.fst, a = ts ∨ a ∈ cd.map Prod.fst) ∧
        ((cd.map Prod.fst).Nodup → (cd'.map Prod.fst).Nodup) ∧
        ∀ d π, cdPathLookup cd' d π =
          specPathMaxAt (((entries.map entryPathContribs).flatten).map (fun e => (ts, e)))
            d π (cdPathLookup cd d π) := by
  intro entries
  induction entries with
  | nil =>
    intro cd hinv _
    exact ⟨cd, rfl, hinv, fun a ha => Or.inr ha, id, fun d π => rfl⟩
  | cons en rest ih =>
    intro cd hinv hwf
    obtain ⟨cd1, heq, hinv1, hkeys1, hnodup1, hchar1⟩ :=
      processPathsEntry_spec ts en (hwf en (List.mem_cons_self _ _)) cd hinv
    obtain ⟨cd', heq', hinv', hkeys', hnodup', hchar'⟩ :=
      ih cd1 hinv1 (fun j hj => hwf j (List.mem_cons_of_mem _ hj))
    refine ⟨cd', ?_, hinv', ?_, fun hn => hnodup' (hnodup1 hn), ?_⟩
    · rw [List.foldlM_cons, heq]
      exact heq'
    · intro a ha
      rcases hkeys' a ha with h | h
      · exact Or.inl h
      · exact hkeys1 a h
    · intro d π
      rw [hchar' d π]
      simp only [List.map_cons, List.flatten_cons, List.map_append]
      rw [specPathMaxAt_append]
      rw [hchar1 d π]

theorem wfPathFileB_inv (f : JFile) (h : wfPathFileB f = true) :
    ∃ entries, f.content = some (Json.arr entries) ∧
      (∀ e ∈ entries, wfPathEntryB e = true) ∧
      (extract_timestamp_from_filename f.name).isSome = true := by
  obtain ⟨name, content⟩ := f
  cases content with
  | some j =>
    cases j with
    | arr entries =>
      simp only [wfPathFileB, Bool.and_eq_true] at h
      exact ⟨entries, rfl, fun e he => List.all_eq_true.mp h.1 e he, h.2⟩
    | null => exact Bool.noConfusion h
    | bool b => exact Bool.noConfusion h
    | num n => exact Bool.noConfusion h
    | str s => exact Bool.noConfusion h
    | obj fs => exact Bool.noConfusion h
  | none => exact Bool.noConfusion h

/-- Folding one well-formed paths snapshot file. -/
theorem processPathsFile_spec (f : JFile) (hwf : wfPathFileB f = true)
    (cd : List (Option String × Json)) (hinv : PathInv cd) :
    ∃ cd', processFile "paths" cd f = some cd' ∧ PathInv cd' ∧
      (∀ a ∈ cd'.map Prod.fst,
        a = extract_timestamp_from_filename f.name ∨ a ∈ cd.map Prod.fst) ∧
      ((cd.map Prod.fst).Nodup → (cd'.map Prod.fst).Nodup) ∧
      ∀ d π, cdPathLookup cd' d π =
        specPathMaxAt (filePathContribs f) d π (cdPathLookup cd d π) := by
  obtain ⟨entries, hcontent, hentries, -⟩ := wfPathFileB_inv f hwf
  obtain ⟨cd', heq, hinv', hkeys', hnodup', hchar'⟩ :=
    processPathsEntries_spec (extract_timestamp_from_filename f.name)
      entries cd hinv hentries
  refine ⟨cd', ?_, hinv', hkeys', hnodup', ?_⟩
  · unfold processFile
    rw [hcontent]
    exact heq
  · intro d π
    rw [hchar' d π]
    have : filePathContribs f =
        ((entries.map entryPathContribs).flatten).map
          (fun e => (extract_timestamp_from_filename f.name, e)) := by
      simp only [filePathContribs]
      rw [hcontent]
    rw [this]

/-- Folding a list of well-formed paths snapshot files. -/
theorem processPathsFiles_spec :
    ∀ (files : List JFile) (cd : List (Option String × Json)),
      PathInv cd → (∀ f ∈ files, wfPathFileB f = true) →
      ∃ cd', files.foldlM (processFile "paths") cd = some cd' ∧ PathInv cd' ∧
        (∀ a ∈ cd'.map Prod.fst,
          (∃ f ∈ files, a = extract_timestamp_from_filename f.name) ∨
            a ∈ cd.map Prod.fst) ∧
        ((cd.map Prod.fst).Nodup → (cd'.map Prod.fst).Nodup) ∧
        ∀ d π, cdPathLookup cd' d π =
          specPathMaxAt ((files.map filePathContribs).flatten) d π (cdPathLookup cd d π) := by
  intro files
  induction files with
  | nil =>
    intro cd hinv _
    exact ⟨cd, rfl, hinv, fun a ha => Or.inr ha, id, fun d π => rfl⟩
  | cons f rest ih =>
    intro cd hinv hwf
    obtain ⟨cd1, heq, hinv1, hkeys1, hnodup1, hchar1⟩ :=
      processPathsFile_spec f (hwf f (List.mem_cons_self _ _)) cd hinv
    obtain ⟨cd', heq', hinv', hkeys', hnodup', hchar'⟩ :=
      ih cd1 hinv1 (fun j hj => hwf j (List.mem_cons_of_mem _ hj))
    refine ⟨cd', ?_, hinv', ?_, fun hn => hnodup' (hnodup1 hn), ?_⟩
    · rw [List.foldlM_cons, heq]
      exact heq'
    · intro a ha
      rcases hkeys' a ha with h | h
      · obtain ⟨g, hg, hga⟩ := h
        exact Or.inl ⟨g, List.mem_cons_of_mem _ hg, hga⟩
      · rcases hkeys1 a h with h2 | h2
        · exact Or.inl ⟨f, List.mem_cons_self _ _, h2⟩
        · exact Or.inr h2
    · intro d π
      rw [hchar' d π]
      simp only [List.map_cons, List.flatten_cons]
      rw [specPathMaxAt_append]
      rw [hchar1 d π]

/-- One path row of the serialized output (line 56). -/
def pathRowOut (q : String × Json) : Option Json := do
  let qfs ← jObjFields q.2
  let t ← getField qfs "title"
  let c ← getField qfs "count"
  let u ← getField qfs "uniques"
  some (Json.obj [("path", Json.str q.1), ("title", t),
    ("count", c), ("uniques", u)])

/-- One date entry of the serialized paths output (line 56), paired
with its sort key. -/
def pathPairOut (p : Option String × Json) : Option (Option String × Json) := do
  let fs ← jObjFields p.2
  let rows ← fs.mapM pathRowOut
  some (p.1, Json.obj [("timestamp", optStr p.1), ("data", Json.arr rows)])

theorem mapM_pathRowOut (pmap : List (String × Json))
    (hshape : ∀ q ∈ pmap, ∃ (t : String) (c u : Int),
      q.2 = Json.obj [("title", Json.str t), ("count", Json.num c),
        ("uniques", Json.num u)]) :
    ∃ rows, pmap.mapM pathRowOut = some rows := by
  induction pmap with
  | nil => exact ⟨[], rfl⟩
  | cons q rest ih =>
    obtain ⟨t, c, u, hq⟩ := hshape q (List.mem_cons_self _ _)
    obtain ⟨rows, hrows⟩ := ih (fun r hr => hshape r (List.mem_cons_of_mem _ hr))
    have hq1 : pathRowOut q =
        some (Json.obj [("path", Json.str q.1), ("title", Json.str t),
          ("count", Json.num c), ("uniques", Json.num u)]) := by
      simp [pathRowOut, hq, getField, jObjFields]
    refine ⟨Json.obj [("path", Json.str q.1), ("title", Json.str t),
      ("count", Json.num c), ("uniques", Json.num u)] :: rows, ?_⟩
    rw [List.mapM_cons, hq1, hrows]
    rfl

theorem serialize_paths_spec :
    ∀ (cd : List (Option String × Json)), PathInv cd →
      ∃ pairs, cd.mapM pathPairOut = some pairs ∧
        pairs.map Prod.fst = cd.map Prod.fst := by
  intro cd
  induction cd with
  | nil => exact fun _ => ⟨[], rfl, rfl⟩
  | cons p rest ih =>
    intro hinv
    obtain ⟨pmap, hrm, hshape⟩ := hinv p (List.mem_cons_self _ _)
    obtain ⟨rows, hrows⟩ := mapM_pathRowOut pmap hshape
    obtain ⟨pairs, hpairs, hkeys⟩ := ih (fun q hq => hinv q (List.mem_cons_of_mem _ hq))
    have hp1 : pathPairOut p =
        some (p.1, Json.obj [("timestamp", optStr p.1), ("data", Json.arr rows)]) := by
      unfold pathPairOut
      rw [hrm]
      show (List.mapM pathRowOut pmap).bind
          (fun rs => some (p.1, Json.obj [("timestamp", optStr p.1), ("data", Json.arr rs)])) =
        some (p.1, Json.obj [("timestamp", optStr p.1), ("data", Json.arr rows)])
      rw [hrows]
      rfl
    refine ⟨(p.1, Json.obj [("timestamp", optStr p.1), ("data", Json.arr rows)]) :: pairs,
      ?_, ?_⟩
    · rw [List.mapM_cons, hp1, hpairs]
      rfl
    · simp only [List.map_cons, hkeys]

theorem serializeCombined_paths (cd : List (Option String × Json))
    (hinv : PathInv cd) :
    ∃ pairs, serializeCombined "paths" cd = some pairs ∧
      pairs.map Prod.fst = cd.map Prod.fst := by
  obtain ⟨pairs, hpairs, hkeys⟩ := serialize_paths_spec cd hinv
  refine ⟨pairs, ?_, hkeys⟩
  unfold serializeCombined
  rw [if_neg (by simp), if_neg (by simp), if_pos rfl]
  exact hpairs

/-- End-to-end combiner correctness for any directory of well-formed raw
paths snapshots: the run succeeds, the output has pairwise distinct
timestamp keys and is sorted ascending, and combined_data holds, per
date and per path, exactly the running maximum of count and of uniques
over all contributions of the globbed snapshots, with the first-seen
title. -/
theorem combine_paths_spec (repo : String) (files : List JFile)
    (hwf : ∀ f ∈ files, globMatch repo "paths" f.name = true → wfPathFileB f = true) :
    ∃ cd pairs,
      (files.filter (fun f => globMatch repo "paths" f.name)).foldlM
        (processFile "paths") [] = some cd ∧
      serializeCombined "paths" cd = some pairs ∧
      pySortPairs pairs = some (pairs.insertionSort tsLe) ∧
      combine_json_files repo "paths" files =
        some ((pairs.insertionSort tsLe).map Prod.snd) ∧
      ((pairs.insertionSort tsLe).map Prod.fst).Nodup ∧
      (pairs.insertionSort tsLe).Sorted tsLe ∧
      (∀ d π, cdPathLookup cd d π = specPathMaxAt (pathContribs repo files) d π none) := by
  have hwfm : ∀ f ∈ files.filter (fun f => globMatch repo "paths" f.name),
      wfPathFileB f = true := by
    intro f hf
    obtain ⟨hmem, hglob⟩ := List.mem_filter.mp hf
    exact hwf f hmem hglob
  obtain ⟨cd, hfold, hinv, hkeys, hnodup, hchar⟩ :=
    processPathsFiles_spec (files.filter (fun f => globMatch repo "paths" f.name))
      [] (fun p hp => absurd hp (List.not_mem_nil p)) hwfm
  obtain ⟨pairs, hser, hpkeys⟩ := serializeCombined_paths cd hinv
  have hsome : ∀ p ∈ pairs, p.1.isSome = true := by
    intro p hp
    have hpk : p.1 ∈ pairs.map Prod.fst := List.mem_map.mpr ⟨p, hp, rfl⟩
    rw [hpkeys] at hpk
    rcases hkeys p.1 hpk with h | h
    · obtain ⟨f, hf, hfa⟩ := h
      obtain ⟨-, -, -, hs⟩ := wfPathFileB_inv f (hwfm f hf)
      rw [hfa]
      exact hs
    · simp at h
  obtain ⟨hsort, hsorted, hperm⟩ := pySortPairs_allSome pairs hsome
  have hcp : combine_pairs repo "paths" files = some pairs := by
    simp only [combine_pairs]
    rw [hfold]
    exact hser
  have hcj : combine_json_files repo "paths" files =
      some ((pairs.insertionSort tsLe).map Prod.snd) := by
    simp only [combine_json_files]
    rw [hcp]
    show (pySortPairs pairs).bind (fun sorted => some (sorted.map Prod.snd)) = _
    rw [hsort]
    rfl
  refine ⟨cd, pairs, hfold, hser, hsort, hcj, ?_, hsorted, ?_⟩
  · rw [List.Perm.nodup_iff (hperm.map Prod.fst), hpkeys]
    exact hnodup (by simp)
  · intro d π
    rw [hchar d π]
    have : cdPathLookup [] d π = none := rfl
    rw [this]
    rfl

/-! ### Max-merge for views/clones snapshots -/

/-- One daily item of a views or clones payload. -/
structure VCEntry where
  timestamp : String
  count : Int
  uniques : Int
deriving Repr, DecidableEq

/-- Reading one views/clones item: {timestamp, count, uniques}, as the
endpoint documents.  An item outside that shape makes the combiner
raise (KeyError or TypeError on max), so it is mapped to none. -/
def toVCEntry (j : Json) : Option VCEntry :=
  match j with
  | Json.obj fs =>
    match getField fs "timestamp", getField fs "count", getField fs "uniques" with
    | some (Json.str t), some (Json.num c), some (Json.num u) => some ⟨t, c, u⟩
    | _, _, _ => none
  | _ => none

/-- Shape invariant of combined_data during a views/clones run: every
key is a string timestamp (never None) holding a two-field
{count, uniques} object with numeric values. -/
def VCInv (cd : List (Option String × Json)) : Prop :=
  ∀ p ∈ cd, p.1.isSome = true ∧ ∃ c u : Int,
    p.2 = Json.obj [("count", Json.num c), ("uniques", Json.num u)]

/-- The (count, uniques) pair combined_data holds for an item
timestamp. -/
def cdVCLookup (cd : List (Option String × Json)) (ts : String) :
    Option (Int × Int) :=
  match cdFind cd (some ts) with
  | some (Json.obj fs) =>
    match getField fs "count", getField fs "uniques" with
    | some (Json.num c), some (Json.num u) => some (c, u)
    | _, _ => none
  | _ => none

/-- The running maximum over all contributions for one item
timestamp, resumed from a base accumulator. -/
def specVCMaxAt (contribs : List VCEntry) (ts : String)
    (base : Option (Int × Int)) : Option (Int × Int) :=
  contribs.foldl (fun acc c =>
    if c.timestamp = ts then mergePoint acc c.count c.uniques else acc) base

theorem specVCMaxAt_append (l1 l2 : List VCEntry) (ts : String)
    (base : Option (Int × Int)) :
    specVCMaxAt (l1 ++ l2) ts base = specVCMaxAt l2 ts (specVCMaxAt l1 ts base) := by
  unfold specVCMaxAt
  rw [List.foldl_append]

theorem specVCMaxAt_cons (c : VCEntry) (l : List VCEntry) (ts : String)
    (base : Option (Int × Int)) :
    specVCMaxAt (c :: l) ts base =
      specVCMaxAt l ts
        (if c.timestamp = ts then mergePoint base c.count c.uniques else base) := rfl

/-- Executable well-formedness of one views/clones item. -/
def wfVCItemB (j : Json) : Bool := (toVCEntry j).isSome

/-- Executable well-formedness of one top-level snapshot entry for a
views/clones data type: an object whose data field (defaulting to the
empty dict) is a dict whose dataType field (defaulting to the empty
list) is a list of well-formed items. -/
def wfVCEntryB (dataType : String) (e : Json) : Bool :=
  match e with
  | Json.obj fs =>
    match (getField fs "data").getD (Json.obj []) with
    | Json.obj dfs =>
      match (getField dfs dataType).getD (Json.arr []) with
      | Json.arr items => items.all wfVCItemB
      | _ => false
    | _ => false
  | _ => false

/-- Executable well-formedness of one raw views/clones snapshot file:
parseable and a top-level list of well-formed entries.  The filename
date plays no role here, since every key comes from an item
timestamp. -/
def wfVCFileB (dataType : String) (f : JFile) : Bool :=
  match f.content with
  | some (Json.arr entries) => entries.all (wfVCEntryB dataType)
  | _ => false

/-- The typed contributions of one views/clones snapshot entry. -/
def entryVCContribs (dataType : String) (e : Json) : List VCEntry :=
  match e with
  | Json.obj fs =>
    match (getField fs "data").getD (Json.obj []) with
    | Json.obj dfs =>
      match (getField dfs dataType).getD (Json.arr []) with
      | Json.arr items => items.filterMap toVCEntry
      | _ => []
    | _ => []
  | _ => []

/-- The typed contributions of one views/clones snapshot file. -/
def fileVCContribs (dataType : String) (f : JFile) : List VCEntry :=
  match f.content with
  | some (Json.arr entries) => (entries.map (entryVCContribs dataType)).flatten
  | _ => []

/-- All views/clones contributions of the globbed snapshot set, in
processing order. -/
def vcContribs (repo dataType : String) (files : List JFile) : List VCEntry :=
  ((files.filter (fun f => globMatch repo dataType f.name)).map
    (fileVCContribs dataType)).flatten

theorem toVCEntry_inv (item : Json) (e : VCEntry) (h : toVCEntry item = some e) :
    ∃ fs, item = Json.obj fs ∧
      getField fs "timestamp" = some (Json.str e.timestamp) ∧
      getField fs "count" = some (Json.num e.count) ∧
      getField fs "uniques" = some (Json.num e.uniques) := by
  cases item with
  | obj fs =>
    refine ⟨fs, rfl, ?_⟩
    simp only [toVCEntry] at h
    split at h
    · next t c u ht hc hu =>
      cases h
      exact ⟨ht, hc, hu⟩
    · exact Option.noConfusion h
  | null => exact Option.noConfusion h
  | bool b => exact Option.noConfusion h
  | num n => exact Option.noConfusion h
  | str s => exact Option.noConfusion h
  | arr l => exact Option.noConfusion h

theorem getField_cu_count (c u : Int) :
    getField [("count", Json.num c), ("uniques", Json.num u)] "count" =
      some (Json.num c) := rfl

theorem getField_cu_uniques (c u : Int) :
    getField [("count", Json.num c), ("uniques", Json.num u)] "uniques" =
      some (Json.num u) := rfl

theorem setField_cu_count (c0 u0 c : Int) :
    setField [("count", Json.num c0), ("uniques", Json.num u0)] "count" (Json.num c) =
      [("count", Json.num c), ("uniques", Json.num u0)] := rfl

theorem setField_cu_uniques (c0 u0 u : Int) :
    setField [("count", Json.num c0), ("uniques", Json.num u0)] "uniques" (Json.num u) =
      [("count", Json.num c0), ("uniques", Json.num u)] := rfl

theorem VCInv_cdSet (cd : List (Option String × Json)) (s : String) (c u : Int)
    (hinv : VCInv cd) :
    VCInv (cdSet cd (some s)
      (Json.obj [("count", Json.num c), ("uniques", Json.num u)])) := by
  intro p hp
  rcases mem_cdSet cd (some s) _ p hp with hp | hp
  · exact ⟨by rw [hp]; rfl, c, u, by rw [hp]⟩
  · exact hinv p hp

set_option maxHeartbeats 4000000 in
/-- Processing one well-formed views/clones item max-merges its (count,
uniques) into its timestamp's cell and leaves every other cell
unchanged, preserving the shape invariant and key distinctness. -/
theorem processViewsItem_spec (cd : List (Option String × Json)) (item : Json)
    (e : VCEntry) (hinv : VCInv cd) (hitem : toVCEntry item = some e) :
    ∃ cd', processViewsItem cd item = some cd' ∧ VCInv cd' ∧
      ((cd.map Prod.fst).Nodup → (cd'.map Prod.fst).Nodup) ∧
      ∀ ts, cdVCLookup cd' ts =
        if e.timestamp = ts then mergePoint (cdVCLookup cd ts) e.count e.uniques
        else cdVCLookup cd ts := by
  obtain ⟨fs, rfl, ht, hc, hu⟩ := toVCEntry_inv item e hitem
  cases hK : cdFind cd (some e.timestamp) with
  | none =>
    refine ⟨cdSet (cdSet (cdSet cd (some e.timestamp)
        (Json.obj [("count", Json.num 0), ("uniques", Json.num 0)]))
      (some e.timestamp)
        (Json.obj [("count", Json.num (max e.count 0)), ("uniques", Json.num 0)]))
      (some e.timestamp)
        (Json.obj [("count", Json.num (max e.count 0)),
                   ("uniques", Json.num (max e.uniques 0))]), ?_, ?_, ?_, ?_⟩
    · simp [processViewsItem, pyIndex, jStr, jObjFields, pyMaxNum, ht, hc, hu, hK,
        cdFind_cdSet_self, getField_cu_count, getField_cu_uniques,
        setField_cu_count, setField_cu_uniques]
    · exact VCInv_cdSet _ _ _ _ (VCInv_cdSet _ _ _ _ (VCInv_cdSet _ _ _ _ hinv))
    · intro hn
      exact cdSet_keys_nodup _ _ _ (cdSet_keys_nodup _ _ _ (cdSet_keys_nodup _ _ _ hn))
    · intro ts
      by_cases hd : e.timestamp = ts
      · subst hd
        rw [if_pos rfl]
        simp [cdVCLookup, cdFind_cdSet_self, hK, getField_cu_count,
          getField_cu_uniques, mergePoint]
      · rw [if_neg hd]
        have hd2 : (some e.timestamp : Option String) ≠ some ts := by
          simpa using hd
        simp [cdVCLookup, cdFind_cdSet_other _ _ _ _ hd2]
  | some v =>
    obtain ⟨-, c0, u0, hv⟩ :=
      hinv (some e.timestamp, v) (cdFind_mem cd (some e.timestamp) v hK)
    simp only at hv
    subst hv
    refine ⟨cdSet (cdSet cd (some e.timestamp)
        (Json.obj [("count", Json.num (max e.count c0)), ("uniques", Json.num u0)]))
      (some e.timestamp)
        (Json.obj [("count", Json.num (max e.count c0)),
                   ("uniques", Json.num (max e.uniques u0))]), ?_, ?_, ?_, ?_⟩
    · simp [processViewsItem, pyIndex, jStr, jObjFields, pyMaxNum, ht, hc, hu, hK,
        cdFind_cdSet_self, getField_cu_count, getField_cu_uniques,
        setField_cu_count, setField_cu_uniques]
    · exact VCInv_cdSet _ _ _ _ (VCInv_cdSet _ _ _ _ hinv)
    · intro hn
      exact cdSet_keys_nodup _ _ _ (cdSet_keys_nodup _ _ _ hn)
    · intro ts
      by_cases hd : e.timestamp = ts
      · subst hd
        rw [if_pos rfl]
        simp [cdVCLookup, cdFind_cdSet_self, hK, getField_cu_count,
          getField_cu_uniques, mergePoint]
      · rw [if_neg hd]
        have hd2 : (some e.timestamp : Option String) ≠ some ts := by
          simpa using hd
        simp [cdVCLookup, cdFind_cdSet_other _ _ _ _ hd2]

/-- Folding all well-formed views/clones items of one entry. -/
theorem processViewsItems_spec :
    ∀ (items : List Json) (cd : List (Option String × Json)),
      VCInv cd → (∀ i ∈ items, wfVCItemB i = true) →
      ∃ cd', items.foldlM processViewsItem cd = some cd' ∧ VCInv cd' ∧
        ((cd.map Prod.fst).Nodup → (cd'.map Prod.fst).Nodup) ∧
        ∀ ts, cdVCLookup cd' ts =
          specVCMaxAt (items.filterMap toVCEntry) ts (cdVCLookup cd ts) := by
  intro items
  induction items with
  | nil =>
    intro cd hinv _
    exact ⟨cd, rfl, hinv, id, fun ts => rfl⟩
  | cons i rest ih =>
    intro cd hinv hwf
    have hi : (toVCEntry i).isSome = true := hwf i (List.mem_cons_self _ _)
    obtain ⟨e, he⟩ := Option.isSome_iff_exists.mp hi
    obtain ⟨cd1, heq, hinv1, hnodup1, hchar1⟩ := processViewsItem_spec cd i e hinv he
    obtain ⟨cd', heq', hinv', hnodup', hchar'⟩ :=
      ih cd1 hinv1 (fun j hj => hwf j (List.mem_cons_of_mem _ hj))
    refine ⟨cd', ?_, hinv', fun hn => hnodup' (hnodup1 hn), ?_⟩
    · rw [List.foldlM_cons, heq]
      exact heq'
    · intro ts
      rw [hchar' ts]
      simp only [List.filterMap_cons, he]
      rw [specVCMaxAt_cons]
      rw [hchar1 ts]

theorem wfVCEntryB_inv (dataType : String) (entry : Json)
    (h : wfVCEntryB dataType entry = true) :
    ∃ fs dfs items, entry = Json.obj fs ∧
      (getField fs "data").getD (Json.obj []) = Json.obj dfs ∧
      (getField dfs dataType).getD (Json.arr []) = Json.arr items ∧
      ∀ i ∈ items, wfVCItemB i = true := by
  cases entry with
  | obj fs =>
    simp only [wfVCEntryB] at h
    cases hdv : (getField fs "data").getD (Json.obj []) with
    | obj dfs =>
      rw [hdv] at h
      have h2 : (match (getField dfs dataType).getD (Json.arr []) with
        | Json.arr items => items.all wfVCItemB
        | _ => false) = true := h
      cases hiv : (getField dfs dataType).getD (Json.arr []) with
      | arr items =>
        rw [hiv] at h2
        exact ⟨fs, dfs, items, rfl, hdv, hiv, fun i hi => List.all_eq_true.mp h2 i hi⟩
      | null => rw [hiv] at h2; exact Bool.noConfusion h2
      | bool b => rw [hiv] at h2; exact Bool.noConfusion h2
      | num n => rw [hiv] at h2; exact Bool.noConfusion h2
      | str s => rw [hiv] at h2; exact Bool.noConfusion h2
      | obj fs2 => rw [hiv] at h2; exact Bool.noConfusion h2
    | null => rw [hdv] at h; exact Bool.noConfusion h
    | bool b => rw [hdv] at h; exact Bool.noConfusion h
    | num n => rw [hdv] at h; exact Bool.noConfusion h
    | str s => rw [hdv] at h; exact Bool.noConfusion h
    | arr l => rw [hdv] at h; exact Bool.noConfusion h
  | null => exact Bool.noConfusion h
  | bool b => exact Bool.noConfusion h
  | num n => exact Bool.noConfusion h
  | str s => exact Bool.noConfusion h
  | arr l => exact Bool.noConfusion h

/-- Folding one well-formed entry of a views/clones snapshot. -/
theorem processVCEntry_spec (dataType : String)
    (hd : dataType = "views" ∨ dataType = "clones") (ts : Option String)
    (entry : Json) (hwf : wfVCEntryB dataType entry = true)
    (cd : List (Option String × Json)) (hinv : VCInv cd) :
    ∃ cd', processEntry dataType ts cd entry = some cd' ∧ VCInv cd' ∧
      ((cd.map Prod.fst).Nodup → (cd'.map Prod.fst).Nodup) ∧
      ∀ t, cdVCLookup cd' t =
        specVCMaxAt (entryVCContribs dataType entry) t (cdVCLookup cd t) := by
  obtain ⟨fs, dfs, items, rfl, hdv, hiv, hitems⟩ := wfVCEntryB_inv dataType entry hwf
  obtain ⟨cd', heq, hinv', hnodup', hchar'⟩ := processViewsItems_spec items cd hinv hitems
  refine ⟨cd', ?_, hinv', hnodup', ?_⟩
  · unfold processEntry
    rw [if_pos hd]
    show ((pyGet (Json.obj fs) "data" (Json.obj [])).bind fun dataVal =>
      (pyGet dataVal dataType (Json.arr [])).bind fun itemsVal =>
        (pyIter itemsVal).bind fun items2 =>
          items2.foldlM processViewsItem cd) = some cd'
    rw [show pyGet (Json.obj fs) "data" (Json.obj []) =
      some (Json.obj dfs) from by simp [pyGet, hdv]]
    rw [Option.some_bind]
    show (pyGet (Json.obj dfs) dataType (Json.arr [])).bind _ = some cd'
    rw [show pyGet (Json.obj dfs) dataType (Json.arr []) =
      some (Json.arr items) from by simp [pyGet, hiv]]
    rw [Option.some_bind]
    show (pyIter (Json.arr items)).bind _ = some cd'
    rw [show pyIter (Json.arr items) = some items from rfl, Option.some_bind]
    exact heq
  · intro t
    rw [hchar' t]
    have : entryVCContribs dataType (Json.obj fs) = items.filterMap toVCEntry := by
      simp only [entryVCContribs]
      rw [hdv]
      show (match (getField dfs dataType).getD (Json.arr []) with
        | Json.arr items => List.filterMap toVCEntry items
        | _ => []) = List.filterMap toVCEntry items
      rw [hiv]
    rw [this]

/-- Folding all well-formed entries of one views/clones snapshot. -/
theorem processVCEntries_spec (dataType : String)
    (hd : dataType = "views" ∨ dataType = "clones") (ts : Option String) :
    ∀ (entries : List Json) (cd : List (Option String × Json)),
      VCInv cd → (∀ e ∈ entries, wfVCEntryB dataType e = true) →
      ∃ cd', entries.foldlM (processEntry dataType ts) cd = some cd' ∧ VCInv cd' ∧
        ((cd.map Prod.fst).Nodup → (cd'.map Prod.fst).Nodup) ∧
        ∀ t, cdVCLookup cd' t =
          specVCMaxAt ((entries.map (entryVCContribs dataType)).flatten) t
            (cdVCLookup cd t) := by
  intro entries
  induction entries with
  | nil =>
    intro cd hinv _
    exact ⟨cd, rfl, hinv, id, fun t => rfl⟩
  | cons en rest ih =>
    intro cd hinv hwf
    obtain ⟨cd1, heq, hinv1, hnodup1, hchar1⟩ :=
      processVCEntry_spec dataType hd ts en (hwf en (List.mem_cons_self _ _)) cd hinv
    obtain ⟨cd', heq', hinv', hnodup', hchar'⟩ :=
      ih cd1 hinv1 (fun j hj => hwf j (List.mem_cons_of_mem _ hj))
    refine ⟨cd', ?_, hinv', fun hn => hnodup' (hnodup1 hn), ?_⟩
    · rw [List.foldlM_cons, heq]
      exact heq'
    · intro t
      rw [hchar' t]
      simp only [List.map_cons, List.flatten_cons]
      rw [specVCMaxAt_append]
      rw [hchar1 t]

theorem wfVCFileB_inv (dataType : String) (f : JFile)
    (h : wfVCFileB dataType f = true) :
    ∃ entries, f.content = some (Json.arr entries) ∧
      ∀ e ∈ entries, wfVCEntryB dataType e = true := by
  obtain ⟨name, content⟩ := f
  cases content with
  | some j =>
    cases j with
    | arr entries =>
      exact ⟨entries, rfl, fun e he => List.all_eq_true.mp h e he⟩
    | null => exact Bool.noConfusion h
    | bool b => exact Bool.noConfusion h
    | num n => exact Bool.noConfusion h
    | str s => exact Bool.noConfusion h
    | obj fs => exact Bool.noConfusion h
  | none => exact Bool.noConfusion h

/-- Folding one well-formed views/clones snapshot file. -/
theorem processVCFile_spec (dataType : String)
    (hd : dataType = "views" ∨ dataType = "clones") (f : JFile)
    (hwf : wfVCFileB dataType f = true) (cd : List (Option String × Json))
    (hinv : VCInv cd) :
    ∃ cd', processFile dataType cd f = some cd' ∧ VCInv cd' ∧
      ((cd.map Prod.fst).Nodup → (cd'.map Prod.fst).Nodup) ∧
      ∀ t, cdVCLookup cd' t =
        specVCMaxAt (fileVCContribs dataType f) t (cdVCLookup cd t) := by
  obtain ⟨entries, hcontent, hentries⟩ := wfVCFileB_inv dataType f hwf
  obtain ⟨cd', heq, hinv', hnodup', hchar'⟩ :=
    processVCEntries_spec dataType hd (extract_timestamp_from_filename f.name)
      entries cd hinv hentries
  refine ⟨cd', ?_, hinv', hnodup', ?_⟩
  · unfold processFile
    rw [hcontent]
    exact heq
  · intro t
    rw [hchar' t]
    have : fileVCContribs dataType f = (entries.map (entryVCContribs dataType)).flatten := by
      simp only [fileVCContribs]
      rw [hcontent]
    rw [this]

/-- Folding a list of well-formed views/clones snapshot files. -/
theorem processVCFiles_spec (dataType : String)
    (hd : dataType = "views" ∨ dataType = "clones") :
    ∀ (files : List JFile) (cd : List (Option String × Json)),
      VCInv cd → (∀ f ∈ files, wfVCFileB dataType f = true) →
      ∃ cd', files.foldlM (processFile dataType) cd = some cd' ∧ VCInv cd' ∧
        ((cd.map Prod.fst).Nodup → (cd'.map Prod.fst).Nodup) ∧
        ∀ t, cdVCLookup cd' t =
          specVCMaxAt ((files.map (fileVCContribs dataType)).flatten) t
            (cdVCLookup cd t) := by
  intro files
  induction files with
  | nil =>
    intro cd hinv _
    exact ⟨cd, rfl, hinv, id, fun t => rfl⟩
  | cons f rest ih =>
    intro cd hinv hwf
    obtain ⟨cd1, heq, hinv1, hnodup1, hchar1⟩ :=
      processVCFile_spec dataType hd f (hwf f (List.mem_cons_self _ _)) cd hinv
    obtain ⟨cd', heq', hinv', hnodup', hchar'⟩ :=
      ih cd1 hinv1 (fun j hj => hwf j (List.mem_cons_of_mem _ hj))
    refine ⟨cd', ?_, hinv', fun hn => hnodup' (hnodup1 hn), ?_⟩
    · rw [List.foldlM_cons, heq]
      exact heq'
    · intro t
      rw [hchar' t]
      simp only [List.map_cons, List.flatten_cons]
      rw [specVCMaxAt_append]
      rw [hchar1 t]

/-- One entry of the serialized views/clones output (line 52), paired
with its sort key. -/
def vcPairOut (p : Option String × Json) : Option (Option String × Json) := do
  let fs ← jObjFields p.2
  let c ← getField fs "count"
  let u ← getField fs "uniques"
  some (p.1, Json.obj [("timestamp", optStr p.1), ("count", c), ("uniques", u)])

theorem serialize_vc_spec :
    ∀ (cd : List (Option String × Json)), VCInv cd →
      ∃ pairs, cd.mapM vcPairOut = some pairs ∧
        pairs.map Prod.fst = cd.map Prod.fst := by
  intro cd
  induction cd with
  | nil => exact fun _ => ⟨[], rfl, rfl⟩
  | cons p rest ih =>
    intro hinv
    obtain ⟨-, c, u, hv⟩ := hinv p (List.mem_cons_self _ _)
    obtain ⟨pairs, hpairs, hkeys⟩ := ih (fun q hq => hinv q (List.mem_cons_of_mem _ hq))
    have hp1 : vcPairOut p =
        some (p.1, Json.obj [("timestamp", optStr p.1), ("count", Json.num c),
          ("uniques", Json.num u)]) := by
      simp [vcPairOut, hv, jObjFields, getField_cu_count, getField_cu_uniques]
    refine ⟨(p.1, Json.obj [("timestamp", optStr p.1), ("count", Json.num c),
      ("uniques", Json.num u)]) :: pairs, ?_, ?_⟩
    · rw [List.mapM_cons, hp1, hpairs]
      rfl
    · simp only [List.map_cons, hkeys]

theorem serializeCombined_vc (dataType : String)
    (hd : dataType = "views" ∨ dataType = "clones")
    (cd : List (Option String × Json)) (hinv : VCInv cd) :
    ∃ pairs, serializeCombined dataType cd = some pairs ∧
      pairs.map Prod.fst = cd.map Prod.fst := by
  obtain ⟨pairs, hpairs, hkeys⟩ := serialize_vc_spec cd hinv
  refine ⟨pairs, ?_, hkeys⟩
  unfold serializeCombined
  rw [if_pos hd]
  exact hpairs

/-- End-to-end combiner correctness for any directory of well-formed
raw views or clones snapshots: the run succeeds, the output has
pairwise distinct timestamp keys and is sorted ascending, and
combined_data holds, per item timestamp, exactly the running maximum
of count and of uniques over all contributions of the globbed
snapshots. -/
theorem combine_vc_spec (dataType : String)
    (hd : dataType = "views" ∨ dataType = "clones") (repo : String)
    (files : List JFile)
    (hwf : ∀ f ∈ files, globMatch repo dataType f.name = true →
      wfVCFileB dataType f = true) :
    ∃ cd pairs,
      (files.filter (fun f => globMatch repo dataType f.name)).foldlM
        (processFile dataType) [] = some cd ∧
      serializeCombined dataType cd = some pairs ∧
      pySortPairs pairs = some (pairs.insertionSort tsLe) ∧
      combine_json_files repo dataType files =
        some ((pairs.insertionSort tsLe).map Prod.snd) ∧
      ((pairs.insertionSort tsLe).map Prod.fst).Nodup ∧
      (pairs.insertionSort tsLe).Sorted tsLe ∧
      (∀ t, cdVCLookup cd t = specVCMaxAt (vcContribs repo dataType files) t none) := by
  have hwfm : ∀ f ∈ files.filter (fun f => globMatch repo dataType f.name),
      wfVCFileB dataType f = true := by
    intro f hf
    obtain ⟨hmem, hglob⟩ := List.mem_filter.mp hf
    exact hwf f hmem hglob
  obtain ⟨cd, hfold, hinv, hnodup, hchar⟩ :=
    processVCFiles_spec dataType hd
      (files.filter (fun f => globMatch repo dataType f.name))
      [] (fun p hp => absurd hp (List.not_mem_nil p)) hwfm
  obtain ⟨pairs, hser, hpkeys⟩ := serializeCombined_vc dataType hd cd hinv
  have hsome : ∀ p ∈ pairs, p.1.isSome = true := by
    intro p hp
    have hpk : p.1 ∈ pairs.map Prod.fst := List.mem_map.mpr ⟨p, hp, rfl⟩
    rw [hpkeys] at hpk
    obtain ⟨q, hq, hqk⟩ := List.mem_map.mp hpk
    rw [← hqk]
    exact (hinv q hq).1
  obtain ⟨hsort, hsorted, hperm⟩ := pySortPairs_allSome pairs hsome
  have hcp : combine_pairs repo dataType files = some pairs := by
    simp only [combine_pairs]
    rw [hfold]
    exact hser
  have hcj : combine_json_files repo dataType files =
      some ((pairs.insertionSort tsLe).map Prod.snd) := by
    simp only [combine_json_files]
    rw [hcp]
    show (pySortPairs pairs).bind (fun sorted => some (sorted.map Prod.snd)) = _
    rw [hsort]
    rfl
  refine ⟨cd, pairs, hfold, hser, hsort, hcj, ?_, hsorted, ?_⟩
  · rw [List.Perm.nodup_iff (hperm.map Prod.fst), hpkeys]
    exact hnodup (by simp)
  · intro t
    rw [hchar t]
    have : cdVCLookup [] t = none := rfl
    rw [this]
    rfl

/-- C8: the combiner max-merges, for every set of raw snapshots and
every sub-key kind.  For every directory of well-formed raw snapshots
of the given data type the run succeeds, the output series has
pairwise distinct timestamp keys sorted ascending, and the combined
value holds, per sub-key, exactly the running maximum — not the sum —
of count and of uniques over all snapshot contributions: per date and
referrer for referrers, per item timestamp for views and for clones,
and per date and path for paths (whose title is the first seen).  In
particular two referrers snapshots for the same date with counts 5 and
8 (uniques 3 and 1) for google combine to count 8 and uniques 3; two
views snapshots sharing a daily item timestamp with counts 5 and 8
(uniques 2 and 1) combine to count 8 and uniques 2; and two paths
snapshots for the same date and path with counts 5 and 8 combine to
count 8, uniques 2, keeping the first-seen title. -/
theorem claim_C8 :
    (∀ (repo : String) (files : List JFile),
      (∀ f ∈ files, globMatch repo "referrers" f.name = true → wfRefFileB f = true) →
      ∃ cd pairs,
        combine_json_files repo "referrers" files =
          some ((pairs.insertionSort tsLe).map Prod.snd) ∧
        serializeCombined "referrers" cd = some pairs ∧
        ((pairs.insertionSort tsLe).map Prod.fst).Nodup ∧
        (pairs.insertionSort tsLe).Sorted tsLe ∧
        (∀ d ρ, cdRefLookup cd d ρ = specMaxAt (refContribs repo files) d ρ none)) ∧
    (∀ (dataType repo : String) (files : List JFile),
      (dataType = "views" ∨ dataType = "clones") →
      (∀ f ∈ files, globMatch repo dataType f.name = true →
        wfVCFileB dataType f = true) →
      ∃ cd pairs,
        combine_json_files repo dataType files =
          some ((pairs.insertionSort tsLe).map Prod.snd) ∧
        serializeCombined dataType cd = some pairs ∧
        ((pairs.insertionSort tsLe).map Prod.fst).Nodup ∧
        (pairs.insertionSort tsLe).Sorted tsLe ∧
        (∀ t, cdVCLookup cd t = specVCMaxAt (vcContribs repo dataType files) t none)) ∧
    (∀ (repo : String) (files : List JFile),
      (∀ f ∈ files, globMatch repo "paths" f.name = true → wfPathFileB f = true) →
      ∃ cd pairs,
        combine_json_files repo "paths" files =
          some ((pairs.insertionSort tsLe).map Prod.snd) ∧
        serializeCombined "paths" cd = some pairs ∧
        ((pairs.insertionSort tsLe).map Prod.fst).Nodup ∧
        (pairs.insertionSort tsLe).Sorted tsLe ∧
        (∀ d π, cdPathLookup cd d π = specPathMaxAt (pathContribs repo files) d π none)) ∧
    combine_json_files "metrics" "referrers" [refSnap5, refSnap8] =
      some [Json.obj [("timestamp", Json.str "2024-03-05"),
        ("data", Json.arr [Json.obj [("referrer", Json.str "google"),
          ("count", Json.num 8), ("uniques", Json.num 3)]])]] ∧
    combine_json_files "metrics" "views" [viewSnapA, viewSnapB] =
      some [Json.obj [("timestamp", Json.str "2024-03-04T00:00:00Z"),
        ("count", Json.num 8), ("uniques", Json.num 2)]] ∧
    combine_json_files "metrics" "paths" [pathSnapA, pathSnapB] =
      some [Json.obj [("timestamp", Json.str "2024-03-06"),
        ("data", Json.arr [Json.obj [("path", Json.str "/index.html"),
          ("title", Json.str "Home"), ("count", Json.num 8),
          ("uniques", Json.num 2)]])]] := by
  refine ⟨?_, ?_, ?_, rfl, rfl, rfl⟩
  · intro repo files hwf
    obtain ⟨cd, pairs, hfold, hser, hsort, hcj, hnodup, hsorted, hchar⟩ :=
      combine_referrers_spec repo files hwf
    exact ⟨cd, pairs, hcj, hser, hnodup, hsorted, hchar⟩
  · intro dataType repo files hd hwf
    obtain ⟨cd, pairs, hfold, hser, hsort, hcj, hnodup, hsorted, hchar⟩ :=
      combine_vc_spec dataType hd repo files hwf
    exact ⟨cd, pairs, hcj, hser, hnodup, hsorted, hchar⟩
  · intro repo files hwf
    obtain ⟨cd, pairs, hfold, hser, hsort, hcj, hnodup, hsorted, hchar⟩ :=
      combine_paths_spec repo files hwf
    exact ⟨cd, pairs, hcj, hser, hnodup, hsorted, hchar⟩

/-- Witness for C8: each of the three universal components applied to a
concrete pair of same-date snapshots of its kind, discharging the
well-formedness hypotheses there. -/
theorem claim_C8_witness :
    (∃ cd pairs,
      combine_json_files "metrics" "referrers" [refSnap5, refSnap8] =
        some ((pairs.insertionSort tsLe).map Prod.snd) ∧
      serializeCombined "referrers" cd = some pairs ∧
      ((pairs.insertionSort tsLe).map Prod.fst).Nodup ∧
      (pairs.insertionSort tsLe).Sorted tsLe ∧
      (∀ d ρ, cdRefLookup cd d ρ =
        specMaxAt (refContribs "metrics" [refSnap5, refSnap8]) d ρ none)) ∧
    (∃ cd pairs,
      combine_json_files "metrics" "views" [viewSnapA, viewSnapB] =
        some ((pairs.insertionSort tsLe).map Prod.snd) ∧
      serializeCombined "views" cd = some pairs ∧
      ((pairs.insertionSort tsLe).map Prod.fst).Nodup ∧
      (pairs.insertionSort tsLe).Sorted tsLe ∧
      (∀ t, cdVCLookup cd t =
        specVCMaxAt (vcContribs "metrics" "views" [viewSnapA, viewSnapB]) t none)) ∧
    (∃ cd pairs,
      combine_json_files "metrics" "paths" [pathSnapA, pathSnapB] =
        some ((pairs.insertionSort tsLe).map Prod.snd) ∧
      serializeCombined "paths" cd = some pairs ∧
      ((pairs.insertionSort tsLe).map Prod.fst).Nodup ∧
      (pairs.insertionSort tsLe).Sorted tsLe ∧
      (∀ d π, cdPathLookup cd d π =
        specPathMaxAt (pathContribs "metrics" [pathSnapA, pathSnapB]) d π none)) :=
  ⟨claim_C8.1 "metrics" [refSnap5, refSnap8] (by
      intro f hf h
      cases hf with
      | head => rfl
      | tail _ hf2 =>
        cases hf2 with
        | head => rfl
        | tail _ hf3 => cases hf3),
   claim_C8.2.1 "views" "metrics" [viewSnapA, viewSnapB] (Or.inl rfl) (by
      intro f hf h
      cases hf with
      | head => rfl
      | tail _ hf2 =>
        cases hf2 with
        | head => rfl
        | tail _ hf3 => cases hf3),
   claim_C8.2.2.1 "metrics" [pathSnapA, pathSnapB] (by
      intro f hf h
      cases hf with
      | head => rfl
      | tail _ hf2 =>
        cases hf2 with
        | head => rfl
        | tail _ hf3 => cases hf3)⟩
